import Mathlib

/-!
Verification of the compiler front end: error-tolerant parsing into a
lossless concrete syntax tree, and lowering of that tree into a typed
high-level IR with lexical scoping and structural type checking.

The definitions below are a shallow embedding of the Rust sources
(crates/parser/src/lib.rs, crates/parser/src/grammar.rs,
crates/hir/src/lib.rs).  Machine integers are modelled as Nat with
explicit bounds; fallible code returns Except/Option; arenas are
append-only lists addressed by position; HashMap is modelled as an
association list with overwriting insert.
-/

namespace Front

/-- A source range, as in text_size::TextRange: start and end offsets. -/
structure Rng where
  start : Nat
  stop : Nat
deriving DecidableEq, Repr

/-- Modelled from the spec: resolved_index::Ty, a closed tagged variant
over {Unknown, Void, U32, struct-reference} with structural equality
(the resolved_index crate is not part of the excerpted sources). -/
inductive Ty where
  | Unknown
  | Void
  | U32
  | Strukt (name : String)
deriving DecidableEq, Repr

/-- Modelled from the spec: resolved_index::Item discriminates
{Function, Strukt with ordered (name, Ty) fields}. -/
inductive Item where
  | Function
  | Strukt (fields : List (String × Ty))
deriving DecidableEq, Repr

/-- Modelled from the spec: resolved_index::Stub, a per-module table
from item name to Item (HashMap modelled as an association list). -/
structure Stub where
  items : List (String × Item)
deriving DecidableEq, Repr

/-- Modelled from the spec: resolved_index::Index, the cross-module
stub index mapping module name to Stub. -/
structure Index where
  stubs : List (String × Stub)
deriving DecidableEq, Repr

/-- resolved_index::Path: a resolved {module name, item name} pair. -/
structure Path where
  module : String
  item : String
deriving DecidableEq, Repr

/-- Look a key up in an association list (HashMap::get). -/
def lookupA {α : Type} (l : List (String × α)) (k : String) : Option α :=
  (l.find? (fun p => p.1 = k)).map (fun p => p.2)

/-- Insert into an association list, overwriting any existing binding
for the key (HashMap::insert). -/
def insertA {α : Type} (l : List (String × α)) (k : String) (v : α) :
    List (String × α) :=
  if (l.find? (fun p => p.1 = k)).isSome then
    l.map (fun p => if p.1 = k then (k, v) else p)
  else
    l ++ [(k, v)]

/-- Modelled from the spec: the cst crate's typed view of a binary
operator token (cst::BinaryOp); the token payload is dropped since
lowering only inspects the discriminant. -/
inductive CBinOp where
  | EqEq
  | BangEq
  | Plus
  | Hyphen
  | Star
  | Slash
  | Percent
  | Caret
  | Lt
  | Gt
  | LtEq
  | GtEq
  | LtLt
  | GtGt
  | Pipe
  | And
  | PipePipe
  | AndAnd
deriving DecidableEq, Repr

/-- Modelled from the spec: cst::Path — a foreign path has a module
name and an item name, a local path only an item name; each name
accessor yields the identifier text together with its range, and each
path node has a range of its own. -/
inductive CPath where
  | ForeignPath (rng : Rng) (moduleName : Option (String × Rng))
      (itemName : Option (String × Rng))
  | LocalPath (rng : Rng) (itemName : Option (String × Rng))
deriving DecidableEq, Repr

mutual
/-- Modelled from the spec: cst::Expr, the typed view of expression
nodes in the CST; absent sub-nodes (parse errors) appear as none. -/
inductive CExpr where
  | BinaryExpr (rng : Rng) (lhs rhs : Option CExpr) (op : Option CBinOp)
  | BlockExpr (rng : Rng) (stmts : List CStmt)
  | CallExpr (rng : Rng) (path : Option CPath)
  | VariableExpr (rng : Rng) (name : String)
  | IntegerExpr (rng : Rng) (text : String)

/-- Modelled from the spec: cst::Stmt — the only statement form is a
var statement with an optional name and optional initializer. -/
inductive CStmt where
  | VarStmt (name : Option String) (value : Option CExpr)
end

/-- Modelled from the spec: a cst::Item is either a struct item
(skipped by lowering) or a function item with an optional name and an
optional block body. -/
inductive CItem where
  | Strukt
  | Function (name : Option String) (body : Option (Rng × List CStmt))

/-- The range accessor of a CST expression node. -/
def CExpr.rng : CExpr → Rng
  | .BinaryExpr r _ _ _ => r
  | .BlockExpr r _ => r
  | .CallExpr r _ => r
  | .VariableExpr r _ => r
  | .IntegerExpr r _ => r

/-- The range accessor of a CST path node. -/
def CPath.rng : CPath → Rng
  | .ForeignPath r _ _ => r
  | .LocalPath r _ => r

/-- hir::BinaryOp. -/
inductive BinaryOp where
  | Add
  | Sub
  | Mul
  | Div
  | Mod
  | BitAnd
  | BitOr
  | BitXor
  | Shl
  | Shr
  | Eq
  | NEq
  | Lt
  | Gt
  | LtEq
  | GtEq
  | And
  | Or
deriving DecidableEq, Repr

/-- hir::Stmt: the id of a local definition. -/
inductive Stmt where
  | LocalDef (id : Nat)
deriving DecidableEq, Repr

/-- hir::LocalDef: the declared type id and initializer expression id. -/
structure LocalDef where
  ty : Nat
  value : Nat
deriving DecidableEq, Repr

/-- hir::Expr. -/
inductive Expr where
  | Missing
  | Integer (value : Nat)
  | Local (localDef : Nat)
  | Block (stmts : List Stmt)
  | Call (path : Path)
  | Binary (lhs rhs : Nat) (op : BinaryOp)
deriving DecidableEq, Repr

/-- hir::ErrorKind. -/
inductive ErrorKind where
  | UndefinedVariable
  | UndefinedModule
  | UndefinedItem
  | ExpectedFunctionFoundTy
  | TyMismatch (expected actual : String)
deriving DecidableEq, Repr

/-- hir::Error: a lowering diagnostic with its source range. -/
structure Error where
  kind : ErrorKind
  range : Rng
deriving DecidableEq, Repr

/-- The two places where lowering can panic in the Rust source: the
unwrap of the u32 parse in integer_expr, and the unwrap of the last
scope in stmt. -/
inductive PanicKind where
  | IntParse
  | EmptyScopes
deriving DecidableEq, Repr

/-- The read-only part of hir::LowerCtx: the unit's own stub, its
module name, and the cross-module index. -/
structure Ctx where
  stub : Stub
  stub_name : String
  index : Index

/-- The mutable part of hir::LowerCtx: the Hir under construction
(name map and the three arenas), the scope stack, and the diagnostics.
The scope stack is a list with the innermost scope first (Vec push/pop
at the back becomes cons/tail at the front; iter().rev() becomes
front-to-back traversal). -/
structure St where
  map : List (String × Nat)
  exprs : List Expr
  localDefs : List LocalDef
  tys : List Ty
  scopes : List (List (String × Nat))
  errors : List Error
deriving DecidableEq, Repr

/-- The empty Hir plus empty scope stack and no diagnostics. -/
def St.init : St := ⟨[], [], [], [], [], []⟩

/-- Arena::alloc for expressions: append and return the new id. -/
def allocExpr (e : Expr) (st : St) : Nat × St :=
  (st.exprs.length, { st with exprs := st.exprs ++ [e] })

/-- Arena::alloc for types. -/
def allocTy (t : Ty) (st : St) : Nat × St :=
  (st.tys.length, { st with tys := st.tys ++ [t] })

/-- Arena::alloc for local definitions. -/
def allocLocalDef (d : LocalDef) (st : St) : Nat × St :=
  (st.localDefs.length, { st with localDefs := st.localDefs ++ [d] })

/-- Scope lookup: walk the scope stack innermost-first; first hit
wins (the for loop over scopes.iter().rev() in variable_expr). -/
def lookupScopes : List (List (String × Nat)) → String → Option Nat
  | [], _ => none
  | s :: rest, n =>
    match lookupA s n with
    | some id => some id
    | none => lookupScopes rest n

/-- u32::from_str as used by integer_expr: an optional leading plus
sign, then one or more ASCII digits, failing on any other character,
on the empty string and on overflow past 2^32 - 1. -/
def parseU32 (s : String) : Option Nat :=
  let cs :=
    match s.data with
    | '+' :: rest => rest
    | cs => cs
  if cs.isEmpty then none
  else
    cs.foldl
      (fun acc c =>
        acc.bind (fun a =>
          if c.isDigit then
            let v := a * 10 + (c.toNat - 48)
            if v < 4294967296 then some v else none
          else none))
      (some 0)

/-- Modelled from the spec: resolved_index::pretty_print_ty, the type
renderer used in TyMismatch messages (the resolved_index crate is not
part of the excerpted sources). -/
def pretty_print_ty (t : Ty) (tys : List Ty) : String :=
  match t, tys with
  | .Unknown, _ => "unknown"
  | .Void, _ => "void"
  | .U32, _ => "u32"
  | .Strukt n, _ => n

/-- LowerCtx::expect_ty_match: compare the expected type against the
arena entry for the actual type id; on mismatch push a TyMismatch
diagnostic at the given range and return false. -/
def expect_ty_match (expected : Ty) (actual : Nat) (range : Rng)
    (st : St) : Bool × St :=
  let a := st.tys.getD actual .Unknown
  if expected = a then (true, st)
  else
    (false,
      { st with
        errors := st.errors ++
          [⟨.TyMismatch (pretty_print_ty expected st.tys)
              (pretty_print_ty a st.tys), range⟩] })

/-- LowerCtx::foreign_path: look the module up in the index (absent:
UndefinedModule), then the item in that module's stub (absent:
UndefinedItem); the ? operator on an absent name returns without a
diagnostic. -/
def foreign_path (ctx : Ctx) (_rng : Rng)
    (moduleName itemName : Option (String × Rng)) (st : St) :
    Option (Path × Item) × St :=
  match moduleName with
  | none => (none, st)
  | some (mtext, mrng) =>
    match lookupA ctx.index.stubs mtext with
    | none =>
      (none,
        { st with errors := st.errors ++ [⟨.UndefinedModule, mrng⟩] })
    | some moduleStub =>
      match itemName with
      | none => (none, st)
      | some (itext, irng) =>
        match lookupA moduleStub.items itext with
        | some item => (some (⟨mtext, itext⟩, item), st)
        | none =>
          (none,
            { st with errors := st.errors ++ [⟨.UndefinedItem, irng⟩] })

/-- LowerCtx::local_path: look the item up in the unit's own stub,
tagging the resulting Path with the current module's name. -/
def local_path (ctx : Ctx) (_rng : Rng)
    (itemName : Option (String × Rng)) (st : St) :
    Option (Path × Item) × St :=
  match itemName with
  | none => (none, st)
  | some (itext, irng) =>
    match lookupA ctx.stub.items itext with
    | some item => (some (⟨ctx.stub_name, itext⟩, item), st)
    | none =>
      (none, { st with errors := st.errors ++ [⟨.UndefinedItem, irng⟩] })

/-- LowerCtx::path: dispatch on the path's syntactic form. -/
def lowerPath (ctx : Ctx) (p : CPath) (st : St) :
    Option (Path × Item) × St :=
  match p with
  | .ForeignPath rng m i => foreign_path ctx rng m i st
  | .LocalPath rng i => local_path ctx rng i st

/-- The 1:1 operator token to BinaryOp mapping in binary_expr. -/
def mapOp : CBinOp → BinaryOp
  | .EqEq => .Eq
  | .BangEq => .NEq
  | .Plus => .Add
  | .Hyphen => .Sub
  | .Star => .Mul
  | .Slash => .Div
  | .Percent => .Mod
  | .Caret => .BitXor
  | .Lt => .Lt
  | .Gt => .Gt
  | .LtEq => .LtEq
  | .GtEq => .GtEq
  | .LtLt => .Shl
  | .GtGt => .Shr
  | .Pipe => .BitOr
  | .And => .BitAnd
  | .PipePipe => .Or
  | .AndAnd => .And

mutual
/-- LowerCtx::expr: an absent expression lowers to Missing/Unknown;
otherwise the shape-specific lowering runs and its expression is
allocated in the arena. -/
def lowerExprOpt (ctx : Ctx) (o : Option CExpr) (st : St) :
    Except PanicKind (Nat × Nat × St) :=
  match o with
  | none =>
    let (eid, st) := allocExpr .Missing st
    let (tid, st) := allocTy .Unknown st
    .ok (eid, tid, st)
  | some e =>
    match lowerExprCore ctx e st with
    | .error p => .error p
    | .ok (ex, tid, st) =>
      let (eid, st) := allocExpr ex st
      .ok (eid, tid, st)

/-- The per-shape expression lowering: LowerCtx::binary_expr,
block_expr, call_expr, variable_expr and integer_expr, in source
order of the dispatch in LowerCtx::expr. -/
def lowerExprCore (ctx : Ctx) (e : CExpr) (st : St) :
    Except PanicKind (Expr × Nat × St) :=
  match e with
  | .BinaryExpr _ lhsCst rhsCst opCst =>
    match lowerExprOpt ctx lhsCst st with
    | .error p => .error p
    | .ok (lhs0, lhsTy, st) =>
      match lowerExprOpt ctx rhsCst st with
      | .error p => .error p
      | .ok (rhs0, rhsTy, st) =>
        match opCst with
        | none =>
          let (tid, st) := allocTy .Unknown st
          .ok (.Missing, tid, st)
        | some opTok =>
          let op := mapOp opTok
          let (lhs, st) :=
            match lhsCst with
            | some e =>
              match expect_ty_match .U32 lhsTy (e.rng) st with
              | (true, st) => (lhs0, st)
              | (false, st) => allocExpr .Missing st
            | none => (lhs0, st)
          let (rhs, st) :=
            match rhsCst with
            | some e =>
              match expect_ty_match .U32 rhsTy (e.rng) st with
              | (true, st) => (rhs0, st)
              | (false, st) => allocExpr .Missing st
            | none => (rhs0, st)
          let (tid, st) := allocTy .U32 st
          .ok (.Binary lhs rhs op, tid, st)
  | .BlockExpr _ stmts =>
    let st := { st with scopes := [] :: st.scopes }
    match lowerStmts ctx stmts st with
    | .error p => .error p
    | .ok (hstmts, st) =>
      let st := { st with scopes := st.scopes.tail }
      let (tid, st) := allocTy .Void st
      .ok (.Block hstmts, tid, st)
  | .CallExpr _ pathCst =>
    match pathCst with
    | none =>
      let (tid, st) := allocTy .Void st
      .ok (.Missing, tid, st)
    | some p =>
      match lowerPath ctx p st with
      | (some (path, .Function), st) =>
        let (tid, st) := allocTy .Void st
        .ok (.Call path, tid, st)
      | (some (_, .Strukt _), st) =>
        let st :=
          { st with
            errors := st.errors ++
              [⟨.ExpectedFunctionFoundTy, p.rng⟩] }
        let (tid, st) := allocTy .Void st
        .ok (.Missing, tid, st)
      | (none, st) =>
        let (tid, st) := allocTy .Void st
        .ok (.Missing, tid, st)
  | .VariableExpr rng name =>
    match lookupScopes st.scopes name with
    | some localDefId =>
      .ok (.Local localDefId,
        (st.localDefs.getD localDefId ⟨0, 0⟩).ty, st)
    | none =>
      let st :=
        { st with errors := st.errors ++ [⟨.UndefinedVariable, rng⟩] }
      let (tid, st) := allocTy .Unknown st
      .ok (.Missing, tid, st)
  | .IntegerExpr _ text =>
    match parseU32 text with
    | some value =>
      let (tid, st) := allocTy .U32 st
      .ok (.Integer value, tid, st)
    | none => .error .IntParse

/-- LowerCtx::stmt: lower the initializer, allocate the LocalDef, and
bind the name (when present) in the innermost scope; the unwrap of
the last scope panics when the scope stack is empty. -/
def lowerStmt (ctx : Ctx) (s : CStmt) (st : St) :
    Except PanicKind (Stmt × St) :=
  match s with
  | .VarStmt name value =>
    match lowerExprOpt ctx value st with
    | .error p => .error p
    | .ok (vid, tid, st) =>
      let (localDefId, st) := allocLocalDef ⟨tid, vid⟩ st
      match name with
      | some n =>
        match st.scopes with
        | [] => .error .EmptyScopes
        | s0 :: rest =>
          .ok (.LocalDef localDefId,
            { st with scopes := insertA s0 n localDefId :: rest })
      | none => .ok (.LocalDef localDefId, st)

/-- The statement loop of LowerCtx::block_expr, in source order. -/
def lowerStmts (ctx : Ctx) (ss : List CStmt) (st : St) :
    Except PanicKind (List Stmt × St) :=
  match ss with
  | [] => .ok ([], st)
  | s :: rest =>
    match lowerStmt ctx s st with
    | .error p => .error p
    | .ok (hs, st) =>
      match lowerStmts ctx rest st with
      | .error p => .error p
      | .ok (hrest, st) => .ok (hs :: hrest, st)
end

/-- LowerCtx::function: lower the body (absent bodies included) and
record name to body-expression id in the Hir map. -/
def lowerFunction (ctx : Ctx) (name : String) (body : Option CExpr)
    (st : St) : Except PanicKind St :=
  match lowerExprOpt ctx body st with
  | .error p => .error p
  | .ok (eid, _, st) => .ok { st with map := insertA st.map name eid }

/-- One iteration of the item loop in hir::lower: struct items and
nameless function items are skipped; a named function item's body is
wrapped as a block expression and lowered. -/
def lowerItem (ctx : Ctx) (it : CItem) (st : St) :
    Except PanicKind St :=
  match it with
  | .Strukt => .ok st
  | .Function none _ => .ok st
  | .Function (some n) body =>
    lowerFunction ctx n (body.map (fun b => CExpr.BlockExpr b.1 b.2)) st

/-- The item loop of hir::lower. -/
def lowerItems (ctx : Ctx) (items : List CItem) (st : St) :
    Except PanicKind St :=
  match items with
  | [] => .ok st
  | it :: rest =>
    match lowerItem ctx it st with
    | .error p => .error p
    | .ok st => lowerItems ctx rest st

/-- hir::lower: walk the source file's items starting from the empty
Hir; the result carries the Hir arenas, the name map and the ordered
diagnostics (or the panic the Rust code would hit). -/
def lower (ctx : Ctx) (items : List CItem) : Except PanicKind St :=
  lowerItems ctx items St.init

/-- A lowering context with an empty local stub and an empty
cross-module index, for concrete runs. -/
def ctx0 : Ctx := ⟨⟨[]⟩, "main", ⟨[]⟩⟩

/-- A source file whose single function body initializes a variable
from the integer literal 4294967296 = 2^32, one past u32::MAX; the
literal's text is well-formed by the grammar (digits only). -/
def overflowItems : List CItem :=
  [.Function (some "f")
    (some (⟨9, 40⟩,
      [.VarStmt (some "x")
        (some (.IntegerExpr ⟨21, 31⟩ "4294967296"))]))]

/-- The same source file with the in-range literal 42. -/
def okItems : List CItem :=
  [.Function (some "f")
    (some (⟨9, 32⟩,
      [.VarStmt (some "x") (some (.IntegerExpr ⟨21, 23⟩ "42"))]))]

/-- A source file with a single named function whose body is absent
(a parse error ate the block). -/
def noBodyItems : List CItem := [.Function (some "f") none]

/-- A scoping scenario: the body binds x, then a nested block rebinds
x and uses it, then after the block x is used again, then x is rebound
in the same scope and used once more:
function f { var x = 1
             var b = { var x = 2  var y = x }
             var z = x
             var x = 3
             var w = x }. -/
def shadowItems : List CItem :=
  [.Function (some "f")
    (some (⟨11, 120⟩,
      [.VarStmt (some "x") (some (.IntegerExpr ⟨21, 22⟩ "1")),
       .VarStmt (some "b")
         (some (.BlockExpr ⟨44, 66⟩
           [.VarStmt (some "x") (some (.IntegerExpr ⟨54, 55⟩ "2")),
            .VarStmt (some "y") (some (.VariableExpr ⟨64, 65⟩ "x"))])),
       .VarStmt (some "z") (some (.VariableExpr ⟨88, 89⟩ "x")),
       .VarStmt (some "x") (some (.IntegerExpr ⟨100, 101⟩ "3")),
       .VarStmt (some "w") (some (.VariableExpr ⟨117, 118⟩ "x"))]))]

/-! ## The parser: crates/parser/src/lib.rs and grammar.rs -/

/-- syntax::TokenKind: exactly one trivia kind (whitespace); the
significant kinds the struct grammar inspects, and Other for any
other significant kind. -/
inductive TokenKind where
  | Whitespace
  | StructKw
  | Ident
  | LBrace
  | RBrace
  | Comma
  | Other
deriving DecidableEq, Repr

/-- lexer::Token: kind plus source range; the token's text is carried
directly (the input slice the range denotes). -/
structure Token where
  kind : TokenKind
  text : String
  range : Rng
deriving DecidableEq, Repr

/-- syntax::NodeKind. -/
inductive NodeKind where
  | SourceFile
  | Strukt
  | Field
  | Error
deriving DecidableEq, Repr

/-- parser::Event. -/
inductive Event where
  | StartNode (kind : NodeKind)
  | AddToken
  | FinishNode
deriving DecidableEq, Repr

/-- parser::Error: Expected carries the offending token's range,
Missing a position-only offset. -/
inductive PError where
  | Expected (range : Rng) (message : String)
  | Missing (offset : Nat) (message : String)
deriving DecidableEq, Repr

/-- Modelled from the spec: the Display rendering of a token kind
used by Parser::expect for its message (the syntax crate is not part
of the excerpted sources). -/
def kindName : TokenKind → String
  | .Whitespace => "whitespace"
  | .StructKw => "struct"
  | .Ident => "identifier"
  | .LBrace => "\x7b"
  | .RBrace => "\x7d"
  | .Comma => ","
  | .Other => "token"

/-- parser::Parser: the significant-token sequence, the cursor, the
event log and the collected errors. -/
structure PSt where
  tokens : List Token
  cursor : Nat
  events : List Event
  errors : List PError
deriving DecidableEq, Repr

/-- Parser::new: filter trivia out of the raw token sequence. -/
def PSt.new (raw : List Token) : PSt :=
  ⟨raw.filter (fun t => t.kind ≠ TokenKind.Whitespace), 0, [], []⟩

/-- Parser::eof. -/
def PSt.eof (p : PSt) : Bool := p.cursor = p.tokens.length

/-- Parser::peek. -/
def PSt.peek (p : PSt) : Option TokenKind :=
  (p.tokens.get? p.cursor).map (fun t => t.kind)

/-- Parser::at. -/
def PSt.at (p : PSt) (kind : TokenKind) : Bool := p.peek = some kind

/-- Parser::at_recovery: EOF, a brace, or a token starting an item. -/
def PSt.at_recovery (p : PSt) : Bool :=
  p.eof || p.at .LBrace || p.at .RBrace || p.at .StructKw

/-- Parser::start_node. -/
def PSt.start_node (p : PSt) (kind : NodeKind) : PSt :=
  { p with events := p.events ++ [.StartNode kind] }

/-- Parser::finish_node. -/
def PSt.finish_node (p : PSt) : PSt :=
  { p with events := p.events ++ [.FinishNode] }

/-- Parser::bump_any: emit AddToken and advance the cursor (the
callers establish the not-at-EOF assertion). -/
def PSt.bump_any (p : PSt) : PSt :=
  { p with events := p.events ++ [.AddToken], cursor := p.cursor + 1 }

/-- Parser::error: at a recovery point record a position-only Missing
diagnostic and consume nothing; otherwise record an Expected
diagnostic at the current token's range and wrap exactly one consumed
token in an Error node. -/
def PSt.error (p : PSt) (message : String) : PSt :=
  if p.at_recovery then
    { p with
      errors := p.errors ++
        [PError.Missing
          ((p.tokens.getD (p.cursor - 1) ⟨.Other, "", ⟨0, 0⟩⟩).range.stop)
          message] }
  else
    let p :=
      { p with
        errors := p.errors ++
          [PError.Expected (p.tokens.getD p.cursor ⟨.Other, "", ⟨0, 0⟩⟩).range
            message] }
    ((p.start_node .Error).bump_any).finish_node

/-- Parser::error_without_recovery: always records an Expected
diagnostic and wraps one consumed token in an Error node. -/
def PSt.error_without_recovery (p : PSt) (message : String) : PSt :=
  let p :=
    { p with
      errors := p.errors ++
        [PError.Expected (p.tokens.getD p.cursor ⟨.Other, "", ⟨0, 0⟩⟩).range
          message] }
  ((p.start_node .Error).bump_any).finish_node

/-- Parser::expect_with_name: consume on match, otherwise recover. -/
def PSt.expect_with_name (p : PSt) (kind : TokenKind) (name : String) :
    PSt :=
  if p.at kind then p.bump_any else p.error name

/-- Parser::expect. -/
def PSt.expect (p : PSt) (kind : TokenKind) : PSt :=
  p.expect_with_name kind (kindName kind)

/-- One iteration of the field loop in grammar::strukt: a Field node
with two expected identifiers, then an optional comma. -/
def fieldStep (p : PSt) : PSt :=
  let p := p.start_node .Field
  let p := p.expect_with_name .Ident "field name"
  let p := p.expect_with_name .Ident "type"
  let p := p.finish_node
  if p.at .Comma then p.bump_any else p

/-- The field loop of grammar::strukt, with explicit fuel: the loop
runs while not at a recovery point and not at a closing brace.  The
caller passes the remaining-token count as fuel; the forward-progress
theorem shows this fuel always suffices, which is exactly the
termination argument of the source. -/
def fieldsGo : Nat → PSt → PSt
  | 0, p => p
  | fuel + 1, p =>
    if ¬p.at_recovery ∧ ¬p.at .RBrace then fieldsGo fuel (fieldStep p)
    else p

/-- grammar::strukt. -/
def strukt (p : PSt) : PSt :=
  let p := p.start_node .Strukt
  let p := p.bump_any
  let p := p.expect_with_name .Ident "struct name"
  let p := p.expect .LBrace
  let p := fieldsGo (p.tokens.length - p.cursor) p
  let p := p.expect .RBrace
  p.finish_node

/-- grammar::item: dispatch on the current token's kind; the None arm
of the source is unreachable behind the caller's not-at-EOF guard. -/
def item (p : PSt) : PSt :=
  match p.peek with
  | some .StructKw => strukt p
  | some _ => p.error_without_recovery "item"
  | none => p

/-- The item loop of grammar::source_file, with explicit fuel (the
remaining-token count at entry; forward progress shows it suffices). -/
def itemsGo : Nat → PSt → PSt
  | 0, p => p
  | fuel + 1, p => if ¬p.eof then itemsGo fuel (item p) else p

/-- grammar::source_file. -/
def source_file (p : PSt) : PSt :=
  let p := p.start_node .SourceFile
  let p := itemsGo (p.tokens.length - p.cursor) p
  p.finish_node

/-! ## The tree builder: Sink::process_events -/

/-- Modelled from the spec: the CST produced by syntax::SyntaxBuilder,
an ordered tree whose internal nodes carry a NodeKind and whose leaves
are tokens including trivia. -/
inductive Tree where
  | node (kind : NodeKind) (children : List Tree)
  | leaf (token : Token)

mutual
/-- Decidable equality of trees (the automatic derivation does not
handle the nested occurrence of List Tree). -/
def decEqTree : (a b : Tree) → Decidable (a = b)
  | .leaf t1, .leaf t2 =>
    if h : t1 = t2 then .isTrue (by rw [h])
    else .isFalse (by intro he; cases he; exact h rfl)
  | .leaf _, .node _ _ => .isFalse (by intro h; exact Tree.noConfusion h)
  | .node _ _, .leaf _ => .isFalse (by intro h; exact Tree.noConfusion h)
  | .node k1 c1, .node k2 c2 =>
    if h : k1 = k2 then
      match decEqTreeList c1 c2 with
      | .isTrue hc => .isTrue (by rw [h, hc])
      | .isFalse hc => .isFalse (by intro he; cases he; exact hc rfl)
    else .isFalse (by intro he; cases he; exact h rfl)

/-- Decidable equality of forests. -/
def decEqTreeList : (a b : List Tree) → Decidable (a = b)
  | [], [] => .isTrue rfl
  | [], _ :: _ => .isFalse (by intro h; exact List.noConfusion h)
  | _ :: _, [] => .isFalse (by intro h; exact List.noConfusion h)
  | a :: as, b :: bs =>
    match decEqTree a b, decEqTreeList as bs with
    | .isTrue h1, .isTrue h2 => .isTrue (by rw [h1, h2])
    | .isFalse h1, _ => .isFalse (by intro he; cases he; exact h1 rfl)
    | _, .isFalse h2 => .isFalse (by intro he; cases he; exact h2 rfl)
end

instance : DecidableEq Tree := decEqTree

/-- The builder-plus-cursor state of parser::Sink: the stack of open
nodes (innermost first, children stored newest-first), the finished
root trees (newest first), the raw trivia-inclusive token sequence
and the cursor into it. -/
structure SinkSt where
  stack : List (NodeKind × List Tree)
  roots : List Tree
  tokens : List Token
  cursor : Nat
deriving DecidableEq

/-- SyntaxBuilder::start_node: open a new innermost node. -/
def SinkSt.startNode (st : SinkSt) (kind : NodeKind) : SinkSt :=
  { st with stack := (kind, []) :: st.stack }

/-- Attach a finished tree to the most recently opened node (or, with
no open node, to the finished roots). -/
def SinkSt.attach (st : SinkSt) (t : Tree) : SinkSt :=
  match st.stack with
  | (k, cs) :: rest => { st with stack := (k, t :: cs) :: rest }
  | [] => { st with roots := t :: st.roots }

/-- SyntaxBuilder::finish_node: close the innermost open node and
attach it to its parent. -/
def SinkSt.finishNode (st : SinkSt) : SinkSt :=
  match st.stack with
  | (k, cs) :: rest => SinkSt.attach { st with stack := rest } (.node k cs.reverse)
  | [] => st

/-- Sink::add_token: emit the token under the cursor as a leaf and
advance. -/
def SinkSt.addToken (st : SinkSt) : SinkSt :=
  let t := st.tokens.getD st.cursor ⟨.Other, "", ⟨0, 0⟩⟩
  SinkSt.attach { st with cursor := st.cursor + 1 } (.leaf t)

/-- Sink::skip_trivia: if the token under the cursor is trivia, emit
it as a leaf. -/
def SinkSt.skipTrivia (st : SinkSt) : SinkSt :=
  if h : st.cursor < st.tokens.length then
    if (st.tokens.get ⟨st.cursor, h⟩).kind = TokenKind.Whitespace then
      st.addToken
    else st
  else st

/-- Process one event against the builder. -/
def SinkSt.processEvent (st : SinkSt) : Event → SinkSt
  | .StartNode kind => st.startNode kind
  | .AddToken => st.addToken
  | .FinishNode => st.finishNode

/-- The loop of Sink::process_events: each event except the last is
processed and, when the NEXT event is StartNode or AddToken, trivia
is skipped; after the loop one final skip_trivia runs and the root's
FinishNode (the asserted last event) is performed. -/
def sinkRun : List Event → SinkSt → SinkSt
  | [], st => st
  | [_], st => st.skipTrivia.finishNode
  | e :: e2 :: rest, st =>
    let st := st.processEvent e
    let st :=
      match e2 with
      | .StartNode _ => st.skipTrivia
      | .AddToken => st.skipTrivia
      | .FinishNode => st
    sinkRun (e2 :: rest) st

/-- SyntaxBuilder::finish: the single finished root. -/
def SinkSt.finish (st : SinkSt) : Tree :=
  match st.roots.reverse with
  | [t] => t
  | ts => .node .SourceFile ts

/-- parser::parse, over the lexer's token sequence: filter trivia for
parsing decisions, run the grammar, then replay the event log against
the original sequence. -/
def parse (raw : List Token) : Tree × List PError :=
  let p := source_file (PSt.new raw)
  ((sinkRun p.events ⟨[], [], raw, 0⟩).finish, p.errors)

mutual
/-- The leaf tokens of a tree in order. -/
def treeLeaves : Tree → List Token
  | .leaf t => [t]
  | .node _ cs => treeLeavesList cs

/-- The leaf tokens of a forest in order. -/
def treeLeavesList : List Tree → List Token
  | [] => []
  | t :: ts => treeLeaves t ++ treeLeavesList ts
end

/-- Modelled from the spec: the lexer collaborator produces an
ordered, finite token sequence covering the input exactly, with
whitespace runs merged into single trivia tokens, so no two adjacent
tokens are both trivia.  The original input is the concatenation of
all token texts. -/
def lexWF (raw : List Token) : Prop :=
  raw.Chain' (fun a b =>
    ¬(a.kind = TokenKind.Whitespace ∧ b.kind = TokenKind.Whitespace))

/-- The claim's trivia-splicing rule, stated from the spec's words
for comparison with the source's sinkRun: after every StartNode and
AddToken event (and not after a FinishNode event), if the next raw
token is trivia it is emitted immediately; remaining trailing trivia
is flushed once after the synthetic root closes. -/
def claimSplice : List Event → SinkSt → SinkSt
  | [], st => st
  | e :: rest, st =>
    let st := st.processEvent e
    let st :=
      match e with
      | .StartNode _ => st.skipTrivia
      | .AddToken => st.skipTrivia
      | .FinishNode => st
    claimSplice rest st

/-- The claim's whole replay: splice per the claim's rule over every
event, then flush trailing trivia once after the root has closed. -/
def claimReplay (events : List Event) (st : SinkSt) : SinkSt :=
  (claimSplice events st).skipTrivia

/-! ## The pretty printer: hir::pretty_print -/

/-- hir::Hir: the name map and the three arenas. -/
structure Hir where
  map : List (String × Nat)
  exprs : List Expr
  localDefs : List LocalDef
  tys : List Ty
deriving DecidableEq, Repr

/-- The Hir part of the lowering state. -/
def St.toHir (st : St) : Hir := ⟨st.map, st.exprs, st.localDefs, st.tys⟩

/-- hir::lower with the source's result shape: the Hir paired with
the ordered diagnostics. -/
def lowerHir (ctx : Ctx) (items : List CItem) :
    Except PanicKind (Hir × List Error) :=
  match lower ctx items with
  | .error p => .error p
  | .ok st => .ok (st.toHir, st.errors)

/-- The fixed operator-to-spelling table of PrettyPrintCtx::expr. -/
def opSpelling : BinaryOp → String
  | .Add => "+"
  | .Sub => "-"
  | .Mul => "*"
  | .Div => "/"
  | .Mod => "%"
  | .BitAnd => "&"
  | .BitOr => "|"
  | .BitXor => "^"
  | .Shl => "<<"
  | .Shr => ">>"
  | .Eq => "=="
  | .NEq => "!="
  | .Lt => "<"
  | .Gt => ">"
  | .LtEq => "<="
  | .GtEq => ">="
  | .And => "&&"
  | .Or => "||"

/-- PrettyPrintCtx::newline: a line break plus one tab per
indentation level. -/
def newline (ind : Nat) : String :=
  "\n" ++ String.join (List.replicate ind "\t")

mutual
/-- PrettyPrintCtx::expr.  The recursion of the source follows arena
ids, which terminates on lowered output because operands precede the
expressions referencing them; on an arbitrary arena it need not, so
the embedding carries explicit fuel (exhausted fuel yields the empty
rendering). -/
def renderExpr (h : Hir) : Nat → Nat → Nat → String
  | 0, _, _ => ""
  | fuel + 1, ind, id =>
    match h.exprs.getD id .Missing with
    | .Missing => "?"
    | .Integer n => toString n
    | .Local d => "l" ++ toString d
    | .Call p => p.module ++ "." ++ p.item ++ "()"
    | .Binary l r op =>
      renderExpr h fuel ind l ++ " " ++ opSpelling op ++ " " ++
        renderExpr h fuel ind r
    | .Block stmts => renderBlock h fuel ind stmts
termination_by fuel _ _ => (fuel, 0, 0)

/-- PrettyPrintCtx::block_expr: an empty block renders as the empty
marker; otherwise one statement per line at one extra indent. -/
def renderBlock (h : Hir) (fuel ind : Nat) (stmts : List Stmt) : String :=
  if stmts.isEmpty then "\x7b\x7d"
  else
    "\x7b" ++ renderStmts h fuel (ind + 1) stmts ++ newline ind ++ "\x7d"
termination_by (fuel, 3, sizeOf stmts)

/-- The statement loop of PrettyPrintCtx::block_expr. -/
def renderStmts (h : Hir) (fuel ind : Nat) : List Stmt → String
  | [] => ""
  | s :: rest =>
    newline ind ++ renderStmt h fuel ind s ++ renderStmts h fuel ind rest
termination_by stmts => (fuel, 2, sizeOf stmts)

/-- PrettyPrintCtx::stmt: a local definition with its stable
synthetic name derived from the arena id. -/
def renderStmt (h : Hir) (fuel ind : Nat) : Stmt → String
  | .LocalDef d =>
    let ld := h.localDefs.getD d ⟨0, 0⟩
    "var l" ++ toString d ++ " " ++
      pretty_print_ty (h.tys.getD ld.ty .Unknown) h.tys ++ " = " ++
      renderExpr h fuel ind ld.value
termination_by s => (fuel, 1, sizeOf s)
end

/-- The item loop of hir::pretty_print: two line breaks between
items, each item as name, equals sign, body. -/
def renderItems (h : Hir) (fuel : Nat) : List (String × Nat) → String
  | [] => ""
  | [(n, b)] => n ++ " = " ++ renderExpr h fuel 0 b
  | (n, b) :: rest =>
    n ++ " = " ++ renderExpr h fuel 0 b ++ "\n\n" ++ renderItems h fuel rest

/-- The comparison used by pretty_print's sort_by_key: lexicographic
order on the item name. -/
def byName (a b : String × Nat) : Prop := a.1 ≤ b.1

instance : DecidableRel byName := fun a b =>
  inferInstanceAs (Decidable (a.1 ≤ b.1))

/-- hir::pretty_print: collect the map's entries, sort them by name,
and render each item in order.  The map argument stands for the
arbitrary iteration order HashMap::iter produces; determinism holds
because the sort cancels that order. -/
def pretty_print (h : Hir) (fuel : Nat) : String :=
  renderItems h fuel (h.map.insertionSort byName)

/-! ## Specification-side definitions used by the theorems -/

/-- Number of AddToken events in an event list. -/
def countAT (es : List Event) : Nat := es.count .AddToken

/-- Number of significant (non-trivia) tokens in a token list. -/
def countSig (l : List Token) : Nat :=
  (l.filter (fun t => t.kind ≠ TokenKind.Whitespace)).length

/-- Well-bracketing of an event list relative to a stack depth: a
FinishNode needs an open node, the depth returns to zero exactly at
the end, and tokens are only added inside an open node. -/
def goodEvents : List Event → Nat → Prop
  | [], d => d = 0
  | .StartNode _ :: r, d => goodEvents r (d + 1)
  | .AddToken :: r, d => 0 < d ∧ goodEvents r d
  | .FinishNode :: r, d => 0 < d ∧ (d = 1 → r = []) ∧ goodEvents r (d - 1)

/-- A balanced event segment: appended before any continuation it
preserves well-bracketing from any positive depth.  Every complete
grammar production emits such a segment. -/
def EvSeg (l : List Event) : Prop :=
  ∀ d r, 0 < d → goodEvents r d → goodEvents (l ++ r) d

/-- The leaves currently held by one open node's frame (children are
stored newest-first). -/
def frameLeaves (f : NodeKind × List Tree) : List Token :=
  treeLeavesList f.2.reverse

/-- All leaves emitted so far, in emission order: finished roots
first, then each open frame's children from the outermost frame to
the innermost. -/
def stateLeaves (st : SinkSt) : List Token :=
  treeLeavesList st.roots.reverse ++
    (st.stack.reverse.map frameLeaves).flatten

/-- The arena type id list lookup with the Unknown default. -/
def tyAt (st : St) (i : Nat) : Ty := st.tys.getD i .Unknown

/-- The type lowering assigns to a stored expression: Missing is
Unknown-typed, integers and binaries are U32, blocks and calls Void,
and a local reference carries its definition's recorded type. -/
def exprTyL (localDefs : List LocalDef) (tys : List Ty) : Expr → Ty
  | .Missing => .Unknown
  | .Integer _ => .U32
  | .Local d => tys.getD (localDefs.getD d ⟨0, 0⟩).ty .Unknown
  | .Block _ => .Void
  | .Call _ => .Void
  | .Binary _ _ _ => .U32

/-- exprTyL over a lowering state. -/
def exprTyIn (st : St) (e : Expr) : Ty := exprTyL st.localDefs st.tys e

/-- A well-typed binary operand position: the referenced expression
is Missing or has computed type U32. -/
def operandOK (st : St) (i : Nat) : Prop :=
  st.exprs.getD i .Missing = .Missing ∨
    exprTyIn st (st.exprs.getD i .Missing) = .U32

/-- A well-typed binary operand position in a finished Hir. -/
def operandOKHir (h : Hir) (i : Nat) : Prop :=
  h.exprs.getD i .Missing = .Missing ∨
    exprTyL h.localDefs h.tys (h.exprs.getD i .Missing) = .U32

/-- The well-typedness invariant of claim C2 over a whole arena:
every Binary expression's two operands are well-typed. -/
def binariesOK (st : St) : Prop :=
  ∀ e ∈ st.exprs, ∀ l r op, e = Expr.Binary l r op →
    operandOK st l ∧ operandOK st r

/-- Structural well-formedness of the lowering state: stored local
references and binary operands, local definitions and scope bindings
point into their arenas. -/
def wfSt (st : St) : Prop :=
  (∀ e ∈ st.exprs, ∀ d, e = Expr.Local d → d < st.localDefs.length) ∧
  (∀ e ∈ st.exprs, ∀ l r op, e = Expr.Binary l r op →
    l < st.exprs.length ∧ r < st.exprs.length) ∧
  (∀ ld ∈ st.localDefs, ld.ty < st.tys.length) ∧
  (∀ sc ∈ st.scopes, ∀ p ∈ sc, p.2 < st.localDefs.length)

/-- Arena evolution during lowering: each arena only grows at the
end, so earlier ids keep their entries. -/
def StExt (st st' : St) : Prop :=
  st.exprs <+: st'.exprs ∧ st.localDefs <+: st'.localDefs ∧
  st.tys <+: st'.tys

/-- A source file whose function body contains the well-typed binary
expression 1 + 2. -/
def binItems : List CItem :=
  [.Function (some "f")
    (some (⟨9, 36⟩,
      [.VarStmt (some "x")
        (some (.BinaryExpr ⟨21, 26⟩
          (some (.IntegerExpr ⟨21, 22⟩ "1"))
          (some (.IntegerExpr ⟨25, 26⟩ "2")) (some .Plus)))]))]

/-- The middle of the amended splicing schedule: before every
StartNode/AddToken event trivia is skipped, a FinishNode is processed
directly, and at the last event the pending trivia is flushed and the
root closed. -/
def spliceBeforeGo : List Event → SinkSt → SinkSt
  | [], st => st
  | [_], st => st.skipTrivia.finishNode
  | e :: rest, st =>
    let st :=
      match e with
      | .StartNode _ => st.skipTrivia
      | .AddToken => st.skipTrivia
      | .FinishNode => st
    spliceBeforeGo rest (st.processEvent e)

/-- The amended splicing rule as a whole: the first event is
processed with no preceding skip, every later StartNode/AddToken is
preceded by one trivia skip, and one final skip happens right before
the root's FinishNode. -/
def spliceBefore : List Event → SinkSt → SinkSt
  | [], st => st
  | [_], st => st.skipTrivia.finishNode
  | e :: rest, st => spliceBeforeGo rest (st.processEvent e)

/-- The default token value used when modelling infallible indexing
into the token sequence. -/
def dfltTok : Token := ⟨.Other, "", ⟨0, 0⟩⟩

/-- A concrete lossless-parsing input: the token sequence of
"struct S \x7bx u32,\x7d" with merged whitespace runs. -/
def lossTokens : List Token :=
  [⟨.StructKw, "struct", ⟨0, 6⟩⟩, ⟨.Whitespace, " ", ⟨6, 7⟩⟩,
   ⟨.Ident, "S", ⟨7, 8⟩⟩, ⟨.Whitespace, " ", ⟨8, 9⟩⟩,
   ⟨.LBrace, "\x7b", ⟨9, 10⟩⟩, ⟨.Ident, "x", ⟨10, 11⟩⟩,
   ⟨.Whitespace, " ", ⟨11, 12⟩⟩, ⟨.Ident, "u32", ⟨12, 15⟩⟩,
   ⟨.Comma, ",", ⟨15, 16⟩⟩, ⟨.RBrace, "\x7d", ⟨16, 17⟩⟩]

/-- The common contract of a complete parser production between two
parser states: tokens fixed, cursor monotone and in bounds, and the
emitted event delta a balanced segment whose AddToken count equals
the number of consumed tokens. -/
def StepOK (p q : PSt) : Prop :=
  q.tokens = p.tokens ∧ p.cursor ≤ q.cursor ∧
  (p.cursor ≤ p.tokens.length → q.cursor ≤ p.tokens.length) ∧
  ∃ d, q.events = p.events ++ d ∧ EvSeg d ∧
    countAT d + p.cursor = q.cursor

/-! ## Event segment lemmas -/

theorem evSeg_nil : EvSeg [] := by
  intro d r _ h
  simpa using h

theorem evSeg_addToken : EvSeg [.AddToken] := by
  intro d r hd h
  simpa [goodEvents] using ⟨hd, h⟩

theorem evSeg_append {a b : List Event} (ha : EvSeg a) (hb : EvSeg b) :
    EvSeg (a ++ b) := by
  intro d r hd h
  rw [List.append_assoc]
  exact ha d (b ++ r) hd (hb d r hd h)

theorem evSeg_wrap {m : List Event} (k : NodeKind) (hm : EvSeg m) :
    EvSeg (.StartNode k :: (m ++ [.FinishNode])) := by
  intro d r hd h
  show goodEvents (.StartNode k :: (m ++ [.FinishNode] ++ r)) d
  rw [List.append_assoc] at *
  show goodEvents (m ++ ([.FinishNode] ++ r)) (d + 1)
  refine hm (d + 1) _ (Nat.succ_pos d) ?_
  refine ⟨Nat.succ_pos d, fun h1 => absurd (Nat.succ_injective (by simpa using h1)) (by omega), ?_⟩
  simpa using h

theorem countAT_append (a b : List Event) :
    countAT (a ++ b) = countAT a + countAT b := by
  simp [countAT, List.count_append]

/-! ## Parser engine lemmas -/

theorem at_true_lt {p : PSt} {k : TokenKind} (h : p.at k = true) :
    p.cursor < p.tokens.length := by
  simp only [PSt.at, PSt.peek, decide_eq_true_eq] at h
  rcases Option.map_eq_some'.1 h with ⟨t, ht, _⟩
  exact List.get?_eq_some.1 ht |>.1

theorem eof_false_lt {p : PSt} (hle : p.cursor ≤ p.tokens.length)
    (h : p.eof = false) : p.cursor < p.tokens.length := by
  simp only [PSt.eof, decide_eq_false_iff_not] at h
  omega

theorem at_recovery_false_lt {p : PSt} (hle : p.cursor ≤ p.tokens.length)
    (h : p.at_recovery = false) : p.cursor < p.tokens.length := by
  simp only [PSt.at_recovery, Bool.or_eq_false_iff] at h
  exact eof_false_lt hle h.1.1.1

theorem error_spec (p : PSt) (m : String) :
    (p.error m).tokens = p.tokens ∧
    p.cursor ≤ (p.error m).cursor ∧ (p.error m).cursor ≤ p.cursor + 1 ∧
    (p.cursor ≤ p.tokens.length → (p.error m).cursor ≤ p.tokens.length) ∧
    (p.at_recovery = false → (p.error m).cursor = p.cursor + 1) ∧
    ∃ d, (p.error m).events = p.events ++ d ∧ EvSeg d ∧
      countAT d = (p.error m).cursor - p.cursor := by
  by_cases h : p.at_recovery = true
  · have hq : p.error m =
        { p with
          errors := p.errors ++
            [PError.Missing
              ((p.tokens.getD (p.cursor - 1) ⟨.Other, "", ⟨0, 0⟩⟩).range.stop)
              m] } := by
      simp [PSt.error, h]
    rw [hq]
    refine ⟨rfl, Nat.le_refl _, Nat.le_succ _, ?_, ?_, [], by simp, evSeg_nil, ?_⟩
    · exact fun hle => hle
    · intro hf; rw [hf] at h; cases h
    · simp [countAT]
  · have h' : p.at_recovery = false := by
      revert h; cases p.at_recovery <;> simp
    have hq : p.error m =
        { p with
          errors := p.errors ++
            [PError.Expected (p.tokens.getD p.cursor ⟨.Other, "", ⟨0, 0⟩⟩).range m],
          events := p.events ++ [.StartNode .Error, .AddToken, .FinishNode],
          cursor := p.cursor + 1 } := by
      simp [PSt.error, h', PSt.start_node, PSt.bump_any, PSt.finish_node]
    rw [hq]
    refine ⟨rfl, Nat.le_succ _, Nat.le_refl _, ?_, ?_,
      [.StartNode .Error, .AddToken, .FinishNode], by simp,
      evSeg_wrap .Error evSeg_addToken, ?_⟩
    · exact fun hle => at_recovery_false_lt hle h'
    · exact fun _ => rfl
    · simp [countAT]

theorem stepOK_refl (p : PSt) : StepOK p p :=
  ⟨rfl, Nat.le_refl _, fun h => h, [], by simp, evSeg_nil, by simp [countAT]⟩

theorem stepOK_trans {p q r : PSt} (h1 : StepOK p q) (h2 : StepOK q r) :
    StepOK p r := by
  obtain ⟨ht1, hc1, hl1, d1, he1, hs1, hn1⟩ := h1
  obtain ⟨ht2, hc2, hl2, d2, he2, hs2, hn2⟩ := h2
  refine ⟨ht2.trans ht1, hc1.trans hc2, ?_, d1 ++ d2, ?_, evSeg_append hs1 hs2, ?_⟩
  · intro hle
    have := hl2 (by rw [ht1]; exact hl1 hle)
    rwa [ht1] at this
  · rw [he2, he1, List.append_assoc]
  · rw [countAT_append]; omega

theorem bump_stepOK {p : PSt} (h : p.cursor < p.tokens.length) :
    StepOK p p.bump_any := by
  refine ⟨rfl, Nat.le_succ _, fun _ => h, [.AddToken], by simp [PSt.bump_any],
    evSeg_addToken, by simp [countAT, PSt.bump_any]; omega⟩

theorem error_stepOK (p : PSt) (m : String) : StepOK p (p.error m) := by
  obtain ⟨ht, hc, _, hl, _, d, he, hs, hn⟩ := error_spec p m
  exact ⟨ht, hc, hl, d, he, hs, by omega⟩

theorem expect_stepOK (p : PSt) (k : TokenKind) (n : String) :
    StepOK p (p.expect_with_name k n) := by
  unfold PSt.expect_with_name
  by_cases h : p.at k = true
  · simpa [h] using bump_stepOK (at_true_lt h)
  · have h' : p.at k = false := by revert h; cases p.at k <;> simp
    simpa [h'] using error_stepOK p n

theorem stepOK_node {p q : PSt} (k : NodeKind)
    (h : StepOK (p.start_node k) q) : StepOK p q.finish_node := by
  obtain ⟨ht, hc, hl, d, he, hs, hn⟩ := h
  refine ⟨ht, hc, hl, .StartNode k :: (d ++ [.FinishNode]), ?_,
    evSeg_wrap k hs, ?_⟩
  · simp only [PSt.finish_node, he, PSt.start_node]
    simp
  · simp only [countAT, List.count_cons, List.count_append] at hn ⊢
    simp only [PSt.finish_node, PSt.start_node] at hn ⊢
    simp [countAT] at hn ⊢
    omega

theorem expect_progress {p : PSt} {k : TokenKind} {n : String}
    (h : p.at_recovery = false) :
    (p.expect_with_name k n).cursor = p.cursor + 1 := by
  unfold PSt.expect_with_name
  by_cases hk : p.at k = true
  · simp [hk, PSt.bump_any]
  · have hk' : p.at k = false := by revert hk; cases p.at k <;> simp
    simp only [hk', Bool.false_eq_true, if_false]
    exact (error_spec p n).2.2.2.2.1 h

theorem error_without_recovery_spec (p : PSt) (m : String)
    (h : p.cursor < p.tokens.length) :
    StepOK p (p.error_without_recovery m) ∧
    (p.error_without_recovery m).cursor = p.cursor + 1 := by
  have hq : p.error_without_recovery m =
      { p with
        errors := p.errors ++
          [PError.Expected (p.tokens.getD p.cursor ⟨.Other, "", ⟨0, 0⟩⟩).range m],
        events := p.events ++ [.StartNode .Error, .AddToken, .FinishNode],
        cursor := p.cursor + 1 } := by
    simp [PSt.error_without_recovery, PSt.start_node, PSt.bump_any,
      PSt.finish_node]
  rw [hq]
  refine ⟨⟨rfl, Nat.le_succ _, fun _ => h,
    [.StartNode .Error, .AddToken, .FinishNode], by simp,
    evSeg_wrap .Error evSeg_addToken, by simp [countAT]; omega⟩, rfl⟩

theorem at_recovery_congr {p q : PSt} (ht : q.tokens = p.tokens)
    (hc : q.cursor = p.cursor) : q.at_recovery = p.at_recovery := by
  simp [PSt.at_recovery, PSt.eof, PSt.at, PSt.peek, ht, hc]

theorem fieldStep_stepOK (p : PSt) : StepOK p (fieldStep p) := by
  have h1 : StepOK (p.start_node .Field)
      (((p.start_node .Field).expect_with_name .Ident
        "field name").expect_with_name .Ident "type") :=
    stepOK_trans (expect_stepOK _ _ _) (expect_stepOK _ _ _)
  have h2 := stepOK_node .Field h1
  simp only [fieldStep]
  by_cases hc : (((p.start_node .Field).expect_with_name .Ident
      "field name").expect_with_name .Ident "type").finish_node.at .Comma = true
  · simp only [hc, if_true]
    exact stepOK_trans h2 (bump_stepOK (at_true_lt hc))
  · simp only [hc]
    simpa using h2

theorem fieldStep_progress {p : PSt} (h : p.at_recovery = false) :
    p.cursor + 1 ≤ (fieldStep p).cursor := by
  have hcomma : ∀ q : PSt,
      q.cursor ≤ (if q.at .Comma = true then q.bump_any else q).cursor := by
    intro q
    by_cases hq : q.at .Comma = true
    · simp [hq, PSt.bump_any, Nat.le_succ]
    · simp [hq]
  have hrec : (p.start_node .Field).at_recovery = false := by
    rw [at_recovery_congr (q := p.start_node .Field) (p := p) rfl rfl]
    exact h
  have hfst := expect_progress (k := TokenKind.Ident) (n := "field name") hrec
  have hsc : (p.start_node .Field).cursor = p.cursor := rfl
  have hsnd := (expect_stepOK ((p.start_node .Field).expect_with_name .Ident
      "field name") .Ident "type").2.1
  have hfin : ∀ q : PSt, q.finish_node.cursor = q.cursor := by
    intro q; simp [PSt.finish_node]
  simp only [fieldStep]
  refine Nat.le_trans ?_ (hcomma _)
  rw [hfin]
  omega

theorem fieldsGo_spec : ∀ (fuel : Nat) (p : PSt),
    p.tokens.length - p.cursor ≤ fuel → p.cursor ≤ p.tokens.length →
    StepOK p (fieldsGo fuel p) ∧
    ((fieldsGo fuel p).at_recovery = true ∨
      (fieldsGo fuel p).at .RBrace = true) := by
  intro fuel
  induction fuel with
  | zero =>
    intro p hf hle
    have hc : p.cursor = p.tokens.length := by omega
    refine ⟨stepOK_refl p, Or.inl ?_⟩
    simp [fieldsGo, PSt.at_recovery, PSt.eof, hc]
  | succ n ih =>
    intro p hf hle
    by_cases hg : ¬p.at_recovery = true ∧ ¬p.at .RBrace = true
    · have hrec : p.at_recovery = false := by
        revert hg; cases p.at_recovery <;> simp
      have hlt : p.cursor < p.tokens.length := at_recovery_false_lt hle hrec
      have hstep := fieldStep_stepOK p
      obtain ⟨ht, hcur, hl, _⟩ := fieldStep_stepOK p
      have hprog := fieldStep_progress hrec
      have hf' : (fieldStep p).tokens.length - (fieldStep p).cursor ≤ n := by
        rw [ht]; omega
      have hle' : (fieldStep p).cursor ≤ (fieldStep p).tokens.length := by
        rw [ht]; exact hl hle
      obtain ⟨ih1, ih2⟩ := ih (fieldStep p) hf' hle'
      have heq : fieldsGo (n + 1) p = fieldsGo n (fieldStep p) := by
        simp only [fieldsGo]
        rw [if_pos hg]
      rw [heq]
      exact ⟨stepOK_trans hstep ih1, ih2⟩
    · have heq : fieldsGo (n + 1) p = p := by
        simp only [fieldsGo]
        rw [if_neg hg]
      rw [heq]
      refine ⟨stepOK_refl p, ?_⟩
      rcases not_and_or.1 hg with h | h
      · exact Or.inl (not_not.1 h)
      · exact Or.inr (not_not.1 h)

theorem finish_node_cursor (q : PSt) : q.finish_node.cursor = q.cursor := rfl

theorem finish_node_tokens (q : PSt) : q.finish_node.tokens = q.tokens := rfl

theorem strukt_spec {p : PSt} (h : p.at .StructKw = true) :
    StepOK p (strukt p) ∧ p.cursor + 1 ≤ (strukt p).cursor := by
  have hlt : p.cursor < p.tokens.length := at_true_lt h
  have s1 : StepOK (p.start_node .Strukt) (p.start_node .Strukt).bump_any :=
    bump_stepOK hlt
  have s2 := stepOK_trans s1 (expect_stepOK _ .Ident "struct name")
  have s3 := stepOK_trans s2 (expect_stepOK _ .LBrace (kindName .LBrace))
  have hle3 : (((p.start_node .Strukt).bump_any.expect_with_name .Ident
      "struct name").expect_with_name .LBrace (kindName .LBrace)).cursor ≤
      (((p.start_node .Strukt).bump_any.expect_with_name .Ident
      "struct name").expect_with_name .LBrace (kindName .LBrace)).tokens.length := by
    rw [s3.1]
    exact s3.2.2.1 (Nat.le_of_lt hlt)
  obtain ⟨s4, -⟩ := fieldsGo_spec
    ((((p.start_node .Strukt).bump_any.expect_with_name .Ident
      "struct name").expect_with_name .LBrace (kindName .LBrace)).tokens.length -
     (((p.start_node .Strukt).bump_any.expect_with_name .Ident
      "struct name").expect_with_name .LBrace (kindName .LBrace)).cursor)
    (((p.start_node .Strukt).bump_any.expect_with_name .Ident
      "struct name").expect_with_name .LBrace (kindName .LBrace))
    (Nat.le_refl _) hle3
  have s5 := stepOK_trans (stepOK_trans s3 s4)
    (expect_stepOK _ .RBrace (kindName .RBrace))
  have hall := stepOK_node .Strukt s5
  have hshape : strukt p =
      ((fieldsGo
        ((((p.start_node .Strukt).bump_any.expect_with_name .Ident
          "struct name").expect_with_name .LBrace (kindName .LBrace)).tokens.length -
         (((p.start_node .Strukt).bump_any.expect_with_name .Ident
          "struct name").expect_with_name .LBrace (kindName .LBrace)).cursor)
        (((p.start_node .Strukt).bump_any.expect_with_name .Ident
          "struct name").expect_with_name .LBrace (kindName .LBrace))).expect_with_name
        .RBrace (kindName .RBrace)).finish_node := by
    simp only [strukt, PSt.expect]
  constructor
  · rw [hshape]
    exact hall
  · rw [hshape, finish_node_cursor]
    have hb : (p.start_node .Strukt).bump_any.cursor = p.cursor + 1 := rfl
    have m2 := s2.2.1
    have m2b := (expect_stepOK (p.start_node .Strukt).bump_any .Ident
      "struct name").2.1
    have m3 := (expect_stepOK ((p.start_node .Strukt).bump_any.expect_with_name
      .Ident "struct name") .LBrace (kindName .LBrace)).2.1
    have m4 := s4.2.1
    have m5 := (expect_stepOK
      (fieldsGo
        ((((p.start_node .Strukt).bump_any.expect_with_name .Ident
          "struct name").expect_with_name .LBrace (kindName .LBrace)).tokens.length -
         (((p.start_node .Strukt).bump_any.expect_with_name .Ident
          "struct name").expect_with_name .LBrace (kindName .LBrace)).cursor)
        (((p.start_node .Strukt).bump_any.expect_with_name .Ident
          "struct name").expect_with_name .LBrace (kindName .LBrace)))
      .RBrace (kindName .RBrace)).2.1
    omega

theorem item_spec {p : PSt} (h : p.cursor < p.tokens.length) :
    StepOK p (item p) ∧ p.cursor + 1 ≤ (item p).cursor := by
  have hne : p.peek ≠ none := by
    simp only [PSt.peek, List.get?_eq_get h, Option.map_some']
    exact Option.some_ne_none _
  cases hk : p.peek with
  | none => exact absurd hk hne
  | some k =>
    by_cases hsk : k = TokenKind.StructKw
    · subst hsk
      have hat : p.at .StructKw = true := by simp [PSt.at, hk]
      have heq : item p = strukt p := by unfold item; rw [hk]
      rw [heq]
      exact strukt_spec hat
    · have heq : item p = p.error_without_recovery "item" := by
        unfold item
        rw [hk]
        cases k <;> first | rfl | exact absurd rfl hsk
      rw [heq]
      obtain ⟨s, hcur⟩ := error_without_recovery_spec p "item" h
      rw [hcur]
      exact ⟨s, Nat.le_refl _⟩

theorem itemsGo_spec : ∀ (fuel : Nat) (p : PSt),
    p.tokens.length - p.cursor ≤ fuel → p.cursor ≤ p.tokens.length →
    StepOK p (itemsGo fuel p) ∧ (itemsGo fuel p).eof = true := by
  intro fuel
  induction fuel with
  | zero =>
    intro p hf hle
    have hc : p.cursor = p.tokens.length := by omega
    exact ⟨stepOK_refl p, by simp [itemsGo, PSt.eof, hc]⟩
  | succ n ih =>
    intro p hf hle
    by_cases hg : ¬p.eof = true
    · have hlt : p.cursor < p.tokens.length :=
        eof_false_lt hle (by revert hg; cases p.eof <;> simp)
      obtain ⟨hstep, hprog⟩ := item_spec hlt
      obtain ⟨⟨ht, hcur2, hl, -⟩, -⟩ := item_spec hlt
      have hf' : (item p).tokens.length - (item p).cursor ≤ n := by
        rw [ht]; omega
      have hle' : (item p).cursor ≤ (item p).tokens.length := by
        rw [ht]; exact hl hle
      obtain ⟨ih1, ih2⟩ := ih (item p) hf' hle'
      have heq : itemsGo (n + 1) p = itemsGo n (item p) := by
        simp only [itemsGo]
        rw [if_pos hg]
      rw [heq]
      exact ⟨stepOK_trans hstep ih1, ih2⟩
    · have heq : itemsGo (n + 1) p = p := by
        simp only [itemsGo]
        rw [if_neg hg]
      rw [heq]
      exact ⟨stepOK_refl p, not_not.1 hg⟩

theorem source_file_spec (p : PSt) (hle : p.cursor ≤ p.tokens.length) :
    (source_file p).tokens = p.tokens ∧
    (source_file p).eof = true ∧
    ∃ d, (source_file p).events =
        p.events ++ (.StartNode .SourceFile :: (d ++ [.FinishNode])) ∧
      EvSeg d ∧ countAT d + p.cursor = (source_file p).cursor := by
  have h0 : (p.start_node .SourceFile).cursor ≤
      (p.start_node .SourceFile).tokens.length := hle
  obtain ⟨⟨ht, hc, hl, d, he, hs, hn⟩, heof⟩ :=
    itemsGo_spec ((p.start_node .SourceFile).tokens.length -
      (p.start_node .SourceFile).cursor) (p.start_node .SourceFile)
      (Nat.le_refl _) h0
  have hshape : source_file p =
      (itemsGo (p.tokens.length - p.cursor) (p.start_node .SourceFile)).finish_node := by
    simp only [source_file, PSt.start_node]
  refine ⟨?_, ?_, d, ?_, hs, ?_⟩
  · rw [hshape]
    simpa [PSt.finish_node] using ht
  · rw [hshape]
    simpa [PSt.eof, PSt.finish_node] using heof
  · rw [hshape]
    simp only [PSt.finish_node]
    rw [show (itemsGo (p.tokens.length - p.cursor)
      (p.start_node .SourceFile)).events =
      (p.start_node .SourceFile).events ++ d from he]
    simp [PSt.start_node]
  · rw [hshape]
    simpa [PSt.finish_node, PSt.start_node] using hn

theorem error_at_recovery_cursor {p : PSt} (m : String)
    (h : p.at_recovery = true) : (p.error m).cursor = p.cursor := by
  simp [PSt.error, h]

/-- C4: each invocation of the parser's error recovery consumes at
most one extra token (none at a recovery point, exactly one
otherwise); away from recovery points the cursor strictly advances on
every field-loop iteration and every item; the struct field loop
always reaches a recovery point or a closing brace within the
remaining-token budget; and parsing always terminates with the whole
significant-token sequence consumed (the parser ends at EOF). -/
theorem claim_C4_forward_progress :
    (∀ (p : PSt) (m : String),
      (p.error m).cursor ≤ p.cursor + 1 ∧
      (p.at_recovery = false → (p.error m).cursor = p.cursor + 1) ∧
      (p.at_recovery = true → (p.error m).cursor = p.cursor)) ∧
    (∀ p : PSt, p.at_recovery = false → p.cursor + 1 ≤ (fieldStep p).cursor) ∧
    (∀ p : PSt, p.cursor < p.tokens.length →
      p.cursor + 1 ≤ (item p).cursor) ∧
    (∀ p : PSt, p.cursor ≤ p.tokens.length →
      (fieldsGo (p.tokens.length - p.cursor) p).at_recovery = true ∨
      (fieldsGo (p.tokens.length - p.cursor) p).at .RBrace = true) ∧
    (∀ raw : List Token, (source_file (PSt.new raw)).eof = true) := by
  refine ⟨?_, ?_, ?_, ?_, ?_⟩
  · intro p m
    exact ⟨(error_spec p m).2.2.1, (error_spec p m).2.2.2.2.1,
      error_at_recovery_cursor m⟩
  · intro p h
    exact fieldStep_progress h
  · intro p h
    exact (item_spec h).2
  · intro p h
    exact (fieldsGo_spec (p.tokens.length - p.cursor) p (Nat.le_refl _) h).2
  · intro raw
    exact (source_file_spec (PSt.new raw) (by simp [PSt.new])).2.1

theorem claim_C4_forward_progress_witness :
    ((⟨[⟨.Ident, "x", ⟨0, 1⟩⟩], 0, [], []⟩ : PSt).at_recovery = false ∧
      ((⟨[⟨.Ident, "x", ⟨0, 1⟩⟩], 0, [], []⟩ : PSt).error "item").cursor = 0 + 1) ∧
    (0 : Nat) < ([⟨TokenKind.Ident, "x", ⟨0, 1⟩⟩] : List Token).length ∧
    0 + 1 ≤ (item (⟨[⟨.Ident, "x", ⟨0, 1⟩⟩], 0, [], []⟩ : PSt)).cursor ∧
    (source_file (PSt.new [⟨.StructKw, "struct", ⟨0, 6⟩⟩])).eof = true := by
  refine ⟨⟨by decide, ?_⟩, by decide, ?_, ?_⟩
  · exact (claim_C4_forward_progress.1
      (⟨[⟨.Ident, "x", ⟨0, 1⟩⟩], 0, [], []⟩ : PSt) "item").2.1 (by decide)
  · exact claim_C4_forward_progress.2.2.1
      (⟨[⟨.Ident, "x", ⟨0, 1⟩⟩], 0, [], []⟩ : PSt) (by decide)
  · exact claim_C4_forward_progress.2.2.2.2 [⟨.StructKw, "struct", ⟨0, 6⟩⟩]

theorem sink_go_aux : ∀ (rest : List Event) (st : SinkSt),
    rest.getLast? = some .FinishNode →
    sinkRun rest
      (match rest.head? with
        | some (.StartNode _) => st.skipTrivia
        | some .AddToken => st.skipTrivia
        | _ => st) = spliceBeforeGo rest st := by
  intro rest
  induction rest with
  | nil => intro st h; cases h
  | cons e tail ih =>
    intro st h
    cases tail with
    | nil =>
      have he : e = Event.FinishNode := by
        simpa [List.getLast?] using h
      subst he
      rfl
    | cons e2 tail2 =>
      have h2 : (e2 :: tail2).getLast? = some .FinishNode := by
        rwa [List.getLast?_cons_cons] at h
      have step : sinkRun (e :: e2 :: tail2)
          (match (e :: e2 :: tail2).head? with
            | some (.StartNode _) => st.skipTrivia
            | some .AddToken => st.skipTrivia
            | _ => st) =
          sinkRun (e2 :: tail2)
            (match (e2 :: tail2).head? with
              | some (.StartNode _) =>
                ((match e with
                  | .StartNode _ => st.skipTrivia
                  | .AddToken => st.skipTrivia
                  | _ => st).processEvent e).skipTrivia
              | some .AddToken =>
                ((match e with
                  | .StartNode _ => st.skipTrivia
                  | .AddToken => st.skipTrivia
                  | _ => st).processEvent e).skipTrivia
              | _ =>
                (match e with
                  | .StartNode _ => st.skipTrivia
                  | .AddToken => st.skipTrivia
                  | _ => st).processEvent e) := by
        cases e <;> cases e2 <;> rfl
      rw [step, ih _ h2]
      cases e <;> rfl

/-- The amended C7: the source's trivia splicing is the schedule that
emits trivia immediately before every StartNode/AddToken event other
than the log's first event (hence also right after a FinishNode whose
successor starts or adds), and flushes pending trivia once right
before the root-closing FinishNode. -/
theorem claim_C7_splice_amended (events : List Event) (st : SinkSt)
    (h : events.getLast? = some .FinishNode) :
    sinkRun events st = spliceBefore events st := by
  cases events with
  | nil => rfl
  | cons e tail =>
    cases tail with
    | nil => rfl
    | cons e2 tail2 =>
      have h2 : (e2 :: tail2).getLast? = some .FinishNode := by
        rwa [List.getLast?_cons_cons] at h
      have step : sinkRun (e :: e2 :: tail2) st =
          sinkRun (e2 :: tail2)
            (match (e2 :: tail2).head? with
              | some (.StartNode _) => (st.processEvent e).skipTrivia
              | some .AddToken => (st.processEvent e).skipTrivia
              | _ => st.processEvent e) := by
        cases e2 <;> rfl
      rw [step, sink_go_aux _ (st.processEvent e) h2]
      rfl

/-- C7 counterexample input: the token sequence of
"struct A{} struct B{}" (trivia-merged, covering the input). -/
def c7Tokens : List Token :=
  [⟨.StructKw, "struct", ⟨0, 6⟩⟩, ⟨.Whitespace, " ", ⟨6, 7⟩⟩,
   ⟨.Ident, "A", ⟨7, 8⟩⟩, ⟨.LBrace, "\x7b", ⟨8, 9⟩⟩,
   ⟨.RBrace, "\x7d", ⟨9, 10⟩⟩, ⟨.Whitespace, " ", ⟨10, 11⟩⟩,
   ⟨.StructKw, "struct", ⟨11, 17⟩⟩, ⟨.Whitespace, " ", ⟨17, 18⟩⟩,
   ⟨.Ident, "B", ⟨18, 19⟩⟩, ⟨.LBrace, "\x7b", ⟨19, 20⟩⟩,
   ⟨.RBrace, "\x7d", ⟨20, 21⟩⟩]

set_option maxHeartbeats 1000000 in
/-- C7 counterexample: on the event log the grammar emits for
"struct A{} struct B{}", replaying trivia by the claim's rule (after
every StartNode/AddToken, never after a FinishNode, trailing flush
after the root closes) yields a different CST than the source's
replay: the whitespace after the first closing brace belongs to the
SourceFile node in the source's tree, but to the first Strukt node
under the claim's rule. -/
theorem claim_C7_splice_counterexample :
    (sinkRun (source_file (PSt.new c7Tokens)).events
        ⟨[], [], c7Tokens, 0⟩).finish ≠
    (claimReplay (source_file (PSt.new c7Tokens)).events
        ⟨[], [], c7Tokens, 0⟩).finish := by
  decide

set_option maxHeartbeats 1000000 in
theorem claim_C7_splice_amended_witness :
    (source_file (PSt.new c7Tokens)).events.getLast? =
        some Event.FinishNode ∧
    sinkRun (source_file (PSt.new c7Tokens)).events ⟨[], [], c7Tokens, 0⟩ =
      spliceBefore (source_file (PSt.new c7Tokens)).events
        ⟨[], [], c7Tokens, 0⟩ :=
  ⟨by decide, claim_C7_splice_amended _ _ (by decide)⟩

/-! ## Losslessness: state-leaf bookkeeping for the tree builder -/

theorem treeLeavesList_append (a b : List Tree) :
    treeLeavesList (a ++ b) = treeLeavesList a ++ treeLeavesList b := by
  induction a with
  | nil => simp [treeLeavesList]
  | cons t ts ih => simp [treeLeavesList, ih]

theorem stateLeaves_startNode (st : SinkSt) (k : NodeKind) :
    stateLeaves (st.startNode k) = stateLeaves st := by
  simp [stateLeaves, SinkSt.startNode, frameLeaves, treeLeavesList]

theorem stateLeaves_attach (st : SinkSt) (t : Tree) :
    stateLeaves (st.attach t) = stateLeaves st ++ treeLeaves t := by
  cases hs : st.stack with
  | nil =>
    simp [stateLeaves, SinkSt.attach, hs, treeLeavesList_append,
      treeLeavesList]
  | cons f rest =>
    cases f with
    | mk k cs =>
      simp only [stateLeaves, SinkSt.attach, hs]
      simp [frameLeaves, treeLeavesList_append, treeLeavesList,
        List.flatten_append]

theorem stateLeaves_finishNode (st : SinkSt) :
    stateLeaves st.finishNode = stateLeaves st := by
  cases hs : st.stack with
  | nil => simp [SinkSt.finishNode, hs]
  | cons f rest =>
    cases f with
    | mk k cs =>
      rw [show st.finishNode =
        SinkSt.attach { st with stack := rest } (.node k cs.reverse) by
          simp [SinkSt.finishNode, hs]]
      rw [stateLeaves_attach]
      simp [stateLeaves, hs, frameLeaves, treeLeavesList_append,
        treeLeavesList, treeLeaves, List.flatten_append]

theorem stateLeaves_addToken {st : SinkSt}
    (h : st.cursor < st.tokens.length) :
    stateLeaves st.addToken =
      stateLeaves st ++ [st.tokens.get ⟨st.cursor, h⟩] ∧
    st.addToken.cursor = st.cursor + 1 ∧
    st.addToken.tokens = st.tokens ∧
    st.addToken.stack.length = st.stack.length ∧
    (st.stack ≠ [] → st.addToken.roots = st.roots) := by
  have hget : st.tokens.getD st.cursor ⟨.Other, "", ⟨0, 0⟩⟩ =
      st.tokens.get ⟨st.cursor, h⟩ := by
    simp [List.getD, List.get?_eq_get h, List.getElem?_eq_getElem h]
  refine ⟨?_, ?_, ?_, ?_, ?_⟩
  · rw [show st.addToken =
      SinkSt.attach { st with cursor := st.cursor + 1 }
        (.leaf (st.tokens.getD st.cursor ⟨.Other, "", ⟨0, 0⟩⟩)) from rfl]
    rw [stateLeaves_attach, hget]
    simp [stateLeaves, treeLeaves]
  · simp [SinkSt.addToken, SinkSt.attach]
    cases st.stack <;> simp
  · simp [SinkSt.addToken, SinkSt.attach]
    cases st.stack <;> simp
  · simp [SinkSt.addToken, SinkSt.attach]
    cases st.stack <;> simp
  · intro hne
    simp [SinkSt.addToken, SinkSt.attach]
    cases hs : st.stack with
    | nil => exact absurd hs hne
    | cons f r => simp

theorem countSig_drop_cons {l : List Token} {c : Nat} {t : Token}
    (h : l.drop c = t :: l.drop (c + 1)) :
    countSig (l.drop c) =
      (if t.kind = TokenKind.Whitespace then 0 else 1) +
        countSig (l.drop (c + 1)) := by
  rw [h]
  by_cases hw : t.kind = TokenKind.Whitespace
  · simp [countSig, List.filter, hw]
  · simp only [countSig, List.filter, hw]
    simp [hw]
    omega

theorem drop_eq_get_cons {l : List Token} {c : Nat} (h : c < l.length) :
    l.drop c = l.get ⟨c, h⟩ :: l.drop (c + 1) := by
  rw [List.drop_eq_getElem_cons h]
  rfl

theorem getD_eq_get_tok {l : List Token} {c : Nat} (d : Token)
    (h : c < l.length) : l.getD c d = l.get ⟨c, h⟩ := by
  simp [List.getD, List.get?_eq_get h, List.getElem?_eq_getElem h]

theorem drop_eq_getD_cons {l : List Token} {c : Nat} (d : Token)
    (h : c < l.length) :
    l.drop c = l.getD c d :: l.drop (c + 1) := by
  rw [getD_eq_get_tok d h]
  exact drop_eq_get_cons h

theorem goodEvents_nil (d : Nat) : goodEvents [] d ↔ d = 0 := Iff.rfl

theorem goodEvents_sn (k : NodeKind) (r : List Event) (d : Nat) :
    goodEvents (.StartNode k :: r) d ↔ goodEvents r (d + 1) := Iff.rfl

theorem goodEvents_at (r : List Event) (d : Nat) :
    goodEvents (.AddToken :: r) d ↔ 0 < d ∧ goodEvents r d := Iff.rfl

theorem goodEvents_fn (r : List Event) (d : Nat) :
    goodEvents (.FinishNode :: r) d ↔
      0 < d ∧ (d = 1 → r = []) ∧ goodEvents r (d - 1) := Iff.rfl

theorem skipTrivia_spec (st : SinkSt)
    (hch : lexWF st.tokens)
    (hle : st.cursor ≤ st.tokens.length) (hstack : st.stack ≠ [])
    (hleaves : stateLeaves st = st.tokens.take st.cursor) :
    st.skipTrivia.tokens = st.tokens ∧
    st.skipTrivia.stack.length = st.stack.length ∧
    st.skipTrivia.roots = st.roots ∧
    st.skipTrivia.cursor ≤ st.tokens.length ∧
    stateLeaves st.skipTrivia = st.tokens.take st.skipTrivia.cursor ∧
    countSig (st.tokens.drop st.skipTrivia.cursor) =
      countSig (st.tokens.drop st.cursor) ∧
    (st.skipTrivia.cursor < st.tokens.length →
      ¬(st.tokens.getD st.skipTrivia.cursor dfltTok).kind =
        TokenKind.Whitespace) ∧
    st.cursor ≤ st.skipTrivia.cursor := by
  have hch' : st.tokens.Chain' (fun a b =>
      ¬(a.kind = TokenKind.Whitespace ∧ b.kind = TokenKind.Whitespace)) := hch
  by_cases hc : st.cursor < st.tokens.length
  · by_cases hw : (st.tokens.get ⟨st.cursor, hc⟩).kind = TokenKind.Whitespace
    · have heq : st.skipTrivia = st.addToken := by
        unfold SinkSt.skipTrivia
        rw [dif_pos hc, if_pos hw]
      obtain ⟨hl1, hl2, hl3, hl4, hl5⟩ := stateLeaves_addToken hc
      have hcur : st.skipTrivia.cursor = st.cursor + 1 := by rw [heq, hl2]
      have htok : st.skipTrivia.tokens = st.tokens := by rw [heq, hl3]
      have htake : st.tokens.take (st.cursor + 1) =
          st.tokens.take st.cursor ++ [st.tokens.get ⟨st.cursor, hc⟩] := by
        rw [← List.take_concat_get _ _ hc, List.concat_eq_append]
        simp [List.get_eq_getElem]
      refine ⟨htok, by rw [heq, hl4], by rw [heq]; exact hl5 hstack,
        by omega, ?_, ?_, ?_, by omega⟩
      · rw [heq, hl1, hleaves, hl2, htake]
      · rw [hcur, countSig_drop_cons (drop_eq_get_cons hc), hw]
        simp
      · rw [hcur]
        intro h2
        rw [getD_eq_get_tok dfltTok h2]
        have hpair := List.chain'_iff_get.1 hch' st.cursor (by omega)
        intro hw2
        exact hpair ⟨hw, hw2⟩
    · have heq : st.skipTrivia = st := by
        unfold SinkSt.skipTrivia
        rw [dif_pos hc, if_neg hw]
      rw [heq]
      refine ⟨rfl, rfl, rfl, hle, hleaves, rfl, ?_, Nat.le_refl _⟩
      intro h2
      rw [getD_eq_get_tok dfltTok h2]
      exact hw
  · have heq : st.skipTrivia = st := by
      unfold SinkSt.skipTrivia
      rw [dif_neg hc]
    rw [heq]
    refine ⟨rfl, rfl, rfl, hle, hleaves, rfl, ?_, Nat.le_refl _⟩
    intro h2
    exact absurd h2 hc

theorem finishNode_deep {st : SinkSt} (hs : 2 ≤ st.stack.length) :
    st.finishNode.roots = st.roots ∧
    st.finishNode.stack.length = st.stack.length - 1 ∧
    st.finishNode.tokens = st.tokens ∧
    st.finishNode.cursor = st.cursor := by
  cases h1 : st.stack with
  | nil => rw [h1] at hs; simp at hs
  | cons f rest =>
    cases h2 : rest with
    | nil => rw [h1, h2] at hs; simp at hs
    | cons g r =>
      cases f with
      | mk k cs =>
        cases g with
        | mk k2 cs2 =>
          simp [SinkSt.finishNode, h1, h2, SinkSt.attach]

theorem finishNode_last {st : SinkSt} {k : NodeKind} {cs : List Tree}
    (hs : st.stack = [(k, cs)]) :
    st.finishNode.roots = Tree.node k cs.reverse :: st.roots ∧
    st.finishNode.stack = [] ∧
    st.finishNode.tokens = st.tokens ∧
    st.finishNode.cursor = st.cursor := by
  simp [SinkSt.finishNode, hs, SinkSt.attach]

theorem countSig_pos_lt {l : List Token} {c : Nat}
    (h : 0 < countSig (l.drop c)) : c < l.length := by
  by_contra hc
  push_neg at hc
  rw [List.drop_eq_nil_of_le hc] at h
  simp [countSig] at h

theorem sink_skip_setup {st1 : SinkSt} {e2 : Event} {tail2 : List Event}
    {st2 : SinkSt}
    (hst2 : st2 = st1.skipTrivia ∨ (st2 = st1 ∧ e2 = Event.FinishNode))
    (hch : lexWF st1.tokens)
    (hge : goodEvents (e2 :: tail2) st1.stack.length)
    (hroots : st1.roots = [])
    (hstack : st1.stack ≠ [])
    (hle : st1.cursor ≤ st1.tokens.length)
    (hleaves : stateLeaves st1 = st1.tokens.take st1.cursor)
    (hcount : countAT (e2 :: tail2) =
      countSig (st1.tokens.drop st1.cursor)) :
    st2.tokens = st1.tokens ∧
    lexWF st2.tokens ∧
    goodEvents (e2 :: tail2) st2.stack.length ∧
    st2.roots = [] ∧
    st2.cursor ≤ st2.tokens.length ∧
    stateLeaves st2 = st2.tokens.take st2.cursor ∧
    countAT (e2 :: tail2) = countSig (st2.tokens.drop st2.cursor) ∧
    ((e2 :: tail2).head? = some .AddToken →
      st2.cursor < st2.tokens.length ∧
      ¬(st2.tokens.getD st2.cursor dfltTok).kind = TokenKind.Whitespace) := by
  rcases hst2 with hsk | ⟨hid, hfn⟩
  · obtain ⟨s1, s2, s3, s4, s5, s6, s7, s8⟩ :=
      skipTrivia_spec st1 hch hle hstack hleaves
    subst hsk
    refine ⟨s1, by rw [s1]; exact hch, by rw [s2]; exact hge,
      by rw [s3]; exact hroots, by rw [s1]; exact s4,
      by rw [s1]; exact s5, by rw [s1, s6]; exact hcount, ?_⟩
    intro hh
    have hpos : 0 < countSig (st1.tokens.drop st1.skipTrivia.cursor) := by
      rw [s6, ← hcount]
      have he2 : e2 = Event.AddToken := by
        simpa using hh
      rw [he2]
      simp [countAT, List.count_cons]
    have hlt : st1.skipTrivia.cursor < st1.tokens.length :=
      countSig_pos_lt hpos
    refine ⟨by rw [s1]; exact hlt, ?_⟩
    rw [s1]
    exact s7 hlt
  · subst hid
    refine ⟨rfl, hch, hge, hroots, hle, hleaves, hcount, ?_⟩
    intro hh
    rw [show (e2 :: tail2).head? = some e2 from rfl, hfn] at hh
    cases hh

theorem sinkRun_cons_cons (e e2 : Event) (tail2 : List Event)
    (st : SinkSt) :
    sinkRun (e :: e2 :: tail2) st =
      sinkRun (e2 :: tail2)
        (match e2 with
          | .StartNode _ => (st.processEvent e).skipTrivia
          | .AddToken => (st.processEvent e).skipTrivia
          | .FinishNode => st.processEvent e) := rfl

theorem sinkRun_inv : ∀ (es : List Event) (st : SinkSt),
    es ≠ [] → lexWF st.tokens → goodEvents es st.stack.length →
    st.roots = [] → st.cursor ≤ st.tokens.length →
    stateLeaves st = st.tokens.take st.cursor →
    countAT es = countSig (st.tokens.drop st.cursor) →
    (es.head? = some .AddToken →
      st.cursor < st.tokens.length ∧
      ¬(st.tokens.getD st.cursor dfltTok).kind = TokenKind.Whitespace) →
    (sinkRun es st).tokens = st.tokens ∧
    (sinkRun es st).stack = [] ∧
    ∃ t, (sinkRun es st).roots = [t] ∧ treeLeaves t = st.tokens := by
  intro es
  induction es with
  | nil => intro st hne; exact absurd rfl hne
  | cons e tail ih =>
    intro st hne hch hge hroots hle hleaves hcount hhead
    cases tail with
    | nil =>
      cases e with
      | StartNode k =>
        rw [goodEvents_sn, goodEvents_nil] at hge
        omega
      | AddToken =>
        rw [goodEvents_at, goodEvents_nil] at hge
        omega
      | FinishNode =>
        rw [goodEvents_fn, goodEvents_nil] at hge
        have hd : st.stack.length = 1 := by omega
        cases hs : st.stack with
        | nil => rw [hs] at hd; simp at hd
        | cons f rest =>
          cases rest with
          | cons g r => rw [hs] at hd; simp at hd
          | nil =>
            cases f with
            | mk k cs =>
              have hstack : st.stack ≠ [] := by rw [hs]; simp
              obtain ⟨s1, s2, s3, s4, s5, s6, s7, s8⟩ :=
                skipTrivia_spec st hch hle hstack hleaves
              have hsig : countSig (st.tokens.drop st.cursor) = 0 := by
                rw [← hcount]
                simp [countAT]
              have hcfull : st.skipTrivia.cursor = st.tokens.length := by
                by_contra hne2
                have hlt : st.skipTrivia.cursor < st.tokens.length := by
                  omega
                have hzero : countSig
                    (st.tokens.drop st.skipTrivia.cursor) = 0 := by
                  rw [s6, hsig]
                rw [countSig_drop_cons (drop_eq_getD_cons dfltTok hlt)]
                  at hzero
                by_cases hwk : (st.tokens.getD st.skipTrivia.cursor
                    dfltTok).kind = TokenKind.Whitespace
                · exact s7 hlt hwk
                · rw [if_neg hwk] at hzero
                  omega
              have hskstack : st.skipTrivia.stack.length = 1 := by
                rw [s2, hs]; rfl
              cases hss : st.skipTrivia.stack with
              | nil => rw [hss] at hskstack; simp at hskstack
              | cons f2 rest2 =>
                cases rest2 with
                | cons g2 r2 => rw [hss] at hskstack; simp at hskstack
                | nil =>
                  cases f2 with
                  | mk k2 cs2 =>
                    obtain ⟨f1, f2', f3, f4⟩ := finishNode_last hss
                    have hrun : sinkRun [Event.FinishNode] st =
                        st.skipTrivia.finishNode := rfl
                    rw [hrun]
                    refine ⟨by rw [f3, s1], f2',
                      Tree.node k2 cs2.reverse, ?_, ?_⟩
                    · rw [f1, s3, hroots]
                    · have hfinal : stateLeaves st.skipTrivia.finishNode =
                          st.tokens := by
                        rw [stateLeaves_finishNode, s5, hcfull,
                          List.take_length]
                      rw [stateLeaves] at hfinal
                      rw [f1, s3, hroots, f2'] at hfinal
                      simpa [treeLeavesList] using hfinal
    | cons e2 tail2 =>
      rw [sinkRun_cons_cons]
      have key : ∀ st1 : SinkSt,
          st1.tokens = st.tokens →
          goodEvents (e2 :: tail2) st1.stack.length →
          st1.roots = [] →
          st1.stack ≠ [] →
          st1.cursor ≤ st1.tokens.length →
          stateLeaves st1 = st1.tokens.take st1.cursor →
          countAT (e2 :: tail2) = countSig (st1.tokens.drop st1.cursor) →
          ∀ st2 : SinkSt,
          (st2 = st1.skipTrivia ∨ (st2 = st1 ∧ e2 = Event.FinishNode)) →
          (sinkRun (e2 :: tail2) st2).tokens = st.tokens ∧
          (sinkRun (e2 :: tail2) st2).stack = [] ∧
          ∃ t, (sinkRun (e2 :: tail2) st2).roots = [t] ∧
            treeLeaves t = st.tokens := by
        intro st1 htok1 hge1 hroots1 hstack1 hle1 hleaves1 hcount1
          st2 hst2
        have hch1 : lexWF st1.tokens := by rw [htok1]; exact hch
        obtain ⟨q1, q2, q3, q4, q5, q6, q7, q8⟩ :=
          sink_skip_setup hst2 hch1 hge1 hroots1 hstack1 hle1 hleaves1
            hcount1
        obtain ⟨r1, r2, t, r3, r4⟩ :=
          ih st2 (by simp) q2 q3 q4 q5 q6 q7 q8
        refine ⟨by rw [r1, q1, htok1], r2, t, r3, by rw [r4, q1, htok1]⟩
      cases e with
      | StartNode k =>
        have heq1 : st.processEvent (Event.StartNode k) = st.startNode k :=
          rfl
        have hge1 : goodEvents (e2 :: tail2)
            (st.processEvent (Event.StartNode k)).stack.length := by
          rw [heq1]
          have hlen : (st.startNode k).stack.length =
              st.stack.length + 1 := by
            simp [SinkSt.startNode]
          rw [hlen]
          rw [goodEvents_sn] at hge
          exact hge
        have happ := key (st.processEvent (Event.StartNode k)) rfl hge1
          hroots (by rw [heq1]; simp [SinkSt.startNode])
          hle
          (by rw [heq1, stateLeaves_startNode]; exact hleaves)
          (by
            have hcnt : countAT (Event.StartNode k :: e2 :: tail2) =
                countAT (e2 :: tail2) := by
              simp [countAT, List.count_cons]
            rw [← hcnt]
            exact hcount)
        cases e2 with
        | StartNode k2 => exact happ _ (Or.inl rfl)
        | AddToken => exact happ _ (Or.inl rfl)
        | FinishNode => exact happ _ (Or.inr ⟨rfl, rfl⟩)
      | AddToken =>
        obtain ⟨hlt, hnw⟩ := hhead rfl
        have heq1 : st.processEvent Event.AddToken = st.addToken := rfl
        obtain ⟨hl1, hl2, hl3, hl4, hl5⟩ := stateLeaves_addToken hlt
        rw [goodEvents_at] at hge
        have hstackne : st.stack ≠ [] :=
          List.ne_nil_of_length_pos hge.1
        have htake : st.tokens.take (st.cursor + 1) =
            st.tokens.take st.cursor ++
              [st.tokens.get ⟨st.cursor, hlt⟩] := by
          rw [← List.take_concat_get _ _ hlt, List.concat_eq_append]
          simp [List.get_eq_getElem]
        have hge1 : goodEvents (e2 :: tail2)
            (st.processEvent Event.AddToken).stack.length := by
          rw [heq1, hl4]
          exact hge.2
        have hcount1 : countAT (e2 :: tail2) =
            countSig ((st.processEvent Event.AddToken).tokens.drop
              (st.processEvent Event.AddToken).cursor) := by
          rw [heq1, hl3, hl2]
          have hsplit := countSig_drop_cons (drop_eq_getD_cons dfltTok hlt)
          rw [if_neg hnw] at hsplit
          have hcnt : countAT (Event.AddToken :: e2 :: tail2) =
              countAT (e2 :: tail2) + 1 := by
            simp [countAT, List.count_cons]
          omega
        have happ := key (st.processEvent Event.AddToken)
          (by rw [heq1, hl3])
          hge1
          (by rw [heq1, hl5 hstackne]; exact hroots)
          (by
            rw [heq1]
            intro hnil
            have : st.addToken.stack.length = 0 := by
              rw [hnil]; rfl
            rw [hl4] at this
            omega)
          (by rw [heq1, hl3, hl2]; omega)
          (by rw [heq1, hl1, hl2, hl3, hleaves, htake])
          hcount1
        cases e2 with
        | StartNode k2 => exact happ _ (Or.inl rfl)
        | AddToken => exact happ _ (Or.inl rfl)
        | FinishNode => exact happ _ (Or.inr ⟨rfl, rfl⟩)
      | FinishNode =>
        have heq1 : st.processEvent Event.FinishNode = st.finishNode := rfl
        rw [goodEvents_fn] at hge
        have hd2 : 2 ≤ st.stack.length := by
          rcases hge with ⟨h1, h2, -⟩
          by_contra hlt2
          push_neg at hlt2
          have hone : st.stack.length = 1 := by omega
          exact absurd (h2 hone) (by simp)
        obtain ⟨f1, f2, f3, f4⟩ := finishNode_deep hd2
        have happ := key (st.processEvent Event.FinishNode)
          (by rw [heq1, f3])
          (by rw [heq1, f2]; exact hge.2.2)
          (by rw [heq1, f1]; exact hroots)
          (by
            rw [heq1]
            intro hnil
            have : st.finishNode.stack.length = 0 := by
              rw [hnil]; rfl
            rw [f2] at this
            omega)
          (by rw [heq1, f3, f4]; exact hle)
          (by rw [heq1, stateLeaves_finishNode, f3, f4]; exact hleaves)
          (by
            rw [heq1, f3, f4]
            have hcnt : countAT (Event.FinishNode :: e2 :: tail2) =
                countAT (e2 :: tail2) := by
              simp [countAT, List.count_cons]
            rw [← hcnt]
            exact hcount)
        cases e2 with
        | StartNode k2 => exact happ _ (Or.inl rfl)
        | AddToken => exact happ _ (Or.inl rfl)
        | FinishNode => exact happ _ (Or.inr ⟨rfl, rfl⟩)
/-- C3: for every lexed token sequence (tokens cover the input, with
whitespace runs merged so no two adjacent tokens are trivia), the
leaf tokens of the CST parse() returns are exactly the original
token sequence in order, so concatenating every leaf's text in tree
order reconstructs the original input, trivia included. -/
theorem claim_C3_losslessness (raw : List Token) (h : lexWF raw) :
    treeLeaves (parse raw).1 = raw ∧
    String.join ((treeLeaves (parse raw).1).map (fun t => t.text)) =
      String.join (raw.map (fun t => t.text)) := by
  obtain ⟨ht, heof, d, hev, hseg, hcnt⟩ :=
    source_file_spec (PSt.new raw) (by simp [PSt.new])
  have hev' : (source_file (PSt.new raw)).events =
      .StartNode .SourceFile :: (d ++ [.FinishNode]) := by
    rw [hev]
    simp [PSt.new]
  have hcursor : (source_file (PSt.new raw)).cursor =
      (PSt.new raw).tokens.length := by
    have := heof
    rw [PSt.eof] at this
    have h2 : (source_file (PSt.new raw)).cursor =
        (source_file (PSt.new raw)).tokens.length := by
      simpa using this
    rw [h2, ht]
  have hgood : goodEvents (source_file (PSt.new raw)).events 0 := by
    rw [hev']
    rw [goodEvents_sn]
    refine hseg 1 [.FinishNode] Nat.one_pos ?_
    rw [goodEvents_fn]
    exact ⟨Nat.one_pos, fun _ => rfl, rfl⟩
  have hcountAT : countAT (source_file (PSt.new raw)).events =
      countSig raw := by
    rw [hev']
    have h1 : countAT (Event.StartNode NodeKind.SourceFile ::
        (d ++ [Event.FinishNode])) = countAT d := by
      simp [countAT, List.count_cons, List.count_append]
    rw [h1]
    have h2 : countAT d = (PSt.new raw).tokens.length := by
      have := hcnt
      rw [hcursor] at this
      simpa [PSt.new] using this
    rw [h2]
    rfl
  have hinv := sinkRun_inv (source_file (PSt.new raw)).events
    ⟨[], [], raw, 0⟩
    (by rw [hev']; simp)
    h
    (by simpa using hgood)
    rfl
    (by simp)
    (by simp [stateLeaves, treeLeavesList])
    (by simpa using hcountAT)
    (by rw [hev']; intro hh; cases hh)
  obtain ⟨r1, r2, t, r3, r4⟩ := hinv
  have htree : (parse raw).1 = t := by
    show (sinkRun (source_file (PSt.new raw)).events
      ⟨[], [], raw, 0⟩).finish = t
    rw [SinkSt.finish, r3]
    simp
  rw [htree]
  exact ⟨r4, by rw [r4]⟩

theorem claim_C3_losslessness_witness :
    lexWF lossTokens ∧ treeLeaves (parse lossTokens).1 = lossTokens :=
  ⟨by unfold lexWF lossTokens; simp [List.chain'_cons],
    (claim_C3_losslessness lossTokens
      (by unfold lexWF lossTokens; simp [List.chain'_cons])).1⟩

/-! ## Lowering-state bookkeeping lemmas -/

theorem allocExpr_eq {e : Expr} {st : St} {i : Nat} {st' : St}
    (h : allocExpr e st = (i, st')) :
    i = st.exprs.length ∧ st' = { st with exprs := st.exprs ++ [e] } := by
  rw [allocExpr] at h
  injection h with h1 h2
  exact ⟨h1.symm, h2.symm⟩

theorem allocTy_eq {t : Ty} {st : St} {i : Nat} {st' : St}
    (h : allocTy t st = (i, st')) :
    i = st.tys.length ∧ st' = { st with tys := st.tys ++ [t] } := by
  rw [allocTy] at h
  injection h with h1 h2
  exact ⟨h1.symm, h2.symm⟩

theorem allocLocalDef_eq {d : LocalDef} {st : St} {i : Nat} {st' : St}
    (h : allocLocalDef d st = (i, st')) :
    i = st.localDefs.length ∧
      st' = { st with localDefs := st.localDefs ++ [d] } := by
  rw [allocLocalDef] at h
  injection h with h1 h2
  exact ⟨h1.symm, h2.symm⟩

theorem expect_ty_match_state (t : Ty) (a : Nat) (r : Rng) (st : St) :
    (expect_ty_match t a r st).2.map = st.map ∧
    (expect_ty_match t a r st).2.exprs = st.exprs ∧
    (expect_ty_match t a r st).2.localDefs = st.localDefs ∧
    (expect_ty_match t a r st).2.tys = st.tys ∧
    (expect_ty_match t a r st).2.scopes = st.scopes := by
  rw [expect_ty_match]
  split <;> simp

theorem expect_ty_match_true {t : Ty} {a : Nat} {r : Rng} {st : St}
    {st' : St} (h : expect_ty_match t a r st = (true, st')) :
    st' = st ∧ st.tys.getD a .Unknown = t := by
  rw [expect_ty_match] at h
  by_cases he : t = st.tys.getD a .Unknown
  · rw [if_pos he] at h
    injection h with h1 h2
    exact ⟨h2.symm, he.symm⟩
  · rw [if_neg he] at h
    injection h with h1 h2
    cases h1
theorem expect_ty_match_false {t : Ty} {a : Nat} {r : Rng} {st : St}
    {st' : St} (h : expect_ty_match t a r st = (false, st')) :
    st' = { st with
      errors := st.errors ++
        [⟨.TyMismatch (pretty_print_ty t st.tys)
            (pretty_print_ty (st.tys.getD a .Unknown) st.tys), r⟩] } ∧
    ¬st.tys.getD a .Unknown = t := by
  rw [expect_ty_match] at h
  by_cases he : t = st.tys.getD a .Unknown
  · rw [if_pos he] at h
    injection h with h1 h2
    cases h1
  · rw [if_neg he] at h
    injection h with h1 h2
    exact ⟨h2.symm, fun he2 => he he2.symm⟩

theorem lowerPath_state (ctx : Ctx) (p : CPath) (st : St) :
    (lowerPath ctx p st).2.map = st.map ∧
    (lowerPath ctx p st).2.exprs = st.exprs ∧
    (lowerPath ctx p st).2.localDefs = st.localDefs ∧
    (lowerPath ctx p st).2.tys = st.tys ∧
    (lowerPath ctx p st).2.scopes = st.scopes := by
  cases p with
  | ForeignPath rng m i =>
    rw [lowerPath, foreign_path.eq_def]
    rcases m with - | ⟨mtext, mrng⟩
    · simp
    · simp only []
      cases lookupA ctx.index.stubs mtext with
      | none => simp
      | some mstub =>
        rcases i with - | ⟨itext, irng⟩
        · simp
        · simp only []
          cases lookupA mstub.items itext <;> simp
  | LocalPath rng i =>
    rw [lowerPath, local_path.eq_def]
    rcases i with - | ⟨itext, irng⟩
    · simp
    · simp only []
      cases lookupA ctx.stub.items itext <;> simp

theorem lower_no_empty_scopes (ctx : Ctx) :
    (∀ (o : Option CExpr) (st : St),
      lowerExprOpt ctx o st ≠ .error .EmptyScopes ∧
      ∀ r, lowerExprOpt ctx o st = .ok r → r.2.2.scopes = st.scopes) ∧
    (∀ (e : CExpr) (st : St),
      lowerExprCore ctx e st ≠ .error .EmptyScopes ∧
      ∀ r, lowerExprCore ctx e st = .ok r → r.2.2.scopes = st.scopes) ∧
    (∀ (ss : List CStmt) (st : St),
      (st.scopes ≠ [] → lowerStmts ctx ss st ≠ .error .EmptyScopes) ∧
      ∀ r, lowerStmts ctx ss st = .ok r →
        r.2.scopes.tail = st.scopes.tail ∧
        r.2.scopes.length = st.scopes.length) ∧
    (∀ (s : CStmt) (st : St),
      (st.scopes ≠ [] → lowerStmt ctx s st ≠ .error .EmptyScopes) ∧
      ∀ r, lowerStmt ctx s st = .ok r →
        r.2.scopes.tail = st.scopes.tail ∧
        r.2.scopes.length = st.scopes.length) := by
  apply lowerExprOpt.mutual_induct ctx
    (motive_1 := fun o st =>
      lowerExprOpt ctx o st ≠ .error .EmptyScopes ∧
      ∀ r, lowerExprOpt ctx o st = .ok r → r.2.2.scopes = st.scopes)
    (motive_2 := fun e st =>
      lowerExprCore ctx e st ≠ .error .EmptyScopes ∧
      ∀ r, lowerExprCore ctx e st = .ok r → r.2.2.scopes = st.scopes)
    (motive_3 := fun ss st =>
      (st.scopes ≠ [] → lowerStmts ctx ss st ≠ .error .EmptyScopes) ∧
      ∀ r, lowerStmts ctx ss st = .ok r →
        r.2.scopes.tail = st.scopes.tail ∧
        r.2.scopes.length = st.scopes.length)
    (motive_4 := fun s st =>
      (st.scopes ≠ [] → lowerStmt ctx s st ≠ .error .EmptyScopes) ∧
      ∀ r, lowerStmt ctx s st = .ok r →
        r.2.scopes.tail = st.scopes.tail ∧
        r.2.scopes.length = st.scopes.length)
  case _ =>
    intro st r lhs rhs op p hlhs ih1
    have hcore : lowerExprCore ctx (.BinaryExpr r lhs rhs op) st =
        .error p := by
      simp only [lowerExprCore, hlhs]
    constructor
    · intro habs
      rw [hcore] at habs
      injection habs with hp
      exact ih1.1 (hp ▸ hlhs)
    · intro r2 hok
      rw [hcore] at hok
      cases hok
  case _ =>
    intro st r lhs rhs op lhs0 lhsTy st1 hlhs p hrhs ih1 ih2
    have hcore : lowerExprCore ctx (.BinaryExpr r lhs rhs op) st =
        .error p := by
      simp only [lowerExprCore, hlhs, hrhs]
    constructor
    · intro habs
      rw [hcore] at habs
      injection habs with hp
      exact ih2.1 (hp ▸ hrhs)
    · intro r2 hok
      rw [hcore] at hok
      cases hok
  case _ =>
    intro st r lhs rhs lhs0 lhsTy st1 hlhs rhs0 rhsTy st2 hrhs tid st3
      halloc ih1 ih2
    obtain ⟨-, hst3⟩ := allocTy_eq halloc
    have hcore : lowerExprCore ctx (.BinaryExpr r lhs rhs none) st =
        .ok (.Missing, tid, st3) := by
      simp only [lowerExprCore, hlhs, hrhs, halloc]
    constructor
    · intro habs
      rw [hcore] at habs
      cases habs
    · intro r2 hok
      rw [hcore] at hok
      cases hok
      rw [hst3]
      show st2.scopes = st.scopes
      rw [ih2.2 _ hrhs, ih1.2 _ hlhs]
  case _ =>
    intro st r lhs rhs lhs0 lhsTy st1 hlhs rhs0 rhsTy st2 hrhs opTok
      lhsF st3 hmatchL rhsF st4 hmatchR tid st5 halloc ih1 ih2
    obtain ⟨-, hst5⟩ := allocTy_eq halloc
    have hsc3 : st3.scopes = st2.scopes := by
      rcases lhs with - | e
      · have h2 : (lhs0, st2) = (lhsF, st3) := hmatchL
        injection h2 with h2a h2b
        rw [← h2b]
      · rcases hm : expect_ty_match Ty.U32 lhsTy e.rng st2 with ⟨b, stx⟩
        have hscx : stx.scopes = st2.scopes := by
          have hq := (expect_ty_match_state Ty.U32 lhsTy e.rng st2).2.2.2.2
          rw [hm] at hq
          exact hq
        have hmL : (match (b, stx) with
            | (true, st) => (lhs0, st)
            | (false, st) => allocExpr Expr.Missing st) = (lhsF, st3) := by
          rw [← hm]
          exact hmatchL
        cases b
        · have h2 : allocExpr Expr.Missing stx = (lhsF, st3) := hmL
          obtain ⟨-, hst3'⟩ := allocExpr_eq h2
          rw [hst3']
          exact hscx
        · have h2 : (lhs0, stx) = (lhsF, st3) := hmL
          injection h2 with h2a h2b
          rw [← h2b]
          exact hscx
    have hsc4 : st4.scopes = st3.scopes := by
      rcases rhs with - | e
      · have h2 : (rhs0, st3) = (rhsF, st4) := hmatchR
        injection h2 with h2a h2b
        rw [← h2b]
      · rcases hm : expect_ty_match Ty.U32 rhsTy e.rng st3 with ⟨b, stx⟩
        have hscx : stx.scopes = st3.scopes := by
          have hq := (expect_ty_match_state Ty.U32 rhsTy e.rng st3).2.2.2.2
          rw [hm] at hq
          exact hq
        have hmR : (match (b, stx) with
            | (true, st) => (rhs0, st)
            | (false, st) => allocExpr Expr.Missing st) = (rhsF, st4) := by
          rw [← hm]
          exact hmatchR
        cases b
        · have h2 : allocExpr Expr.Missing stx = (rhsF, st4) := hmR
          obtain ⟨-, hst4'⟩ := allocExpr_eq h2
          rw [hst4']
          exact hscx
        · have h2 : (rhs0, stx) = (rhsF, st4) := hmR
          injection h2 with h2a h2b
          rw [← h2b]
          exact hscx
    have hcore : lowerExprCore ctx (.BinaryExpr r lhs rhs (some opTok)) st =
        .ok (.Binary lhsF rhsF (mapOp opTok), tid, st5) := by
      simp only [lowerExprCore, hlhs, hrhs, hmatchL, hmatchR, halloc]
    constructor
    · intro habs
      rw [hcore] at habs
      cases habs
    · intro r2 hok
      rw [hcore] at hok
      cases hok
      rw [hst5]
      show st4.scopes = st.scopes
      rw [hsc4, hsc3, ih2.2 _ hrhs, ih1.2 _ hlhs]
  case _ =>
    intro st r stmts st1 p herr ih3
    have herr' : lowerStmts ctx stmts
        { st with scopes := [] :: st.scopes } = .error p := herr
    have hne : ({ st with scopes := [] :: st.scopes } : St).scopes ≠ [] := by
      simp
    have hcore : lowerExprCore ctx (.BlockExpr r stmts) st = .error p := by
      simp only [lowerExprCore, herr']
    constructor
    · intro habs
      rw [hcore] at habs
      injection habs with hp
      exact ih3.1 hne (hp ▸ herr)
    · intro r2 hok
      rw [hcore] at hok
      cases hok
  case _ =>
    intro st r stmts st1 hstmts st2 hok st3 tid st4 halloc ih3
    obtain ⟨-, hst4⟩ := allocTy_eq halloc
    have hok' : lowerStmts ctx stmts
        { st with scopes := [] :: st.scopes } = .ok (hstmts, st2) := hok
    have halloc' : allocTy Ty.Void
        { st2 with scopes := st2.scopes.tail } = (tid, st4) := halloc
    have hcore : lowerExprCore ctx (.BlockExpr r stmts) st =
        .ok (.Block hstmts, tid, st4) := by
      simp only [lowerExprCore, hok', halloc']
    constructor
    · intro habs
      rw [hcore] at habs
      cases habs
    · intro r2 hok2
      rw [hcore] at hok2
      cases hok2
      have htail := (ih3.2 _ hok).1
      rw [hst4]
      show st2.scopes.tail = st.scopes
      rw [htail]
      exact rfl
  case _ =>
    intro st r tid st1 halloc
    obtain ⟨-, hst1⟩ := allocTy_eq halloc
    have hcore : lowerExprCore ctx (.CallExpr r none) st =
        .ok (.Missing, tid, st1) := by
      simp only [lowerExprCore, halloc]
    refine ⟨(by rw [hcore]; intro h; cases h), ?_⟩
    intro r2 hok
    rw [hcore] at hok
    cases hok
    rw [hst1]
  case _ =>
    intro st r p path st1 hpath tid st2 halloc
    obtain ⟨-, hst2⟩ := allocTy_eq halloc
    have hsc1 : st1.scopes = st.scopes := by
      have hq := (lowerPath_state ctx p st).2.2.2.2
      rw [hpath] at hq
      exact hq
    have hcore : lowerExprCore ctx (.CallExpr r (some p)) st =
        .ok (.Call path, tid, st2) := by
      simp only [lowerExprCore, hpath, halloc]
    refine ⟨(by rw [hcore]; intro h; cases h), ?_⟩
    intro r2 hok
    rw [hcore] at hok
    cases hok
    rw [hst2]
    exact hsc1
  case _ =>
    intro st r p pth fields st1 hpath st2 tid st3 halloc
    obtain ⟨-, hst3⟩ := allocTy_eq halloc
    have hsc1 : st1.scopes = st.scopes := by
      have hq := (lowerPath_state ctx p st).2.2.2.2
      rw [hpath] at hq
      exact hq
    have halloc' : allocTy Ty.Void
        { st1 with
          errors := st1.errors ++
            [⟨.ExpectedFunctionFoundTy, p.rng⟩] } = (tid, st3) := halloc
    have hcore : lowerExprCore ctx (.CallExpr r (some p)) st =
        .ok (.Missing, tid, st3) := by
      simp only [lowerExprCore, hpath, halloc']
    refine ⟨(by rw [hcore]; intro h; cases h), ?_⟩
    intro r2 hok
    rw [hcore] at hok
    cases hok
    rw [hst3]
    show st1.scopes = st.scopes
    exact hsc1
  case _ =>
    intro st r p st1 hpath tid st2 halloc
    obtain ⟨-, hst2⟩ := allocTy_eq halloc
    have hsc1 : st1.scopes = st.scopes := by
      have hq := (lowerPath_state ctx p st).2.2.2.2
      rw [hpath] at hq
      exact hq
    have hcore : lowerExprCore ctx (.CallExpr r (some p)) st =
        .ok (.Missing, tid, st2) := by
      simp only [lowerExprCore, hpath, halloc]
    refine ⟨(by rw [hcore]; intro h; cases h), ?_⟩
    intro r2 hok
    rw [hcore] at hok
    cases hok
    rw [hst2]
    exact hsc1
  case _ =>
    intro st r name id hlook
    have hcore : lowerExprCore ctx (.VariableExpr r name) st =
        .ok (.Local id, (st.localDefs.getD id ⟨0, 0⟩).ty, st) := by
      simp only [lowerExprCore, hlook]
    refine ⟨(by rw [hcore]; intro h; cases h), ?_⟩
    intro r2 hok
    rw [hcore] at hok
    cases hok
    rfl
  case _ =>
    intro st r name hlook st1 tid st2 halloc
    obtain ⟨-, hst2⟩ := allocTy_eq halloc
    have halloc' : allocTy Ty.Unknown
        { st with errors := st.errors ++ [⟨.UndefinedVariable, r⟩] } =
        (tid, st2) := halloc
    have hcore : lowerExprCore ctx (.VariableExpr r name) st =
        .ok (.Missing, tid, st2) := by
      simp only [lowerExprCore, hlook, halloc']
    refine ⟨(by rw [hcore]; intro h; cases h), ?_⟩
    intro r2 hok
    rw [hcore] at hok
    cases hok
    rw [hst2]
  case _ =>
    intro st r text v hparse tid st1 halloc
    obtain ⟨-, hst1⟩ := allocTy_eq halloc
    have hcore : lowerExprCore ctx (.IntegerExpr r text) st =
        .ok (.Integer v, tid, st1) := by
      simp only [lowerExprCore, hparse, halloc]
    refine ⟨(by rw [hcore]; intro h; cases h), ?_⟩
    intro r2 hok
    rw [hcore] at hok
    cases hok
    rw [hst1]
  case _ =>
    intro st r text hparse
    have hcore : lowerExprCore ctx (.IntegerExpr r text) st =
        .error .IntParse := by
      simp only [lowerExprCore, hparse]
    refine ⟨(by rw [hcore]; intro h; injection h with hp; cases hp), ?_⟩
    intro r2 hok
    rw [hcore] at hok
    cases hok
  case _ =>
    intro st name value p herr ih1
    have hstmt : lowerStmt ctx (.VarStmt name value) st = .error p := by
      simp only [lowerStmt, herr]
    constructor
    · intro hne habs
      rw [hstmt] at habs
      injection habs with hp
      exact ih1.1 (hp ▸ herr)
    · intro r2 hok
      rw [hstmt] at hok
      cases hok
  case _ =>
    intro st value vid tid st1 hval ldid st2 halloc n hscopes ih1
    obtain ⟨-, hst2⟩ := allocLocalDef_eq halloc
    have hsc1 : st1.scopes = st.scopes := ih1.2 _ hval
    have hsceq : st.scopes = [] := by
      have hq : st2.scopes = st1.scopes := by rw [hst2]
      rw [hq, hsc1] at hscopes
      exact hscopes
    have hstmt : lowerStmt ctx (.VarStmt (some n) value) st =
        .error .EmptyScopes := by
      simp only [lowerStmt, hval, halloc, hscopes]
    constructor
    · intro hne
      exact absurd hsceq hne
    · intro r2 hok
      rw [hstmt] at hok
      cases hok
  case _ =>
    intro st value vid tid st1 hval ldid st2 halloc n s0 rest hscopes ih1
    obtain ⟨-, hst2⟩ := allocLocalDef_eq halloc
    have hsc1 : st1.scopes = st.scopes := ih1.2 _ hval
    have hsc2 : st2.scopes = st.scopes := by rw [hst2]; exact hsc1
    have hstmt : lowerStmt ctx (.VarStmt (some n) value) st =
        .ok (.LocalDef ldid,
          { st2 with scopes := insertA s0 n ldid :: rest }) := by
      simp only [lowerStmt, hval, halloc, hscopes]
    constructor
    · intro hne habs
      rw [hstmt] at habs
      cases habs
    · intro r2 hok
      rw [hstmt] at hok
      cases hok
      constructor
      · show rest = st.scopes.tail
        rw [← hsc2, hscopes]
        rfl
      · show (insertA s0 n ldid :: rest).length = st.scopes.length
        rw [← hsc2, hscopes]
        rfl
  case _ =>
    intro st value vid tid st1 hval ldid st2 halloc ih1
    obtain ⟨-, hst2⟩ := allocLocalDef_eq halloc
    have hsc2 : st2.scopes = st.scopes := by
      rw [hst2]
      exact ih1.2 _ hval
    have hstmt : lowerStmt ctx (.VarStmt none value) st =
        .ok (.LocalDef ldid, st2) := by
      simp only [lowerStmt, hval, halloc]
    constructor
    · intro hne habs
      rw [hstmt] at habs
      cases habs
    · intro r2 hok
      rw [hstmt] at hok
      cases hok
      rw [hsc2]
      exact ⟨rfl, rfl⟩
  case _ =>
    intro st eid st1 halloc1 tid st2 halloc2
    obtain ⟨-, hst1⟩ := allocExpr_eq halloc1
    obtain ⟨-, hst2⟩ := allocTy_eq halloc2
    have hopt : lowerExprOpt ctx none st = .ok (eid, tid, st2) := by
      simp only [lowerExprOpt, halloc1, halloc2]
    refine ⟨(by rw [hopt]; intro h; cases h), ?_⟩
    intro r2 hok
    rw [hopt] at hok
    cases hok
    rw [hst2, hst1]
  case _ =>
    intro st e p herr ih2
    have hopt : lowerExprOpt ctx (some e) st = .error p := by
      simp only [lowerExprOpt, herr]
    constructor
    · intro habs
      rw [hopt] at habs
      injection habs with hp
      exact ih2.1 (hp ▸ herr)
    · intro r2 hok
      rw [hopt] at hok
      cases hok
  case _ =>
    intro st e ex tid st1 hcore eid st2 halloc ih2
    obtain ⟨-, hst2⟩ := allocExpr_eq halloc
    have hopt : lowerExprOpt ctx (some e) st = .ok (eid, tid, st2) := by
      simp only [lowerExprOpt, hcore, halloc]
    refine ⟨(by rw [hopt]; intro h; cases h), ?_⟩
    intro r2 hok
    rw [hopt] at hok
    cases hok
    rw [hst2]
    show st1.scopes = st.scopes
    exact ih2.2 _ hcore
  case _ =>
    intro st
    have hstmts : lowerStmts ctx [] st = .ok ([], st) := by
      rw [lowerStmts]
    refine ⟨(by rw [hstmts]; intro hne h; cases h), ?_⟩
    intro r2 hok
    rw [hstmts] at hok
    cases hok
    exact ⟨rfl, rfl⟩
  case _ =>
    intro st s rest p herr ih4
    have hstmts : lowerStmts ctx (s :: rest) st = .error p := by
      simp only [lowerStmts, herr]
    constructor
    · intro hne habs
      rw [hstmts] at habs
      injection habs with hp
      exact ih4.1 hne (hp ▸ herr)
    · intro r2 hok
      rw [hstmts] at hok
      cases hok
  case _ =>
    intro st s rest hs st1 hstmt p herr ih4 ih3
    have hstmts : lowerStmts ctx (s :: rest) st = .error p := by
      simp only [lowerStmts, hstmt, herr]
    constructor
    · intro hne habs
      rw [hstmts] at habs
      injection habs with hp
      have hlen := (ih4.2 _ hstmt).2
      have hne1 : st1.scopes ≠ [] := by
        intro h0
        rw [h0] at hlen
        simp at hlen
        exact hne (List.length_eq_zero.1 hlen.symm)
      exact ih3.1 hne1 (hp ▸ herr)
    · intro r2 hok
      rw [hstmts] at hok
      cases hok
  case _ =>
    intro st s rest hs st1 hstmt hrest st2 hok ih4 ih3
    have hstmts : lowerStmts ctx (s :: rest) st =
        .ok (hs :: hrest, st2) := by
      simp only [lowerStmts, hstmt, hok]
    constructor
    · intro hne habs
      rw [hstmts] at habs
      cases habs
    · intro r2 hok2
      rw [hstmts] at hok2
      cases hok2
      obtain ⟨ht1, hl1⟩ := ih4.2 _ hstmt
      obtain ⟨ht2, hl2⟩ := ih3.2 _ hok
      exact ⟨ht2.trans ht1, hl2.trans hl1⟩

/-- C10: the unwrap of the innermost scope while lowering a var
statement can never fail: statements are only reached through block
lowering, which pushes a scope first, so hir::lower never hits the
EmptyScopes panic, and neither does any expression lowering from any
state. -/
theorem claim_C10_scope_unwrap_never_fails (ctx : Ctx) :
    (∀ items : List CItem, lower ctx items ≠ .error .EmptyScopes) ∧
    (∀ (o : Option CExpr) (st : St),
      lowerExprOpt ctx o st ≠ .error .EmptyScopes) := by
  have hmain := lower_no_empty_scopes ctx
  constructor
  · intro items
    have hstep : ∀ (l : List CItem) (st : St),
        lowerItems ctx l st ≠ .error .EmptyScopes := by
      intro l
      induction l with
      | nil =>
        intro st habs
        rw [lowerItems] at habs
        cases habs
      | cons it rest ihl =>
        intro st habs
        rcases it with - | ⟨name, body⟩
        · rw [show lowerItems ctx (CItem.Strukt :: rest) st =
            lowerItems ctx rest st from rfl] at habs
          exact ihl st habs
        · rcases name with - | n
          · rw [show lowerItems ctx (CItem.Function none body :: rest) st =
              lowerItems ctx rest st from rfl] at habs
            exact ihl st habs
          · rcases hfun : lowerFunction ctx n
                (body.map (fun b => CExpr.BlockExpr b.1 b.2)) st
              with p | st'
            · have heq : lowerItems ctx
                  (CItem.Function (some n) body :: rest) st = .error p := by
                simp only [lowerItems, lowerItem, hfun]
              rw [heq] at habs
              injection habs with hp
              rw [lowerFunction] at hfun
              rcases hopt : lowerExprOpt ctx
                  (body.map (fun b => CExpr.BlockExpr b.1 b.2)) st
                with p2 | r2
              · rw [hopt] at hfun
                injection hfun with hp2
                exact (hmain.1 _ st).1 (by rw [hopt, hp2, hp])
              · rw [hopt] at hfun
                rcases r2 with ⟨eid, tid, st2⟩
                cases hfun
            · have heq : lowerItems ctx
                  (CItem.Function (some n) body :: rest) st =
                  lowerItems ctx rest st' := by
                simp only [lowerItems, lowerItem, hfun]
              rw [heq] at habs
              exact ihl st' habs
    intro habs
    exact hstep items St.init habs
  · intro o st
    exact (hmain.1 o st).1

/-- C1: refuted — lowering is not total. integer_expr unwraps the
u32 parse, so a source file whose function body contains the
grammar-well-formed literal 4294967296 (one past u32::MAX) makes
hir::lower panic instead of returning an Hir with diagnostics; an
in-range literal such as 42 does lower and is typed U32 (type id 0
holds U32 in the resulting arena). -/
theorem claim_C1_totality_refuted :
    lower ctx0 overflowItems = .error .IntParse ∧
    lower ctx0 okItems =
      .ok ⟨[("f", 1)], [.Integer 42, .Block [.LocalDef 0]],
        [⟨0, 0⟩], [.U32, .Void], [], []⟩ := by
  constructor <;>
  · simp only [lower, lowerItems, lowerItem, lowerFunction, lowerExprOpt,
      lowerExprCore, lowerStmts, lowerStmt, allocExpr, allocTy,
      allocLocalDef, parseU32, lookupScopes, lookupA, insertA,
      overflowItems, okItems, ctx0, St.init]
    rfl

theorem lowerExprOpt_alloc {ctx : Ctx} {o : Option CExpr} {st : St}
    {eid tid : Nat} {st2 : St}
    (h : lowerExprOpt ctx o st = .ok (eid, tid, st2)) :
    eid < st2.exprs.length := by
  cases o with
  | none =>
    simp only [lowerExprOpt, allocExpr, allocTy] at h
    injection h with h1
    injection h1 with he h2
    injection h2 with ht hs
    rw [← he, ← hs]
    simp
  | some e =>
    rcases hc : lowerExprCore ctx e st with p | ⟨ex, tidc, stc⟩
    · simp only [lowerExprOpt, hc] at h
      exact Except.noConfusion h
    · simp only [lowerExprOpt, hc, allocExpr] at h
      injection h with h1
      injection h1 with he h2
      injection h2 with ht hs
      rw [← he, ← hs]
      simp

/-- C6: counterexample to "an absent body lowers to a Missing
expression typed Void" — on a named function with an absent body the
allocated body expression is Missing but its type arena entry is
Unknown, not Void (expr with None goes through the missing-expression
path, which allocates Ty::Unknown). -/
theorem claim_C6_absent_body_counterexample :
    ∃ st : St, lower ctx0 noBodyItems = .ok st ∧
      st.exprs = [.Missing] ∧ st.tys = [.Unknown] ∧
      st.tys ≠ [.Void] ∧ st.errors = [] := by
  refine ⟨⟨[("f", 0)], [.Missing], [], [.Unknown], [], []⟩, ?_, rfl, rfl,
    by simp, rfl⟩
  simp only [lower, lowerItems, lowerItem, lowerFunction, lowerExprOpt,
    allocExpr, allocTy, insertA, noBodyItems, ctx0, St.init, Option.map]
  rfl

/-- C6 amended: for every NAMED function item, lowering allocates a
body expression and records the name mapped to that expression's id
(the id is a valid index of the expression arena); a named function
with an absent body lowers to a Missing expression typed Unknown (not
Void), with no diagnostic and no other state change. -/
theorem claim_C6_function_lowering_amended :
    (∀ (ctx : Ctx) (n : String) (st : St),
      lowerItem ctx (.Function (some n) none) st =
        .ok { st with
          map := insertA st.map n st.exprs.length,
          exprs := st.exprs ++ [.Missing],
          tys := st.tys ++ [.Unknown] }) ∧
    (∀ (ctx : Ctx) (n : String) (body : Option (Rng × List CStmt))
        (st st2 : St),
      lowerItem ctx (.Function (some n) body) st = .ok st2 →
      ∃ eid tid stb,
        lowerExprOpt ctx (body.map (fun b => CExpr.BlockExpr b.1 b.2))
            st = .ok (eid, tid, stb) ∧
        st2 = { stb with map := insertA stb.map n eid } ∧
        eid < st2.exprs.length) := by
  constructor
  · intro ctx n st
    simp only [lowerItem, lowerFunction, lowerExprOpt, allocExpr, allocTy,
      Option.map]
  · intro ctx n body st st2 h
    simp only [lowerItem] at h
    rcases ho : lowerExprOpt ctx
        (body.map (fun b => CExpr.BlockExpr b.1 b.2)) st
      with p | ⟨eid, tid, stb⟩
    · simp only [lowerFunction, ho] at h
      exact Except.noConfusion h
    · simp only [lowerFunction, ho] at h
      injection h with h1
      refine ⟨eid, tid, stb, ho, h1.symm, ?_⟩
      rw [← h1]
      show eid < stb.exprs.length
      exact lowerExprOpt_alloc ho

/-- C6 witness: the amended theorem applied to the concrete no-body
source file. -/
theorem claim_C6_function_lowering_amended_witness :
    ∃ eid tid stb,
      lowerExprOpt ctx0 ((none : Option (Rng × List CStmt)).map
          (fun b => CExpr.BlockExpr b.1 b.2)) St.init =
        .ok (eid, tid, stb) ∧
      (⟨[("f", 0)], [.Missing], [], [.Unknown], [], []⟩ : St) =
        { stb with map := insertA stb.map "f" eid } ∧
      eid <
        (⟨[("f", 0)], [.Missing], [], [.Unknown], [], []⟩ :
          St).exprs.length :=
  claim_C6_function_lowering_amended.2 ctx0 "f" none St.init
    ⟨[("f", 0)], [.Missing], [], [.Unknown], [], []⟩
    (by
      simp only [lowerItem, lowerFunction, lowerExprOpt, allocExpr,
        allocTy, insertA, St.init, Option.map]
      rfl)

/-- C8: on the concrete program
function f \x7b var x = 1
             var b = \x7b var x = 2  var y = x \x7d
             var z = x
             var x = 3
             var w = x \x7d
lowering resolves the nested use of x (expression 2) to the nested
definition (local def 1, initialized with 2); the use after the block
(expression 4) to the outer definition (local def 0, initialized with
1); the use after the same-scope rebinding (expression 6) to the new
definition (local def 5, initialized with 3); and emits no diagnostic
at all — in particular no duplicate-definition error for either
rebinding. -/
theorem claim_C8_shadowing :
    ∃ st : St, lower ctx0 shadowItems = .ok st ∧
      st.exprs.getD 2 .Missing = .Local 1 ∧
      st.exprs.getD ((st.localDefs.getD 1 ⟨0, 0⟩).value) .Missing =
        .Integer 2 ∧
      st.exprs.getD 4 .Missing = .Local 0 ∧
      st.exprs.getD ((st.localDefs.getD 0 ⟨0, 0⟩).value) .Missing =
        .Integer 1 ∧
      st.exprs.getD 6 .Missing = .Local 5 ∧
      st.exprs.getD ((st.localDefs.getD 5 ⟨0, 0⟩).value) .Missing =
        .Integer 3 ∧
      st.errors = [] := by
  have hs1 : lowerStmt ctx0
      (.VarStmt (some "x") (some (.IntegerExpr ⟨21, 22⟩ "1")))
      ⟨[], [], [], [], [[]], []⟩ =
      .ok (.LocalDef 0,
        ⟨[], [.Integer 1], [⟨0, 0⟩], [.U32], [[("x", 0)]], []⟩) := by
    simp only [lowerStmt, lowerExprOpt, lowerExprCore, parseU32,
      allocTy, allocExpr, allocLocalDef, insertA]
    rfl
  have hi1 : lowerStmt ctx0
      (.VarStmt (some "x") (some (.IntegerExpr ⟨54, 55⟩ "2")))
      ⟨[], [.Integer 1], [⟨0, 0⟩], [.U32], [[], [("x", 0)]], []⟩ =
      .ok (.LocalDef 1,
        ⟨[], [.Integer 1, .Integer 2], [⟨0, 0⟩, ⟨1, 1⟩], [.U32, .U32],
          [[("x", 1)], [("x", 0)]], []⟩) := by
    simp only [lowerStmt, lowerExprOpt, lowerExprCore, parseU32,
      allocTy, allocExpr, allocLocalDef, insertA]
    rfl
  have hi2 : lowerStmt ctx0
      (.VarStmt (some "y") (some (.VariableExpr ⟨64, 65⟩ "x")))
      ⟨[], [.Integer 1, .Integer 2], [⟨0, 0⟩, ⟨1, 1⟩], [.U32, .U32],
        [[("x", 1)], [("x", 0)]], []⟩ =
      .ok (.LocalDef 2,
        ⟨[], [.Integer 1, .Integer 2, .Local 1],
          [⟨0, 0⟩, ⟨1, 1⟩, ⟨1, 2⟩], [.U32, .U32],
          [[("x", 1), ("y", 2)], [("x", 0)]], []⟩) := by
    simp only [lowerStmt, lowerExprOpt, lowerExprCore, lookupScopes,
      lookupA, allocTy, allocExpr, allocLocalDef, insertA]
    rfl
  have hinner : lowerStmts ctx0
      [.VarStmt (some "x") (some (.IntegerExpr ⟨54, 55⟩ "2")),
       .VarStmt (some "y") (some (.VariableExpr ⟨64, 65⟩ "x"))]
      ⟨[], [.Integer 1], [⟨0, 0⟩], [.U32], [[], [("x", 0)]], []⟩ =
      .ok ([.LocalDef 1, .LocalDef 2],
        ⟨[], [.Integer 1, .Integer 2, .Local 1],
          [⟨0, 0⟩, ⟨1, 1⟩, ⟨1, 2⟩], [.U32, .U32],
          [[("x", 1), ("y", 2)], [("x", 0)]], []⟩) := by
    simp only [lowerStmts, hi1, hi2]
  have hblk : lowerExprCore ctx0
      (.BlockExpr ⟨44, 66⟩
        [.VarStmt (some "x") (some (.IntegerExpr ⟨54, 55⟩ "2")),
         .VarStmt (some "y") (some (.VariableExpr ⟨64, 65⟩ "x"))])
      ⟨[], [.Integer 1], [⟨0, 0⟩], [.U32], [[("x", 0)]], []⟩ =
      .ok (.Block [.LocalDef 1, .LocalDef 2], 2,
        ⟨[], [.Integer 1, .Integer 2, .Local 1],
          [⟨0, 0⟩, ⟨1, 1⟩, ⟨1, 2⟩], [.U32, .U32, .Void],
          [[("x", 0)]], []⟩) := by
    simp only [lowerExprCore, hinner, allocTy]
    rfl
  have hb2 : lowerStmt ctx0
      (.VarStmt (some "b")
        (some (.BlockExpr ⟨44, 66⟩
          [.VarStmt (some "x") (some (.IntegerExpr ⟨54, 55⟩ "2")),
           .VarStmt (some "y") (some (.VariableExpr ⟨64, 65⟩ "x"))])))
      ⟨[], [.Integer 1], [⟨0, 0⟩], [.U32], [[("x", 0)]], []⟩ =
      .ok (.LocalDef 3,
        ⟨[], [.Integer 1, .Integer 2, .Local 1,
            .Block [.LocalDef 1, .LocalDef 2]],
          [⟨0, 0⟩, ⟨1, 1⟩, ⟨1, 2⟩, ⟨2, 3⟩], [.U32, .U32, .Void],
          [[("x", 0), ("b", 3)]], []⟩) := by
    simp only [lowerStmt, lowerExprOpt, hblk, allocExpr, allocLocalDef,
      insertA]
    rfl
  have hs3 : lowerStmt ctx0
      (.VarStmt (some "z") (some (.VariableExpr ⟨88, 89⟩ "x")))
      ⟨[], [.Integer 1, .Integer 2, .Local 1,
          .Block [.LocalDef 1, .LocalDef 2]],
        [⟨0, 0⟩, ⟨1, 1⟩, ⟨1, 2⟩, ⟨2, 3⟩], [.U32, .U32, .Void],
        [[("x", 0), ("b", 3)]], []⟩ =
      .ok (.LocalDef 4,
        ⟨[], [.Integer 1, .Integer 2, .Local 1,
            .Block [.LocalDef 1, .LocalDef 2], .Local 0],
          [⟨0, 0⟩, ⟨1, 1⟩, ⟨1, 2⟩, ⟨2, 3⟩, ⟨0, 4⟩], [.U32, .U32, .Void],
          [[("x", 0), ("b", 3), ("z", 4)]], []⟩) := by
    simp only [lowerStmt, lowerExprOpt, lowerExprCore, lookupScopes,
      lookupA, allocTy, allocExpr, allocLocalDef, insertA]
    rfl
  have hs4 : lowerStmt ctx0
      (.VarStmt (some "x") (some (.IntegerExpr ⟨100, 101⟩ "3")))
      ⟨[], [.Integer 1, .Integer 2, .Local 1,
          .Block [.LocalDef 1, .LocalDef 2], .Local 0],
        [⟨0, 0⟩, ⟨1, 1⟩, ⟨1, 2⟩, ⟨2, 3⟩, ⟨0, 4⟩], [.U32, .U32, .Void],
        [[("x", 0), ("b", 3), ("z", 4)]], []⟩ =
      .ok (.LocalDef 5,
        ⟨[], [.Integer 1, .Integer 2, .Local 1,
            .Block [.LocalDef 1, .LocalDef 2], .Local 0, .Integer 3],
          [⟨0, 0⟩, ⟨1, 1⟩, ⟨1, 2⟩, ⟨2, 3⟩, ⟨0, 4⟩, ⟨3, 5⟩],
          [.U32, .U32, .Void, .U32],
          [[("x", 5), ("b", 3), ("z", 4)]], []⟩) := by
    simp only [lowerStmt, lowerExprOpt, lowerExprCore, parseU32,
      allocTy, allocExpr, allocLocalDef, insertA]
    rfl
  have hs5 : lowerStmt ctx0
      (.VarStmt (some "w") (some (.VariableExpr ⟨117, 118⟩ "x")))
      ⟨[], [.Integer 1, .Integer 2, .Local 1,
          .Block [.LocalDef 1, .LocalDef 2], .Local 0, .Integer 3],
        [⟨0, 0⟩, ⟨1, 1⟩, ⟨1, 2⟩, ⟨2, 3⟩, ⟨0, 4⟩, ⟨3, 5⟩],
        [.U32, .U32, .Void, .U32],
        [[("x", 5), ("b", 3), ("z", 4)]], []⟩ =
      .ok (.LocalDef 6,
        ⟨[], [.Integer 1, .Integer 2, .Local 1,
            .Block [.LocalDef 1, .LocalDef 2], .Local 0, .Integer 3,
            .Local 5],
          [⟨0, 0⟩, ⟨1, 1⟩, ⟨1, 2⟩, ⟨2, 3⟩, ⟨0, 4⟩, ⟨3, 5⟩, ⟨3, 6⟩],
          [.U32, .U32, .Void, .U32],
          [[("x", 5), ("b", 3), ("z", 4), ("w", 6)]], []⟩) := by
    simp only [lowerStmt, lowerExprOpt, lowerExprCore, lookupScopes,
      lookupA, allocTy, allocExpr, allocLocalDef, insertA]
    rfl
  have houts : lowerStmts ctx0
      [.VarStmt (some "x") (some (.IntegerExpr ⟨21, 22⟩ "1")),
       .VarStmt (some "b")
         (some (.BlockExpr ⟨44, 66⟩
           [.VarStmt (some "x") (some (.IntegerExpr ⟨54, 55⟩ "2")),
            .VarStmt (some "y") (some (.VariableExpr ⟨64, 65⟩ "x"))])),
       .VarStmt (some "z") (some (.VariableExpr ⟨88, 89⟩ "x")),
       .VarStmt (some "x") (some (.IntegerExpr ⟨100, 101⟩ "3")),
       .VarStmt (some "w") (some (.VariableExpr ⟨117, 118⟩ "x"))]
      ⟨[], [], [], [], [[]], []⟩ =
      .ok ([.LocalDef 0, .LocalDef 3, .LocalDef 4, .LocalDef 5,
          .LocalDef 6],
        ⟨[], [.Integer 1, .Integer 2, .Local 1,
            .Block [.LocalDef 1, .LocalDef 2], .Local 0, .Integer 3,
            .Local 5],
          [⟨0, 0⟩, ⟨1, 1⟩, ⟨1, 2⟩, ⟨2, 3⟩, ⟨0, 4⟩, ⟨3, 5⟩, ⟨3, 6⟩],
          [.U32, .U32, .Void, .U32],
          [[("x", 5), ("b", 3), ("z", 4), ("w", 6)]], []⟩) := by
    simp only [lowerStmts, hs1, hb2, hs3, hs4, hs5]
  have hcoreAll : lowerExprCore ctx0
      (.BlockExpr ⟨11, 120⟩
        [.VarStmt (some "x") (some (.IntegerExpr ⟨21, 22⟩ "1")),
         .VarStmt (some "b")
           (some (.BlockExpr ⟨44, 66⟩
             [.VarStmt (some "x") (some (.IntegerExpr ⟨54, 55⟩ "2")),
              .VarStmt (some "y") (some (.VariableExpr ⟨64, 65⟩ "x"))])),
         .VarStmt (some "z") (some (.VariableExpr ⟨88, 89⟩ "x")),
         .VarStmt (some "x") (some (.IntegerExpr ⟨100, 101⟩ "3")),
         .VarStmt (some "w") (some (.VariableExpr ⟨117, 118⟩ "x"))])
      ⟨[], [], [], [], [], []⟩ =
      .ok (.Block [.LocalDef 0, .LocalDef 3, .LocalDef 4, .LocalDef 5,
          .LocalDef 6], 4,
        ⟨[], [.Integer 1, .Integer 2, .Local 1,
            .Block [.LocalDef 1, .LocalDef 2], .Local 0, .Integer 3,
            .Local 5],
          [⟨0, 0⟩, ⟨1, 1⟩, ⟨1, 2⟩, ⟨2, 3⟩, ⟨0, 4⟩, ⟨3, 5⟩, ⟨3, 6⟩],
          [.U32, .U32, .Void, .U32, .Void], [], []⟩) := by
    simp only [lowerExprCore, houts, allocTy]
    rfl
  refine ⟨⟨[("f", 7)],
    [.Integer 1, .Integer 2, .Local 1, .Block [.LocalDef 1, .LocalDef 2],
     .Local 0, .Integer 3, .Local 5,
     .Block [.LocalDef 0, .LocalDef 3, .LocalDef 4, .LocalDef 5,
       .LocalDef 6]],
    [⟨0, 0⟩, ⟨1, 1⟩, ⟨1, 2⟩, ⟨2, 3⟩, ⟨0, 4⟩, ⟨3, 5⟩, ⟨3, 6⟩],
    [.U32, .U32, .Void, .U32, .Void], [], []⟩,
    ?_, rfl, rfl, rfl, rfl, rfl, rfl, rfl⟩
  simp only [lower, lowerItems, lowerItem, lowerFunction, lowerExprOpt,
    hcoreAll, allocExpr, insertA, shadowItems, St.init, Option.map]
  rfl

/-- C5: for a binary expression with both operands present and an
operator, if exactly one operand's computed type is not U32, lowering
appends exactly one TyMismatch diagnostic citing that operand's own
range, replaces only that operand with a freshly allocated Missing
expression (the other operand's id — and hence its stored value — is
kept), and the result type of the whole binary expression is U32. -/
theorem claim_C5_binary_mismatch :
    ∀ (ctx : Ctx) (r : Rng) (el er : CExpr) (opTok : CBinOp)
      (st st1 st2 : St) (lid lty rid rty : Nat),
      lowerExprOpt ctx (some el) st = .ok (lid, lty, st1) →
      lowerExprOpt ctx (some er) st1 = .ok (rid, rty, st2) →
      ((st2.tys.getD lty .Unknown = .U32 →
        st2.tys.getD rty .Unknown ≠ .U32 →
        lowerExprCore ctx
            (.BinaryExpr r (some el) (some er) (some opTok)) st =
          .ok (.Binary lid st2.exprs.length (mapOp opTok),
            st2.tys.length,
            { st2 with
              exprs := st2.exprs ++ [.Missing],
              tys := st2.tys ++ [.U32],
              errors := st2.errors ++
                [⟨.TyMismatch "u32"
                    (pretty_print_ty (st2.tys.getD rty .Unknown)
                      st2.tys), er.rng⟩] })) ∧
       (st2.tys.getD lty .Unknown ≠ .U32 →
        st2.tys.getD rty .Unknown = .U32 →
        lowerExprCore ctx
            (.BinaryExpr r (some el) (some er) (some opTok)) st =
          .ok (.Binary st2.exprs.length rid (mapOp opTok),
            st2.tys.length,
            { st2 with
              exprs := st2.exprs ++ [.Missing],
              tys := st2.tys ++ [.U32],
              errors := st2.errors ++
                [⟨.TyMismatch "u32"
                    (pretty_print_ty (st2.tys.getD lty .Unknown)
                      st2.tys), el.rng⟩] }))) := by
  intro ctx r el er opTok st st1 st2 lid lty rid rty hl hr
  constructor
  · intro h1 h2
    have hm1 : expect_ty_match .U32 lty el.rng st2 = (true, st2) := by
      simp only [expect_ty_match]
      rw [if_pos h1.symm]
    have hm2 : expect_ty_match .U32 rty er.rng st2 =
        (false,
          { st2 with
            errors := st2.errors ++
              [⟨.TyMismatch (pretty_print_ty .U32 st2.tys)
                  (pretty_print_ty (st2.tys.getD rty .Unknown)
                    st2.tys), er.rng⟩] }) := by
      simp only [expect_ty_match]
      rw [if_neg (fun h => h2 h.symm)]
    simp only [lowerExprCore, hl, hr, hm1, hm2, allocExpr, allocTy]
    rfl
  · intro h1 h2
    have hm1 : expect_ty_match .U32 lty el.rng st2 =
        (false,
          { st2 with
            errors := st2.errors ++
              [⟨.TyMismatch (pretty_print_ty .U32 st2.tys)
                  (pretty_print_ty (st2.tys.getD lty .Unknown)
                    st2.tys), el.rng⟩] }) := by
      simp only [expect_ty_match]
      rw [if_neg (fun h => h1 h.symm)]
    have hm2 : expect_ty_match .U32 rty er.rng
        { st2 with
          exprs := st2.exprs ++ [.Missing],
          errors := st2.errors ++
            [⟨.TyMismatch (pretty_print_ty .U32 st2.tys)
                (pretty_print_ty (st2.tys.getD lty .Unknown)
                  st2.tys), el.rng⟩] } =
        (true,
          { st2 with
            exprs := st2.exprs ++ [.Missing],
            errors := st2.errors ++
              [⟨.TyMismatch (pretty_print_ty .U32 st2.tys)
                  (pretty_print_ty (st2.tys.getD lty .Unknown)
                    st2.tys), el.rng⟩] }) := by
      simp only [expect_ty_match]
      rw [if_pos h2.symm]
    simp only [lowerExprCore, hl, hr, hm1, hm2, allocExpr, allocTy]
    rfl


/-- C5 witness: 1 + \x7b\x7d — the block operand is Void, so it alone is
replaced by Missing, one TyMismatch u32/void at the block's range is
emitted, the integer operand survives, and the result type is U32. -/
theorem claim_C5_binary_mismatch_witness :
    lowerExprCore ctx0
        (.BinaryExpr ⟨0, 6⟩ (some (.IntegerExpr ⟨0, 1⟩ "1"))
          (some (.BlockExpr ⟨4, 6⟩ [])) (some .Plus)) St.init =
      .ok (.Binary 0 2 .Add, 2,
        ⟨[], [.Integer 1, .Block [], .Missing], [], [.U32, .Void, .U32],
          [], [⟨.TyMismatch "u32" "void", ⟨4, 6⟩⟩]⟩) :=
  (claim_C5_binary_mismatch ctx0 ⟨0, 6⟩ (.IntegerExpr ⟨0, 1⟩ "1")
    (.BlockExpr ⟨4, 6⟩ []) .Plus St.init
    ⟨[], [.Integer 1], [], [.U32], [], []⟩
    ⟨[], [.Integer 1, .Block []], [], [.U32, .Void], [], []⟩
    0 0 1 1
    (by
      simp only [lowerExprOpt, lowerExprCore, parseU32, allocTy,
        allocExpr, St.init]
      rfl)
    (by
      simp only [lowerExprOpt, lowerExprCore, lowerStmts, allocTy,
        allocExpr]
      rfl)).1 (by decide) (by decide)

theorem render_map_irrel (m1 m2 : List (String × Nat))
    (e : List Expr) (d : List LocalDef) (t : List Ty) :
    ∀ fuel : Nat,
      (∀ ind id, renderExpr ⟨m1, e, d, t⟩ fuel ind id =
        renderExpr ⟨m2, e, d, t⟩ fuel ind id) ∧
      (∀ ind stmts, renderBlock ⟨m1, e, d, t⟩ fuel ind stmts =
        renderBlock ⟨m2, e, d, t⟩ fuel ind stmts) ∧
      (∀ ind stmts, renderStmts ⟨m1, e, d, t⟩ fuel ind stmts =
        renderStmts ⟨m2, e, d, t⟩ fuel ind stmts) ∧
      (∀ ind s, renderStmt ⟨m1, e, d, t⟩ fuel ind s =
        renderStmt ⟨m2, e, d, t⟩ fuel ind s) := by
  intro fuel
  induction fuel with
  | zero =>
    have he : ∀ ind id, renderExpr ⟨m1, e, d, t⟩ 0 ind id =
        renderExpr ⟨m2, e, d, t⟩ 0 ind id := by
      intro ind id
      rw [renderExpr, renderExpr]
    have hst : ∀ ind s, renderStmt ⟨m1, e, d, t⟩ 0 ind s =
        renderStmt ⟨m2, e, d, t⟩ 0 ind s := by
      intro ind s
      cases s with
      | LocalDef d0 => simp only [renderStmt, he]
    have hss : ∀ ind stmts, renderStmts ⟨m1, e, d, t⟩ 0 ind stmts =
        renderStmts ⟨m2, e, d, t⟩ 0 ind stmts := by
      intro ind stmts
      induction stmts with
      | nil => rw [renderStmts, renderStmts]
      | cons s rest ihs => simp only [renderStmts, hst, ihs]
    have hb : ∀ ind stmts, renderBlock ⟨m1, e, d, t⟩ 0 ind stmts =
        renderBlock ⟨m2, e, d, t⟩ 0 ind stmts := by
      intro ind stmts
      simp only [renderBlock, hss]
    exact ⟨he, hb, hss, hst⟩
  | succ f ih =>
    have he : ∀ ind id, renderExpr ⟨m1, e, d, t⟩ (f + 1) ind id =
        renderExpr ⟨m2, e, d, t⟩ (f + 1) ind id := by
      intro ind id
      rw [renderExpr, renderExpr]
      cases hx : (⟨m1, e, d, t⟩ : Hir).exprs.getD id .Missing with
      | Missing => simp only [hx]
      | Integer n => simp only [hx]
      | Local d0 => simp only [hx]
      | Call p => simp only [hx]
      | Binary l r op => simp only [hx, ih.1]
      | Block stmts => simp only [hx, ih.2.1]
    have hst : ∀ ind s, renderStmt ⟨m1, e, d, t⟩ (f + 1) ind s =
        renderStmt ⟨m2, e, d, t⟩ (f + 1) ind s := by
      intro ind s
      cases s with
      | LocalDef d0 => simp only [renderStmt, he]
    have hss : ∀ ind stmts,
        renderStmts ⟨m1, e, d, t⟩ (f + 1) ind stmts =
        renderStmts ⟨m2, e, d, t⟩ (f + 1) ind stmts := by
      intro ind stmts
      induction stmts with
      | nil => rw [renderStmts, renderStmts]
      | cons s rest ihs => simp only [renderStmts, hst, ihs]
    have hb : ∀ ind stmts,
        renderBlock ⟨m1, e, d, t⟩ (f + 1) ind stmts =
        renderBlock ⟨m2, e, d, t⟩ (f + 1) ind stmts := by
      intro ind stmts
      simp only [renderBlock, hss]
    exact ⟨he, hb, hss, hst⟩

theorem renderItems_map_irrel (m1 m2 : List (String × Nat))
    (e : List Expr) (d : List LocalDef) (t : List Ty) (fuel : Nat) :
    ∀ l, renderItems ⟨m1, e, d, t⟩ fuel l =
      renderItems ⟨m2, e, d, t⟩ fuel l := by
  intro l
  induction l with
  | nil => rw [renderItems, renderItems]
  | cons p rest ihl =>
    cases rest with
    | nil =>
      simp only [renderItems, (render_map_irrel m1 m2 e d t fuel).1]
    | cons q rest2 =>
      simp only [renderItems, (render_map_irrel m1 m2 e d t fuel).1]
      rw [show renderItems ⟨m1, e, d, t⟩ fuel (q :: rest2) =
        renderItems ⟨m2, e, d, t⟩ fuel (q :: rest2) from ihl]

theorem insertionSort_perm_eq {l1 l2 : List (String × Nat)}
    (hp : l1.Perm l2) (hn : (l1.map Prod.fst).Nodup) :
    l1.insertionSort byName = l2.insertionSort byName := by
  haveI : IsAntisymm (String × Nat) (fun a b => a.1 < b.1) :=
    ⟨fun a b h1 h2 => absurd (lt_trans h1 h2) (lt_irrefl _)⟩
  haveI : IsTotal (String × Nat) byName := ⟨fun a b => le_total a.1 b.1⟩
  haveI : IsTrans (String × Nat) byName :=
    ⟨fun a b c h1 h2 => le_trans h1 h2⟩
  have hsorted : ∀ l : List (String × Nat),
      (l.map Prod.fst).Nodup →
      (l.insertionSort byName).Pairwise (fun a b => a.1 < b.1) := by
    intro l hnl
    have h1 : (l.insertionSort byName).Pairwise byName :=
      List.sorted_insertionSort byName l
    have h2 : (l.insertionSort byName).Pairwise
        (fun a b => a.1 ≠ b.1) := by
      have hperm : ((l.insertionSort byName).map Prod.fst).Perm
          (l.map Prod.fst) := (List.perm_insertionSort byName l).map _
      have := (hperm.nodup_iff).2 hnl
      exact (List.pairwise_map).1 this
    exact (h1.and h2).imp
      (fun hab => lt_of_le_of_ne hab.1 hab.2)
  have hn2 : (l2.map Prod.fst).Nodup := ((hp.map Prod.fst).nodup_iff).1 hn
  exact List.eq_of_perm_of_sorted
    (((List.perm_insertionSort byName l1).trans hp).trans
      (List.perm_insertionSort byName l2).symm)
    (hsorted l1 hn) (hsorted l2 hn2)

/-- C9: determinism of the pretty printer. Parsing and lowering are
pure functions of their input, so run-to-run variation can only enter
through HashMap iteration order; pretty_print cancels it: two Hirs
with identical arenas whose name maps are permutations of each other
(names distinct, as in any HashMap) print byte-identically, because
the printer first sorts the items by name — and the printed order is
the lexicographic name order, not the insertion order. -/
theorem claim_C9_determinism :
    (∀ (h1 h2 : Hir) (fuel : Nat),
      h1.map.Perm h2.map →
      (h1.map.map Prod.fst).Nodup →
      h1.exprs = h2.exprs → h1.localDefs = h2.localDefs →
      h1.tys = h2.tys →
      pretty_print h1 fuel = pretty_print h2 fuel) ∧
    (∀ (h : Hir) (fuel : Nat),
      (h.map.insertionSort byName).Perm h.map ∧
      ((h.map.insertionSort byName).map Prod.fst).Sorted (· ≤ ·) ∧
      pretty_print h fuel =
        renderItems h fuel (h.map.insertionSort byName)) := by
  constructor
  · intro h1 h2 fuel hp hn he hd ht
    obtain ⟨m1, e1, d1, t1⟩ := h1
    obtain ⟨m2, e2, d2, t2⟩ := h2
    cases he
    cases hd
    cases ht
    rw [pretty_print, pretty_print]
    have hms : m1.insertionSort byName = m2.insertionSort byName :=
      insertionSort_perm_eq hp hn
    show renderItems ⟨m1, e1, d1, t1⟩ fuel (m1.insertionSort byName) =
      renderItems ⟨m2, e1, d1, t1⟩ fuel (m2.insertionSort byName)
    rw [hms]
    exact renderItems_map_irrel m1 m2 e1 d1 t1 fuel _
  · intro h fuel
    haveI : IsTotal (String × Nat) byName := ⟨fun a b => le_total a.1 b.1⟩
    haveI : IsTrans (String × Nat) byName :=
      ⟨fun a b c h1 h2 => le_trans h1 h2⟩
    refine ⟨List.perm_insertionSort byName h.map, ?_, rfl⟩
    have h1 : (h.map.insertionSort byName).Pairwise byName :=
      List.sorted_insertionSort byName h.map
    exact (List.pairwise_map).2 h1

/-- C9 witness: the determinism theorem applied to two insertion
orders of the same two-item map. -/
theorem claim_C9_determinism_witness :
    pretty_print
        ⟨[("b", 0), ("a", 1)], [.Missing, .Missing], [], []⟩ 9 =
      pretty_print
        ⟨[("a", 1), ("b", 0)], [.Missing, .Missing], [], []⟩ 9 :=
  claim_C9_determinism.1 ⟨[("b", 0), ("a", 1)], [.Missing, .Missing], [], []⟩
    ⟨[("a", 1), ("b", 0)], [.Missing, .Missing], [], []⟩ 9
    (List.Perm.swap ("a", 1) ("b", 0) []) (by decide) rfl rfl rfl

theorem getD_ext {α : Type} (d : α) {l l' : List α}
    (h : l <+: l') {i : Nat} (hi : i < l.length) :
    l'.getD i d = l.getD i d := by
  obtain ⟨t, rfl⟩ := h
  exact List.getD_append l t d i hi

theorem getD_snoc_len {α : Type} (l : List α) (a d : α) :
    (l ++ [a]).getD l.length d = a := by
  rw [List.getD_eq_getElem?_getD, List.getElem?_concat_length]
  rfl

theorem stext_refl (st : St) : StExt st st :=
  ⟨List.prefix_rfl, List.prefix_rfl, List.prefix_rfl⟩

theorem stext_trans {a b c : St} (h1 : StExt a b) (h2 : StExt b c) :
    StExt a c :=
  ⟨h1.1.trans h2.1, h1.2.1.trans h2.2.1, h1.2.2.trans h2.2.2⟩

theorem getD_mem {α : Type} {l : List α} {i : Nat} (d : α)
    (hi : i < l.length) : l.getD i d ∈ l := by
  rw [List.getD_eq_getElem l d hi]
  exact List.getElem_mem hi

theorem exprTyIn_mono {st st' : St} (hext : StExt st st')
    (hwf : wfSt st) {e : Expr}
    (hb : ∀ d, e = .Local d → d < st.localDefs.length) :
    exprTyIn st' e = exprTyIn st e := by
  cases e with
  | Local d =>
    have hd : d < st.localDefs.length := hb d rfl
    have hld : st'.localDefs.getD d ⟨0, 0⟩ = st.localDefs.getD d ⟨0, 0⟩ :=
      getD_ext _ hext.2.1 hd
    have hty : (st.localDefs.getD d ⟨0, 0⟩).ty < st.tys.length :=
      hwf.2.2.1 _ (getD_mem _ hd)
    simp only [exprTyIn, exprTyL]
    rw [hld, getD_ext _ hext.2.2 hty]
  | Missing => rfl
  | Integer n => rfl
  | Block s => rfl
  | Call p => rfl
  | Binary l r op => rfl

theorem operandOK_mono {st st' : St} (hext : StExt st st')
    (hwf : wfSt st) {i : Nat} (hi : i < st.exprs.length)
    (h : operandOK st i) : operandOK st' i := by
  have hgd : st'.exprs.getD i .Missing = st.exprs.getD i .Missing :=
    getD_ext _ hext.1 hi
  rcases h with h | h
  · exact Or.inl (by rw [hgd, h])
  · refine Or.inr ?_
    rw [hgd,
      exprTyIn_mono hext hwf (fun d hd => hwf.1 _ (getD_mem _ hi) d hd)]
    exact h

theorem wfSt_of_eq {a b : St} (hwf : wfSt a) (h1 : a.exprs = b.exprs)
    (h2 : a.localDefs = b.localDefs) (h3 : a.tys = b.tys)
    (h4 : a.scopes = b.scopes) : wfSt b := by
  obtain ⟨am, ae, ad, at2, as2, ar⟩ := a
  obtain ⟨bm, be, bd, bt, bs, br⟩ := b
  cases h1
  cases h2
  cases h3
  cases h4
  exact hwf

theorem binariesOK_of_eq {a b : St} (hbo : binariesOK a)
    (h1 : a.exprs = b.exprs) (h2 : a.localDefs = b.localDefs)
    (h3 : a.tys = b.tys) : binariesOK b := by
  obtain ⟨am, ae, ad, at2, as2, ar⟩ := a
  obtain ⟨bm, be, bd, bt, bs, br⟩ := b
  cases h1
  cases h2
  cases h3
  exact hbo

theorem inv_allocExpr {st : St} {ex : Expr}
    (hwf : wfSt st) (hbo : binariesOK st)
    (hloc : ∀ d, ex = .Local d → d < st.localDefs.length)
    (hbin : ∀ l r op, ex = .Binary l r op →
      operandOK st l ∧ operandOK st r ∧
      l < st.exprs.length ∧ r < st.exprs.length) :
    wfSt { st with exprs := st.exprs ++ [ex] } ∧
    binariesOK { st with exprs := st.exprs ++ [ex] } := by
  have hext : StExt st { st with exprs := st.exprs ++ [ex] } :=
    ⟨⟨[ex], rfl⟩, List.prefix_rfl, List.prefix_rfl⟩
  constructor
  · refine ⟨?_, ?_, hwf.2.2.1, hwf.2.2.2⟩
    · intro e he d hd
      rcases List.mem_append.1 he with he | he
      · exact hwf.1 e he d hd
      · rcases List.mem_singleton.1 he with rfl
        exact hloc d hd
    · intro e he l r op hd
      rcases List.mem_append.1 he with he | he
      · obtain ⟨hb1, hb2⟩ := hwf.2.1 e he l r op hd
        exact ⟨hb1.trans_le (by simp), hb2.trans_le (by simp)⟩
      · rcases List.mem_singleton.1 he with rfl
        obtain ⟨-, -, h3, h4⟩ := hbin l r op hd
        exact ⟨h3.trans_le (by simp), h4.trans_le (by simp)⟩
  · intro e he l r op hd
    rcases List.mem_append.1 he with he | he
    · obtain ⟨h1, h2⟩ := hbo e he l r op hd
      obtain ⟨hb1, hb2⟩ := hwf.2.1 e he l r op hd
      exact ⟨operandOK_mono hext hwf hb1 h1,
        operandOK_mono hext hwf hb2 h2⟩
    · rcases List.mem_singleton.1 he with rfl
      obtain ⟨h1, h2, h3, h4⟩ := hbin l r op hd
      exact ⟨operandOK_mono hext hwf h3 h1,
        operandOK_mono hext hwf h4 h2⟩

theorem inv_allocTy {st : St} {t : Ty}
    (hwf : wfSt st) (hbo : binariesOK st) :
    wfSt { st with tys := st.tys ++ [t] } ∧
    binariesOK { st with tys := st.tys ++ [t] } := by
  have hext : StExt st { st with tys := st.tys ++ [t] } :=
    ⟨List.prefix_rfl, List.prefix_rfl, ⟨[t], rfl⟩⟩
  constructor
  · refine ⟨hwf.1, hwf.2.1, ?_, hwf.2.2.2⟩
    intro ld hld
    exact (hwf.2.2.1 ld hld).trans_le (by simp)
  · intro e he l r op hd
    obtain ⟨h1, h2⟩ := hbo e he l r op hd
    obtain ⟨hb1, hb2⟩ := hwf.2.1 e he l r op hd
    exact ⟨operandOK_mono hext hwf hb1 h1,
      operandOK_mono hext hwf hb2 h2⟩

theorem inv_allocLocalDef {st : St} {ld : LocalDef}
    (hwf : wfSt st) (hbo : binariesOK st)
    (hty : ld.ty < st.tys.length) :
    wfSt { st with localDefs := st.localDefs ++ [ld] } ∧
    binariesOK { st with localDefs := st.localDefs ++ [ld] } := by
  have hext : StExt st { st with localDefs := st.localDefs ++ [ld] } :=
    ⟨List.prefix_rfl, ⟨[ld], rfl⟩, List.prefix_rfl⟩
  constructor
  · refine ⟨?_, hwf.2.1, ?_, ?_⟩
    · intro e he d hd
      exact (hwf.1 e he d hd).trans_le (by simp)
    · intro ld2 hld2
      rcases List.mem_append.1 hld2 with h | h
      · exact hwf.2.2.1 ld2 h
      · rcases List.mem_singleton.1 h with rfl
        exact hty
    · intro sc hsc p hp
      exact (hwf.2.2.2 sc hsc p hp).trans_le (by simp)
  · intro e he l r op hd
    obtain ⟨h1, h2⟩ := hbo e he l r op hd
    obtain ⟨hb1, hb2⟩ := hwf.2.1 e he l r op hd
    exact ⟨operandOK_mono hext hwf hb1 h1,
      operandOK_mono hext hwf hb2 h2⟩

theorem wfSt_scopes {st : St} (hwf : wfSt st)
    {scopes2 : List (List (String × Nat))}
    (h : ∀ sc ∈ scopes2, ∀ p ∈ sc, p.2 < st.localDefs.length) :
    wfSt { st with scopes := scopes2 } :=
  ⟨hwf.1, hwf.2.1, hwf.2.2.1, h⟩

theorem mem_insertA {α : Type} {l : List (String × α)} {k : String}
    {v : α} {p : String × α} (h : p ∈ insertA l k v) :
    p = (k, v) ∨ p ∈ l := by
  rw [insertA] at h
  split at h
  · obtain ⟨q, hq, hfq⟩ := List.mem_map.1 h
    by_cases hk : q.1 = k
    · rw [if_pos hk] at hfq
      exact Or.inl hfq.symm
    · rw [if_neg hk] at hfq
      exact Or.inr (hfq ▸ hq)
  · rcases List.mem_append.1 h with h | h
    · exact Or.inr h
    · exact Or.inl (List.mem_singleton.1 h)

theorem lookupScopes_bound {scopes : List (List (String × Nat))}
    {n : String} {id L : Nat}
    (h : lookupScopes scopes n = some id)
    (hb : ∀ sc ∈ scopes, ∀ p ∈ sc, p.2 < L) : id < L := by
  induction scopes with
  | nil => cases h
  | cons sc rest ih =>
    rw [lookupScopes] at h
    rcases hl : lookupA sc n with - | v
    · simp only [hl] at h
      exact ih h (fun sc2 hsc2 => hb sc2 (List.mem_cons_of_mem _ hsc2))
    · simp only [hl] at h
      injection h with hv
      rw [lookupA] at hl
      rcases hf : sc.find? (fun p => p.1 = n) with - | q
      · rw [hf] at hl
        cases hl
      · rw [hf] at hl
        injection hl with hq
        rw [← hv, ← hq]
        exact hb sc (List.mem_cons_self _ _) q
          (List.mem_of_find?_eq_some hf)

theorem wfSt_init : wfSt St.init := by
  refine ⟨?_, ?_, ?_, ?_⟩ <;> intro x hx <;> cases hx

theorem binariesOK_init : binariesOK St.init := by
  intro e he
  cases he
theorem tyAt_snoc (st : St) (t : Ty) :
    tyAt { st with tys := st.tys ++ [t] } st.tys.length = t :=
  getD_snoc_len _ _ _

theorem prefix_of_eq {α : Type} {l l' : List α} (h : l = l') : l <+: l' :=
  h ▸ List.prefix_rfl

theorem lower_binaries_ok (ctx : Ctx) :
    (∀ (o : Option CExpr) (st : St), wfSt st → binariesOK st →
      ∀ eid tid st', lowerExprOpt ctx o st = .ok (eid, tid, st') →
        StExt st st' ∧ wfSt st' ∧ binariesOK st' ∧
        eid < st'.exprs.length ∧ tid < st'.tys.length ∧
        (o = none → st'.exprs.getD eid .Missing = .Missing) ∧
        (tyAt st' tid = .U32 → operandOK st' eid)) ∧
    (∀ (e : CExpr) (st : St), wfSt st → binariesOK st →
      ∀ ex tid st', lowerExprCore ctx e st = .ok (ex, tid, st') →
        StExt st st' ∧ wfSt st' ∧ binariesOK st' ∧
        tid < st'.tys.length ∧
        (∀ d, ex = .Local d → d < st'.localDefs.length) ∧
        (∀ l r op, ex = .Binary l r op →
          operandOK st' l ∧ operandOK st' r ∧
          l < st'.exprs.length ∧ r < st'.exprs.length) ∧
        (tyAt st' tid = .U32 → ex = .Missing ∨ exprTyIn st' ex = .U32)) ∧
    (∀ (ss : List CStmt) (st : St), wfSt st → binariesOK st →
      ∀ hs st', lowerStmts ctx ss st = .ok (hs, st') →
        StExt st st' ∧ wfSt st' ∧ binariesOK st') ∧
    (∀ (s : CStmt) (st : St), wfSt st → binariesOK st →
      ∀ hst st', lowerStmt ctx s st = .ok (hst, st') →
        StExt st st' ∧ wfSt st' ∧ binariesOK st') := by
  apply lowerExprOpt.mutual_induct ctx
    (fun o st => wfSt st → binariesOK st →
      ∀ eid tid st', lowerExprOpt ctx o st = .ok (eid, tid, st') →
        StExt st st' ∧ wfSt st' ∧ binariesOK st' ∧
        eid < st'.exprs.length ∧ tid < st'.tys.length ∧
        (o = none → st'.exprs.getD eid .Missing = .Missing) ∧
        (tyAt st' tid = .U32 → operandOK st' eid))
    (fun e st => wfSt st → binariesOK st →
      ∀ ex tid st', lowerExprCore ctx e st = .ok (ex, tid, st') →
        StExt st st' ∧ wfSt st' ∧ binariesOK st' ∧
        tid < st'.tys.length ∧
        (∀ d, ex = .Local d → d < st'.localDefs.length) ∧
        (∀ l r op, ex = .Binary l r op →
          operandOK st' l ∧ operandOK st' r ∧
          l < st'.exprs.length ∧ r < st'.exprs.length) ∧
        (tyAt st' tid = .U32 → ex = .Missing ∨ exprTyIn st' ex = .U32))
    (fun ss st => wfSt st → binariesOK st →
      ∀ hs st', lowerStmts ctx ss st = .ok (hs, st') →
        StExt st st' ∧ wfSt st' ∧ binariesOK st')
    (fun s st => wfSt st → binariesOK st →
      ∀ hst st', lowerStmt ctx s st = .ok (hst, st') →
        StExt st st' ∧ wfSt st' ∧ binariesOK st')
  case _ =>
    intro st r lhs rhs op p hlhs ih1
    intro hwf hbo exv tidv stv hok
    have hcore : lowerExprCore ctx (.BinaryExpr r lhs rhs op) st =
        .error p := by
      simp only [lowerExprCore, hlhs]
    rw [hcore] at hok
    cases hok
  case _ =>
    intro st r lhs rhs op lhs0 lhsTy st1 hlhs p hrhs ih1 ih2
    intro hwf hbo exv tidv stv hok
    have hcore : lowerExprCore ctx (.BinaryExpr r lhs rhs op) st =
        .error p := by
      simp only [lowerExprCore, hlhs, hrhs]
    rw [hcore] at hok
    cases hok
  case _ =>
    intro st r lhs rhs lhs0 lhsTy st1 hlhs rhs0 rhsTy st2 hrhs tid st3
      halloc ih1 ih2
    intro hwf hbo exv tidv stv hok
    obtain ⟨htid, hst3⟩ := allocTy_eq halloc
    have hcore : lowerExprCore ctx (.BinaryExpr r lhs rhs none) st =
        .ok (.Missing, tid, st3) := by
      simp only [lowerExprCore, hlhs, hrhs, halloc]
    rw [hcore] at hok
    cases hok
    have h1 := ih1 hwf hbo lhs0 lhsTy st1 hlhs
    have h2 := ih2 h1.2.1 h1.2.2.1 rhs0 rhsTy st2 hrhs
    have hio : wfSt st3 ∧ binariesOK st3 := by
      rw [hst3]
      exact inv_allocTy h2.2.1 h2.2.2.1
    have hext : StExt st2 st3 := by
      rw [hst3]
      exact ⟨List.prefix_rfl, List.prefix_rfl, ⟨[Ty.Unknown], rfl⟩⟩
    refine ⟨stext_trans h1.1 (stext_trans h2.1 hext), hio.1, hio.2,
      ?_, ?_, ?_, ?_⟩
    · rw [htid, hst3]
      simp
    · intro d hd
      cases hd
    · intro l r op hd
      cases hd
    · intro hty
      rw [htid, hst3, tyAt_snoc] at hty
      cases hty
  case _ =>
    intro st r lhs rhs lhs0 lhsTy st1 hlhs rhs0 rhsTy st2 hrhs opTok
      lhsF st3 hmatchL rhsF st4 hmatchR tid st5 halloc ih1 ih2
    intro hwf hbo exv tidv stv hok
    obtain ⟨htid, hst5⟩ := allocTy_eq halloc
    have hcore : lowerExprCore ctx (.BinaryExpr r lhs rhs (some opTok))
        st = .ok (.Binary lhsF rhsF (mapOp opTok), tid, st5) := by
      simp only [lowerExprCore, hlhs, hrhs, hmatchL, hmatchR, halloc]
    rw [hcore] at hok
    cases hok
    have h1 := ih1 hwf hbo lhs0 lhsTy st1 hlhs
    have h2 := ih2 h1.2.1 h1.2.2.1 rhs0 rhsTy st2 hrhs
    have hL : StExt st2 st3 ∧ wfSt st3 ∧ binariesOK st3 ∧
        operandOK st3 lhsF ∧ lhsF < st3.exprs.length := by
      rcases lhs with - | el
      · have hq : (lhs0, st2) = (lhsF, st3) := hmatchL
        injection hq with ha hb
        rw [← hb, ← ha]
        refine ⟨stext_refl st2, h2.2.1, h2.2.2.1, ?_, ?_⟩
        · refine Or.inl ?_
          rw [getD_ext _ h2.1.1 h1.2.2.2.1]
          exact h1.2.2.2.2.2.1 rfl
        · exact lt_of_lt_of_le h1.2.2.2.1 h2.1.1.length_le
      · rcases hm : expect_ty_match Ty.U32 lhsTy el.rng st2 with ⟨b, stx⟩
        have hmL : (match (b, stx) with
            | (true, st) => (lhs0, st)
            | (false, st) => allocExpr Expr.Missing st) = (lhsF, st3) := by
          rw [← hm]
          exact hmatchL
        cases b
        · have hq : allocExpr Expr.Missing stx = (lhsF, st3) := hmL
          obtain ⟨hf, hst3⟩ := allocExpr_eq hq
          obtain ⟨hstx, -⟩ := expect_ty_match_false hm
          have hwfx : wfSt stx := by
            rw [hstx]
            exact h2.2.1
          have hbox : binariesOK stx := by
            rw [hstx]
            exact h2.2.2.1
          have hex2x : StExt st2 stx := by
            rw [hstx]
            exact stext_refl st2
          have hiox : wfSt st3 ∧ binariesOK st3 := by
            rw [hst3]
            exact inv_allocExpr hwfx hbox (fun d hd => nomatch hd)
              (fun l r op hd => nomatch hd)
          have hextx : StExt stx st3 := by
            rw [hst3]
            exact ⟨⟨[Expr.Missing], rfl⟩, List.prefix_rfl,
              List.prefix_rfl⟩
          refine ⟨stext_trans hex2x hextx, hiox.1, hiox.2, ?_, ?_⟩
          · refine Or.inl ?_
            rw [hst3, hf]
            exact getD_snoc_len _ _ _
          · rw [hst3, hf]
            simp
        · have hq : (lhs0, stx) = (lhsF, st3) := hmL
          injection hq with ha hb
          obtain ⟨hstx, hU⟩ := expect_ty_match_true hm
          have htyst1 : tyAt st1 lhsTy = .U32 := by
            rw [tyAt, ← getD_ext Ty.Unknown h2.1.2.2 h1.2.2.2.2.1]
            exact hU
          have hopk2 : operandOK st2 lhs0 :=
            operandOK_mono h2.1 h1.2.1 h1.2.2.2.1
              (h1.2.2.2.2.2.2 htyst1)
          rw [← hb, hstx, ← ha]
          exact ⟨stext_refl st2, h2.2.1, h2.2.2.1, hopk2,
            lt_of_lt_of_le h1.2.2.2.1 h2.1.1.length_le⟩
    have hR : StExt st3 st4 ∧ wfSt st4 ∧ binariesOK st4 ∧
        operandOK st4 rhsF ∧ rhsF < st4.exprs.length := by
      rcases rhs with - | er
      · have hq : (rhs0, st3) = (rhsF, st4) := hmatchR
        injection hq with ha hb
        rw [← hb, ← ha]
        refine ⟨stext_refl st3, hL.2.1, hL.2.2.1, ?_, ?_⟩
        · refine Or.inl ?_
          rw [getD_ext _ hL.1.1 h2.2.2.2.1]
          exact h2.2.2.2.2.2.1 rfl
        · exact lt_of_lt_of_le h2.2.2.2.1 hL.1.1.length_le
      · rcases hm : expect_ty_match Ty.U32 rhsTy er.rng st3 with ⟨b, stx⟩
        have hmR : (match (b, stx) with
            | (true, st) => (rhs0, st)
            | (false, st) => allocExpr Expr.Missing st) = (rhsF, st4) := by
          rw [← hm]
          exact hmatchR
        cases b
        · have hq : allocExpr Expr.Missing stx = (rhsF, st4) := hmR
          obtain ⟨hf, hst4⟩ := allocExpr_eq hq
          obtain ⟨hstx, -⟩ := expect_ty_match_false hm
          have hwfx : wfSt stx := by
            rw [hstx]
            exact hL.2.1
          have hbox : binariesOK stx := by
            rw [hstx]
            exact hL.2.2.1
          have hex3x : StExt st3 stx := by
            rw [hstx]
            exact stext_refl st3
          have hiox : wfSt st4 ∧ binariesOK st4 := by
            rw [hst4]
            exact inv_allocExpr hwfx hbox (fun d hd => nomatch hd)
              (fun l r op hd => nomatch hd)
          have hextx : StExt stx st4 := by
            rw [hst4]
            exact ⟨⟨[Expr.Missing], rfl⟩, List.prefix_rfl,
              List.prefix_rfl⟩
          refine ⟨stext_trans hex3x hextx, hiox.1, hiox.2, ?_, ?_⟩
          · refine Or.inl ?_
            rw [hst4, hf]
            exact getD_snoc_len _ _ _
          · rw [hst4, hf]
            simp
        · have hq : (rhs0, stx) = (rhsF, st4) := hmR
          injection hq with ha hb
          obtain ⟨hstx, hU⟩ := expect_ty_match_true hm
          have htyst2 : tyAt st2 rhsTy = .U32 := by
            rw [tyAt, ← getD_ext Ty.Unknown hL.1.2.2 h2.2.2.2.2.1]
            exact hU
          have hopk3 : operandOK st3 rhs0 :=
            operandOK_mono hL.1 h2.2.1 h2.2.2.2.1
              (h2.2.2.2.2.2.2 htyst2)
          rw [← hb, hstx, ← ha]
          exact ⟨stext_refl st3, hL.2.1, hL.2.2.1, hopk3,
            lt_of_lt_of_le h2.2.2.2.1 hL.1.1.length_le⟩
    have hext45 : StExt st4 st5 := by
      rw [hst5]
      exact ⟨List.prefix_rfl, List.prefix_rfl, ⟨[Ty.U32], rfl⟩⟩
    have hio5 : wfSt st5 ∧ binariesOK st5 := by
      rw [hst5]
      exact inv_allocTy hR.2.1 hR.2.2.1
    refine ⟨stext_trans h1.1 (stext_trans h2.1
        (stext_trans hL.1 (stext_trans hR.1 hext45))),
      hio5.1, hio5.2, ?_, ?_, ?_, ?_⟩
    · rw [htid, hst5]
      simp
    · intro d hd
      cases hd
    · intro l0 r0 op0 hd
      injection hd with hl0 hr0 hop0
      rw [← hl0, ← hr0]
      have hokL : operandOK st5 lhsF :=
        operandOK_mono hext45 hR.2.1
          (lt_of_lt_of_le hL.2.2.2.2 hR.1.1.length_le)
          (operandOK_mono hR.1 hL.2.1 hL.2.2.2.2 hL.2.2.2.1)
      have hokR : operandOK st5 rhsF :=
        operandOK_mono hext45 hR.2.1 hR.2.2.2.2 hR.2.2.2.1
      refine ⟨hokL, hokR, ?_, ?_⟩
      · exact lt_of_lt_of_le
          (lt_of_lt_of_le hL.2.2.2.2 hR.1.1.length_le)
          hext45.1.length_le
      · exact lt_of_lt_of_le hR.2.2.2.2 hext45.1.length_le
    · intro hty
      exact Or.inr rfl
  case _ =>
    intro st r stmts st1 p herr ih3
    intro hwf hbo exv tidv stv hok
    have herr' : lowerStmts ctx stmts
        { st with scopes := [] :: st.scopes } = .error p := herr
    have hcore : lowerExprCore ctx (.BlockExpr r stmts) st =
        .error p := by
      simp only [lowerExprCore, herr']
    rw [hcore] at hok
    cases hok
  case _ =>
    intro st r stmts st1 hstmts st2 hok4 st3 tid st4 halloc ih3
    intro hwf hbo exv tidv stv hok
    obtain ⟨htid, hst4⟩ := allocTy_eq halloc
    have hok4' : lowerStmts ctx stmts
        { st with scopes := [] :: st.scopes } = .ok (hstmts, st2) := hok4
    have halloc' : allocTy Ty.Void
        { st2 with scopes := st2.scopes.tail } = (tid, st4) := halloc
    have hcore : lowerExprCore ctx (.BlockExpr r stmts) st =
        .ok (.Block hstmts, tid, st4) := by
      simp only [lowerExprCore, hok4', halloc']
    rw [hcore] at hok
    cases hok
    have hwf1 : wfSt { st with scopes := [] :: st.scopes } := by
      refine wfSt_scopes hwf ?_
      intro sc hsc p hp
      rcases List.mem_cons.1 hsc with rfl | hsc2
      · cases hp
      · exact hwf.2.2.2 _ hsc2 p hp
    have hbo1 : binariesOK { st with scopes := [] :: st.scopes } := hbo
    have h3 := ih3 hwf1 hbo1 hstmts st2 hok4
    have hext02 : StExt st st2 := h3.1
    have hwf3 : wfSt { st2 with scopes := st2.scopes.tail } := by
      refine wfSt_scopes h3.2.1 ?_
      intro sc hsc p hp
      exact h3.2.1.2.2.2 sc (List.mem_of_mem_tail hsc) p hp
    have hbo3 : binariesOK { st2 with scopes := st2.scopes.tail } :=
      h3.2.2
    have hio : wfSt st4 ∧ binariesOK st4 := by
      rw [hst4]
      exact inv_allocTy hwf3 hbo3
    have hext24 : StExt st2 st4 := by
      rw [hst4]
      exact ⟨List.prefix_rfl, List.prefix_rfl, ⟨[Ty.Void], rfl⟩⟩
    refine ⟨stext_trans hext02 hext24, hio.1, hio.2, ?_, ?_, ?_, ?_⟩
    · rw [htid, hst4]
      simp
    · intro d hd
      cases hd
    · intro l r op hd
      cases hd
    · intro hty
      rw [htid, hst4, tyAt_snoc] at hty
      cases hty
  case _ =>
    intro st r tid st1 halloc
    intro hwf hbo exv tidv stv hok
    obtain ⟨htid, hst1⟩ := allocTy_eq halloc
    have hcore : lowerExprCore ctx (.CallExpr r none) st =
        .ok (.Missing, tid, st1) := by
      simp only [lowerExprCore, halloc]
    rw [hcore] at hok
    cases hok
    have hio : wfSt st1 ∧ binariesOK st1 := by
      rw [hst1]
      exact inv_allocTy hwf hbo
    refine ⟨?_, hio.1, hio.2, ?_, ?_, ?_, ?_⟩
    · rw [hst1]
      exact ⟨List.prefix_rfl, List.prefix_rfl, ⟨[Ty.Void], rfl⟩⟩
    · rw [htid, hst1]
      simp
    · intro d hd
      cases hd
    · intro l r op hd
      cases hd
    · intro h2
      exact Or.inl rfl
  case _ =>
    intro st r p path st1 hpath tid st2 halloc
    intro hwf hbo exv tidv stv hok
    have hps := lowerPath_state ctx p st
    rw [hpath] at hps
    obtain ⟨htid, hst2⟩ := allocTy_eq halloc
    have hcore : lowerExprCore ctx (.CallExpr r (some p)) st =
        .ok (.Call path, tid, st2) := by
      simp only [lowerExprCore, hpath, halloc]
    rw [hcore] at hok
    cases hok
    have hwf1 : wfSt st1 := wfSt_of_eq hwf hps.2.1.symm
      hps.2.2.1.symm hps.2.2.2.1.symm hps.2.2.2.2.symm
    have hbo1 : binariesOK st1 := binariesOK_of_eq hbo hps.2.1.symm
      hps.2.2.1.symm hps.2.2.2.1.symm
    have hio : wfSt st2 ∧ binariesOK st2 := by
      rw [hst2]
      exact inv_allocTy hwf1 hbo1
    have hext1 : StExt st st1 := ⟨prefix_of_eq hps.2.1.symm,
      prefix_of_eq hps.2.2.1.symm, prefix_of_eq hps.2.2.2.1.symm⟩
    have hext2 : StExt st1 st2 := by
      rw [hst2]
      exact ⟨List.prefix_rfl, List.prefix_rfl, ⟨[Ty.Void], rfl⟩⟩
    refine ⟨stext_trans hext1 hext2, hio.1, hio.2, ?_, ?_, ?_, ?_⟩
    · rw [htid, hst2]
      simp
    · intro d hd
      cases hd
    · intro l r op hd
      cases hd
    · intro hty
      rw [htid, hst2, tyAt_snoc] at hty
      cases hty
  case _ =>
    intro st r p pth fields st1 hpath st2l tid st3 halloc
    intro hwf hbo exv tidv stv hok
    have hps := lowerPath_state ctx p st
    rw [hpath] at hps
    have halloc' : allocTy Ty.Void
        { st1 with
          errors := st1.errors ++
            [⟨.ExpectedFunctionFoundTy, p.rng⟩] } = (tid, st3) := halloc
    obtain ⟨htid, hst3⟩ := allocTy_eq halloc'
    have hcore : lowerExprCore ctx (.CallExpr r (some p)) st =
        .ok (.Missing, tid, st3) := by
      simp only [lowerExprCore, hpath, halloc']
    rw [hcore] at hok
    cases hok
    have hwf1 : wfSt st1 := wfSt_of_eq hwf hps.2.1.symm
      hps.2.2.1.symm hps.2.2.2.1.symm hps.2.2.2.2.symm
    have hbo1 : binariesOK st1 := binariesOK_of_eq hbo hps.2.1.symm
      hps.2.2.1.symm hps.2.2.2.1.symm
    have hio : wfSt st3 ∧ binariesOK st3 := by
      rw [hst3]
      exact inv_allocTy hwf1 hbo1
    have hext1 : StExt st st1 := ⟨prefix_of_eq hps.2.1.symm,
      prefix_of_eq hps.2.2.1.symm, prefix_of_eq hps.2.2.2.1.symm⟩
    have hext2 : StExt st1 st3 := by
      rw [hst3]
      exact ⟨List.prefix_rfl, List.prefix_rfl, ⟨[Ty.Void], rfl⟩⟩
    refine ⟨stext_trans hext1 hext2, hio.1, hio.2, ?_, ?_, ?_, ?_⟩
    · rw [htid, hst3]
      simp
    · intro d hd
      cases hd
    · intro l r op hd
      cases hd
    · intro h2
      exact Or.inl rfl
  case _ =>
    intro st r p st1 hpath tid st2 halloc
    intro hwf hbo exv tidv stv hok
    have hps := lowerPath_state ctx p st
    rw [hpath] at hps
    obtain ⟨htid, hst2⟩ := allocTy_eq halloc
    have hcore : lowerExprCore ctx (.CallExpr r (some p)) st =
        .ok (.Missing, tid, st2) := by
      simp only [lowerExprCore, hpath, halloc]
    rw [hcore] at hok
    cases hok
    have hwf1 : wfSt st1 := wfSt_of_eq hwf hps.2.1.symm
      hps.2.2.1.symm hps.2.2.2.1.symm hps.2.2.2.2.symm
    have hbo1 : binariesOK st1 := binariesOK_of_eq hbo hps.2.1.symm
      hps.2.2.1.symm hps.2.2.2.1.symm
    have hio : wfSt st2 ∧ binariesOK st2 := by
      rw [hst2]
      exact inv_allocTy hwf1 hbo1
    have hext1 : StExt st st1 := ⟨prefix_of_eq hps.2.1.symm,
      prefix_of_eq hps.2.2.1.symm, prefix_of_eq hps.2.2.2.1.symm⟩
    have hext2 : StExt st1 st2 := by
      rw [hst2]
      exact ⟨List.prefix_rfl, List.prefix_rfl, ⟨[Ty.Void], rfl⟩⟩
    refine ⟨stext_trans hext1 hext2, hio.1, hio.2, ?_, ?_, ?_, ?_⟩
    · rw [htid, hst2]
      simp
    · intro d hd
      cases hd
    · intro l r op hd
      cases hd
    · intro h2
      exact Or.inl rfl
  case _ =>
    intro st r name id hlook
    intro hwf hbo exv tidv stv hok
    have hcore : lowerExprCore ctx (.VariableExpr r name) st =
        .ok (.Local id, (st.localDefs.getD id ⟨0, 0⟩).ty, st) := by
      simp only [lowerExprCore, hlook]
    rw [hcore] at hok
    cases hok
    have hid : id < st.localDefs.length :=
      lookupScopes_bound hlook hwf.2.2.2
    have htyb : (st.localDefs.getD id ⟨0, 0⟩).ty < st.tys.length :=
      hwf.2.2.1 _ (getD_mem _ hid)
    refine ⟨stext_refl st, hwf, hbo, htyb, ?_, ?_, ?_⟩
    · intro d hd
      injection hd with h
      rw [← h]
      exact hid
    · intro l r op hd
      cases hd
    · intro hty
      refine Or.inr ?_
      simp only [exprTyIn, exprTyL]
      exact hty
  case _ =>
    intro st r name hlook st1l tid st2 halloc
    intro hwf hbo exv tidv stv hok
    have halloc' : allocTy Ty.Unknown
        { st with errors := st.errors ++ [⟨.UndefinedVariable, r⟩] } =
        (tid, st2) := halloc
    obtain ⟨htid, hst2⟩ := allocTy_eq halloc'
    have hcore : lowerExprCore ctx (.VariableExpr r name) st =
        .ok (.Missing, tid, st2) := by
      simp only [lowerExprCore, hlook, halloc']
    rw [hcore] at hok
    cases hok
    have hio : wfSt st2 ∧ binariesOK st2 := by
      rw [hst2]
      exact inv_allocTy hwf hbo
    refine ⟨?_, hio.1, hio.2, ?_, ?_, ?_, ?_⟩
    · rw [hst2]
      exact ⟨List.prefix_rfl, List.prefix_rfl, ⟨[Ty.Unknown], rfl⟩⟩
    · rw [htid, hst2]
      simp
    · intro d hd
      cases hd
    · intro l r op hd
      cases hd
    · intro h2
      exact Or.inl rfl
  case _ =>
    intro st r text v hparse tid st1 halloc
    intro hwf hbo exv tidv stv hok
    obtain ⟨htid, hst1⟩ := allocTy_eq halloc
    have hcore : lowerExprCore ctx (.IntegerExpr r text) st =
        .ok (.Integer v, tid, st1) := by
      simp only [lowerExprCore, hparse, halloc]
    rw [hcore] at hok
    cases hok
    have hio : wfSt st1 ∧ binariesOK st1 := by
      rw [hst1]
      exact inv_allocTy hwf hbo
    refine ⟨?_, hio.1, hio.2, ?_, ?_, ?_, ?_⟩
    · rw [hst1]
      exact ⟨List.prefix_rfl, List.prefix_rfl, ⟨[Ty.U32], rfl⟩⟩
    · rw [htid, hst1]
      simp
    · intro d hd
      cases hd
    · intro l r op hd
      cases hd
    · intro h2
      exact Or.inr rfl
  case _ =>
    intro st r text hparse
    intro hwf hbo exv tidv stv hok
    have hcore : lowerExprCore ctx (.IntegerExpr r text) st =
        .error .IntParse := by
      simp only [lowerExprCore, hparse]
    rw [hcore] at hok
    cases hok
  case _ =>
    intro st name value p herr ih1
    intro hwf hbo hstv stv hok
    have hstmt : lowerStmt ctx (.VarStmt name value) st = .error p := by
      simp only [lowerStmt, herr]
    rw [hstmt] at hok
    cases hok
  case _ =>
    intro st value vid tid st1 hval ldid st2 halloc n hscopes ih1
    intro hwf hbo hstv stv hok
    have hstmt : lowerStmt ctx (.VarStmt (some n) value) st =
        .error .EmptyScopes := by
      simp only [lowerStmt, hval, halloc, hscopes]
    rw [hstmt] at hok
    cases hok
  case _ =>
    intro st value vid tid st1 hval ldid st2 halloc n s0 rest hscopes ih1
    intro hwf hbo hstv stv hok
    have hstmt : lowerStmt ctx (.VarStmt (some n) value) st =
        .ok (.LocalDef ldid,
          { st2 with scopes := insertA s0 n ldid :: rest }) := by
      simp only [lowerStmt, hval, halloc, hscopes]
    rw [hstmt] at hok
    cases hok
    have h1 := ih1 hwf hbo vid tid st1 hval
    obtain ⟨hld, hst2⟩ := allocLocalDef_eq halloc
    have hio2 : wfSt st2 ∧ binariesOK st2 := by
      rw [hst2]
      exact inv_allocLocalDef h1.2.1 h1.2.2.1 h1.2.2.2.2.1
    have hwfF : wfSt { st2 with scopes := insertA s0 n ldid :: rest } := by
      refine wfSt_scopes hio2.1 ?_
      intro sc hsc q hq
      rcases List.mem_cons.1 hsc with rfl | hsc2
      · rcases mem_insertA hq with rfl | hq2
        · rw [hld, hst2]
          simp
        · exact hio2.1.2.2.2 s0
            (by rw [hscopes]; exact List.mem_cons_self _ _) q hq2
      · exact hio2.1.2.2.2 sc
          (by rw [hscopes]; exact List.mem_cons_of_mem _ hsc2) q hq
    have hboF : binariesOK
        { st2 with scopes := insertA s0 n ldid :: rest } := hio2.2
    have hext12 : StExt st1 st2 := by
      rw [hst2]
      exact ⟨List.prefix_rfl, ⟨[⟨tid, vid⟩], rfl⟩, List.prefix_rfl⟩
    have hext2F : StExt st2
        { st2 with scopes := insertA s0 n ldid :: rest } :=
      ⟨List.prefix_rfl, List.prefix_rfl, List.prefix_rfl⟩
    exact ⟨stext_trans h1.1 (stext_trans hext12 hext2F), hwfF, hboF⟩
  case _ =>
    intro st value vid tid st1 hval ldid st2 halloc ih1
    intro hwf hbo hstv stv hok
    have hstmt : lowerStmt ctx (.VarStmt none value) st =
        .ok (.LocalDef ldid, st2) := by
      simp only [lowerStmt, hval, halloc]
    rw [hstmt] at hok
    cases hok
    have h1 := ih1 hwf hbo vid tid st1 hval
    obtain ⟨hld, hst2⟩ := allocLocalDef_eq halloc
    have hio2 : wfSt st2 ∧ binariesOK st2 := by
      rw [hst2]
      exact inv_allocLocalDef h1.2.1 h1.2.2.1 h1.2.2.2.2.1
    have hext12 : StExt st1 st2 := by
      rw [hst2]
      exact ⟨List.prefix_rfl, ⟨[⟨tid, vid⟩], rfl⟩, List.prefix_rfl⟩
    exact ⟨stext_trans h1.1 hext12, hio2.1, hio2.2⟩
  case _ =>
    intro st eid st1 halloc1 tid st2 halloc2
    intro hwf hbo eidv tidv stv hok
    obtain ⟨heid, hst1⟩ := allocExpr_eq halloc1
    obtain ⟨htid, hst2⟩ := allocTy_eq halloc2
    have hopt : lowerExprOpt ctx none st = .ok (eid, tid, st2) := by
      simp only [lowerExprOpt, halloc1, halloc2]
    rw [hopt] at hok
    cases hok
    have hio1 : wfSt st1 ∧ binariesOK st1 := by
      rw [hst1]
      exact inv_allocExpr hwf hbo (fun d hd => nomatch hd)
        (fun l r op hd => nomatch hd)
    have hio2 : wfSt st2 ∧ binariesOK st2 := by
      rw [hst2]
      exact inv_allocTy hio1.1 hio1.2
    have hext1 : StExt st st1 := by
      rw [hst1]
      exact ⟨⟨[Expr.Missing], rfl⟩, List.prefix_rfl, List.prefix_rfl⟩
    have hext2 : StExt st1 st2 := by
      rw [hst2]
      exact ⟨List.prefix_rfl, List.prefix_rfl, ⟨[Ty.Unknown], rfl⟩⟩
    have hgd : st2.exprs.getD eid .Missing = .Missing := by
      rw [heid, hst2, hst1]
      exact getD_snoc_len _ _ _
    refine ⟨stext_trans hext1 hext2, hio2.1, hio2.2, ?_, ?_, ?_, ?_⟩
    · rw [heid, hst2, hst1]
      simp
    · rw [htid, hst2]
      simp
    · intro h2
      exact hgd
    · intro h2
      exact Or.inl hgd
  case _ =>
    intro st e p herr ih2
    intro hwf hbo eidv tidv stv hok
    have hopt : lowerExprOpt ctx (some e) st = .error p := by
      simp only [lowerExprOpt, herr]
    rw [hopt] at hok
    cases hok
  case _ =>
    intro st e ex tid st1 hcore eid st2 halloc ih2
    intro hwf hbo eidv tidv stv hok
    have h2 := ih2 hwf hbo ex tid st1 hcore
    obtain ⟨heid, hst2⟩ := allocExpr_eq halloc
    have hopt : lowerExprOpt ctx (some e) st = .ok (eid, tid, st2) := by
      simp only [lowerExprOpt, hcore, halloc]
    rw [hopt] at hok
    cases hok
    have hio : wfSt st2 ∧ binariesOK st2 := by
      rw [hst2]
      exact inv_allocExpr h2.2.1 h2.2.2.1 h2.2.2.2.2.1 h2.2.2.2.2.2.1
    have hext12 : StExt st1 st2 := by
      rw [hst2]
      exact ⟨⟨[ex], rfl⟩, List.prefix_rfl, List.prefix_rfl⟩
    refine ⟨stext_trans h2.1 hext12, hio.1, hio.2, ?_, ?_, ?_, ?_⟩
    · rw [heid, hst2]
      simp
    · rw [hst2]
      exact h2.2.2.2.1
    · intro hc
      cases hc
    · intro hty
      rw [hst2] at hty
      have hty1 : tyAt st1 tid = .U32 := hty
      have hgd : st2.exprs.getD eid .Missing = ex := by
        rw [heid, hst2]
        exact getD_snoc_len _ _ _
      rcases h2.2.2.2.2.2.2 hty1 with hm | hm
      · exact Or.inl (hgd.trans hm)
      · refine Or.inr ?_
        rw [hgd]
        rw [exprTyIn_mono hext12 h2.2.1 h2.2.2.2.2.1]
        exact hm
  case _ =>
    intro st
    intro hwf hbo hsv stv hok
    rw [show lowerStmts ctx [] st = .ok ([], st) from by
      rw [lowerStmts]] at hok
    cases hok
    exact ⟨stext_refl st, hwf, hbo⟩
  case _ =>
    intro st s rest p herr ih4
    intro hwf hbo hsv stv hok
    have hstmts : lowerStmts ctx (s :: rest) st = .error p := by
      simp only [lowerStmts, herr]
    rw [hstmts] at hok
    cases hok
  case _ =>
    intro st s rest hs st1 hstmt p herr ih4 ih3
    intro hwf hbo hsv stv hok
    have hstmts : lowerStmts ctx (s :: rest) st = .error p := by
      simp only [lowerStmts, hstmt, herr]
    rw [hstmts] at hok
    cases hok
  case _ =>
    intro st s rest hs st1 hstmt hrest st2 hok4 ih4 ih3
    intro hwf hbo hsv stv hok
    have hstmts : lowerStmts ctx (s :: rest) st =
        .ok (hs :: hrest, st2) := by
      simp only [lowerStmts, hstmt, hok4]
    rw [hstmts] at hok
    cases hok
    have h4 := ih4 hwf hbo hs st1 hstmt
    have h3 := ih3 h4.2.1 h4.2.2 hrest st2 hok4
    exact ⟨stext_trans h4.1 h3.1, h3.2.1, h3.2.2⟩

theorem lowerItems_binaries (ctx : Ctx) (items : List CItem) :
    ∀ st : St, wfSt st → binariesOK st →
      ∀ st2, lowerItems ctx items st = .ok st2 →
        wfSt st2 ∧ binariesOK st2 := by
  induction items with
  | nil =>
    intro st hwf hbo st2 hok
    rw [show lowerItems ctx [] st = .ok st from by rw [lowerItems]] at hok
    cases hok
    exact ⟨hwf, hbo⟩
  | cons it rest ih =>
    intro st hwf hbo st2 hok
    rcases it with - | ⟨name, body⟩
    · rw [show lowerItems ctx (CItem.Strukt :: rest) st =
        lowerItems ctx rest st from rfl] at hok
      exact ih st hwf hbo st2 hok
    · rcases name with - | n
      · rw [show lowerItems ctx (CItem.Function none body :: rest) st =
          lowerItems ctx rest st from rfl] at hok
        exact ih st hwf hbo st2 hok
      · rcases hfun : lowerFunction ctx n
            (body.map (fun b => CExpr.BlockExpr b.1 b.2)) st
          with p | stf
        · have heq : lowerItems ctx
              (CItem.Function (some n) body :: rest) st = .error p := by
            simp only [lowerItems, lowerItem, hfun]
          rw [heq] at hok
          cases hok
        · have heq : lowerItems ctx
              (CItem.Function (some n) body :: rest) st =
              lowerItems ctx rest stf := by
            simp only [lowerItems, lowerItem, hfun]
          rw [heq] at hok
          have hff := hfun
          rw [lowerFunction] at hff
          rcases ho : lowerExprOpt ctx
              (body.map (fun b => CExpr.BlockExpr b.1 b.2)) st
            with p2 | ⟨eid, tid, stb⟩
          · simp only [ho] at hff
            cases hff
          · simp only [ho] at hff
            injection hff with hff1
            have h1 := (lower_binaries_ok ctx).1 _ st hwf hbo
              eid tid stb ho
            have hwfb : wfSt stf := by
              rw [← hff1]
              exact h1.2.1
            have hbob : binariesOK stf := by
              rw [← hff1]
              exact h1.2.2.1
            exact ih stf hwfb hbob st2 hok

/-- C2: every Binary expression in the final HIR produced by a
successful run of hir::lower has both operands either Missing or
computed-type U32 — never any other type: the type check replaces a
failing operand with Missing before the Binary is stored, and later
arena growth never changes an existing entry. -/
theorem claim_C2_binary_operands_welltyped (ctx : Ctx)
    (items : List CItem) (h : Hir) (errs : List Error)
    (hok : lowerHir ctx items = .ok (h, errs))
    (e : Expr) (he : e ∈ h.exprs) (l r : Nat) (op : BinaryOp)
    (hbin : e = .Binary l r op) :
    operandOKHir h l ∧ operandOKHir h r := by
  rcases hlw : lower ctx items with p | st
  · simp only [lowerHir, hlw] at hok
    cases hok
  · simp only [lowerHir, hlw] at hok
    cases hok
    obtain ⟨hwf, hbo⟩ := lowerItems_binaries ctx items St.init
      wfSt_init binariesOK_init st hlw
    exact hbo e he l r op hbin

/-- C2 witness: the theorem applied to the lowered form of
function f with body var x = 1 + 2, whose arena holds the Binary
expression with both integer operands typed U32. -/
theorem claim_C2_binary_operands_welltyped_witness :
    operandOKHir
        ⟨[("f", 3)],
          [.Integer 1, .Integer 2, .Binary 0 1 .Add,
            .Block [.LocalDef 0]],
          [⟨2, 2⟩], [.U32, .U32, .U32, .Void]⟩ 0 ∧
    operandOKHir
        ⟨[("f", 3)],
          [.Integer 1, .Integer 2, .Binary 0 1 .Add,
            .Block [.LocalDef 0]],
          [⟨2, 2⟩], [.U32, .U32, .U32, .Void]⟩ 1 :=
  claim_C2_binary_operands_welltyped ctx0 binItems
    ⟨[("f", 3)],
      [.Integer 1, .Integer 2, .Binary 0 1 .Add, .Block [.LocalDef 0]],
      [⟨2, 2⟩], [.U32, .U32, .U32, .Void]⟩ []
    (by
      simp only [lowerHir, lower, lowerItems, lowerItem, lowerFunction,
        lowerExprOpt, lowerExprCore, lowerStmts, lowerStmt,
        expect_ty_match, pretty_print_ty, allocExpr, allocTy,
        allocLocalDef, parseU32, lookupScopes, lookupA, insertA,
        binItems, ctx0, St.init, St.toHir, Option.map]
      rfl)
    (.Binary 0 1 .Add) (by decide) 0 1 .Add rfl
end Front
